import Mathlib

/-!
Verification of the sitemap-go model/codec library (src/model.go).

The Go source defines plain data records (SitemapIndex, SitemapEntry, URLSet,
URL, Image, Video, Alternate), an options-based builder (MakeUrl), and XML
serialization/deserialization implemented with Go's encoding/xml package
(xml.MarshalIndent with prefix "" and indent "  ", xml.Unmarshal with the
default strict Decoder).

This file shallowly embeds the library.  Data records are Lean structures with
the Go field names.  The behaviour of encoding/xml, strconv and time on the
concrete types of model.go is embedded directly:

* strings are modelled as sequences of unicode scalar values (List Char);
* time.Time is modelled as GoTime, a record of calendar components plus a
  zone offset in minutes; time.Now() is supplied as an explicit parameter;
* float64 is modelled as GoFloat, a signed decimal mantissa/exponent pair;
  a finite float64 corresponds to its shortest decimal representation
  (the output of strconv.FormatFloat(x, 'g', -1, 64)), which is exactly the
  normalized GoFloat values.  Infinities, NaN, hex float syntax, digit-group
  underscores and overflow-to-range-error of strconv.ParseFloat are outside
  the model (none is reachable from data produced by this library's encoder);
* the marshaller is embedded as a function computing the exact byte sequence
  MarshalIndent produces for these types, including the indentation rules,
  the omitempty contract and text/attribute escaping (escapeText);
* the unmarshaller is embedded as a tokenizer mirroring Decoder.rawToken /
  Decoder.text in strict mode, plus the field-matching walk of
  encoding/xml/read.go specialized to the struct types of model.go.

Loops that Go bounds by input exhaustion are given explicit fuel; every loop
iteration consumes at least one input character, so fuel = input length + 1
always suffices, and the top-level entry points instantiate it that way.
-/

set_option maxRecDepth 4000

namespace SitemapGo

/-! ## Decimal digits -/

/-- Character for a single decimal digit value. -/
def digitChar (d : Nat) : Char := Char.ofNat (48 + d)

/-- Little-endian decimal digits of a natural number; the first argument is
fuel (any fuel at least the number itself is enough). -/
def natDigitsAux : Nat → Nat → List Nat
  | 0, _ => []
  | fuel + 1, n => if n = 0 then [] else n % 10 :: natDigitsAux fuel (n / 10)

/-- Decimal digit characters of a natural number, most significant first,
as strconv/fmt print it (no sign, no padding, "0" for zero). -/
def natChars (n : Nat) : List Char :=
  if n = 0 then ['0'] else ((natDigitsAux n n).map digitChar).reverse

/-- Left-pad a digit string with zeros to a given width. -/
def padZeros (w : Nat) (ds : List Char) : List Char :=
  List.replicate (w - ds.length) '0' ++ ds

/-- Two-digit zero-padded decimal (Go time layout "01", "02", ...). -/
def pad2 (n : Nat) : List Char := padZeros 2 (natChars n)

/-- Four-digit zero-padded decimal (Go time layout "2006"). -/
def pad4 (n : Nat) : List Char := padZeros 4 (natChars n)

/-- Decimal digit test, as Go's isDigit. -/
def isDigitCh (c : Char) : Bool := '0' ≤ c && c ≤ '9'

/-- Numeric value of a decimal digit character. -/
def digitVal (c : Char) : Nat := c.toNat - 48

/-- Value of a digit string, most significant first. -/
def digitsVal (ds : List Char) : Nat := ds.foldl (fun a c => 10 * a + digitVal c) 0

/-- Read exactly two decimal digits (Go's getnum2 / parseUint on a 2-byte slice). -/
def parse2 : List Char → Option (Nat × List Char)
  | a :: b :: r =>
    if isDigitCh a && isDigitCh b then some (10 * digitVal a + digitVal b, r) else none
  | _ => none

/-- Read exactly four decimal digits (the year field of Go's parseRFC3339). -/
def parse4 : List Char → Option (Nat × List Char)
  | a :: b :: c :: d :: r =>
    if isDigitCh a && isDigitCh b && isDigitCh c && isDigitCh d then
      some (1000 * digitVal a + 100 * digitVal b + 10 * digitVal c + digitVal d, r)
    else none
  | _ => none

/-- Expect one specific character. -/
def expectCh (c : Char) : List Char → Option (List Char)
  | x :: r => if x = c then some r else none
  | [] => none

/-! ## time.Time -/

/-- Model of a Go time.Time value at the precision the codec can observe:
calendar components plus the zone offset in minutes.  (Go zone offsets with
sub-minute resolution are not representable in the RFC 3339 layouts either.) -/
structure GoTime where
  year : Nat
  month : Nat
  day : Nat
  hour : Nat
  minute : Nat
  second : Nat
  nanosec : Nat
  offsetMin : Int
deriving DecidableEq

/-- Leap-year rule (Go time.isLeap). -/
def isLeap (y : Nat) : Bool := y % 4 = 0 && (y % 100 ≠ 0 || y % 400 = 0)

/-- Days in a month (Go time.daysIn). -/
def daysIn (m y : Nat) : Nat :=
  if m = 2 then (if isLeap y then 29 else 28)
  else if m = 4 ∨ m = 6 ∨ m = 9 ∨ m = 11 then 30
  else 31

/-- The GoTime records that denote a real time.Time value renderable in the
four-digit-year RFC 3339 layouts: this is the precondition for the
format/parse round trip.  Real time.Time values always have valid calendar
components; year and offset bounds are what Go's strict RFC 3339 parser
(time.parseRFC3339, used by time.Parse for the RFC3339 layout) accepts. -/
def GoTime.valid (t : GoTime) : Bool :=
  t.year ≤ 9999 && 1 ≤ t.month && t.month ≤ 12 &&
  1 ≤ t.day && t.day ≤ daysIn t.month t.year &&
  t.hour ≤ 23 && t.minute ≤ 59 && t.second ≤ 59 && t.nanosec < 1000000000 &&
  (-(23 * 60 + 59) : Int) ≤ t.offsetMin && t.offsetMin ≤ (23 * 60 + 59 : Int)

/-- Strip trailing zero characters (used for the fractional second). -/
def stripTrailZeroCh (ds : List Char) : List Char :=
  (ds.reverse.dropWhile (fun c => c = '0')).reverse

/-- Fractional-second text of time.RFC3339Nano: nine zero-padded digits with
trailing zeros removed, preceded by a dot; empty when the nanosecond is 0
(Go time.fmtFrac with unit digits removed). -/
def fracChars (ns : Nat) : List Char :=
  if ns = 0 then [] else '.' :: stripTrailZeroCh (padZeros 9 (natChars ns))

/-- Zone suffix of the "Z07:00" layout element: "Z" for offset zero, else
a sign and zero-padded hours and minutes. -/
def offsetChars (off : Int) : List Char :=
  if off = 0 then ['Z']
  else
    (if off < 0 then '-' else '+') :: (pad2 (off.natAbs / 60) ++ ':' :: pad2 (off.natAbs % 60))

/-- Rendering of a time.Time under layout time.RFC3339Nano, which is what
encoding/xml uses to marshal a time.Time field (marshal.go marshalSimple). -/
def formatRFC3339Nano (t : GoTime) : List Char :=
  pad4 t.year ++ '-' :: pad2 t.month ++ '-' :: pad2 t.day ++ 'T' :: pad2 t.hour
    ++ ':' :: pad2 t.minute ++ ':' :: pad2 t.second
    ++ fracChars t.nanosec ++ offsetChars t.offsetMin

/-- Optional fractional second of time.parseRFC3339: a dot, then at least one
digit; only the first nine digits contribute (parseNanoseconds truncates). -/
def parseFrac (l : List Char) : Option (Nat × List Char) :=
  match l with
  | '.' :: r =>
    let ds := r.takeWhile isDigitCh
    if ds.isEmpty then none
    else
      let d9 := ds.take 9
      some (digitsVal d9 * 10 ^ (9 - d9.length), r.drop ds.length)
  | _ => none

/-- Zone of time.parseRFC3339: "Z", or sign, two-digit hour at most 23,
colon, two-digit minute at most 59. -/
def parseOffset : List Char → Option (Int × List Char)
  | [] => none
  | c :: r =>
    if c = 'Z' then some (0, r)
    else if c = '+' ∨ c = '-' then
      match parse2 r with
      | some (hh, r1) =>
        match expectCh ':' r1 with
        | some r2 =>
          match parse2 r2 with
          | some (mm, r3) =>
            if hh ≤ 23 && mm ≤ 59 then
              some ((if c = '-' then -(hh * 60 + mm : Int) else (hh * 60 + mm : Int)), r3)
            else none
          | none => none
        | none => none
      | none => none
    else none

/-- Go's strict RFC 3339 parser (time.parseRFC3339), which time.Parse applies
for layout time.RFC3339 — the layout encoding/xml uses to unmarshal into a
time.Time field.  The whole input must be consumed. -/
def parseRFC3339 (l : List Char) : Option GoTime :=
  match parse4 l with
  | none => none
  | some (y, l) =>
  match expectCh '-' l with
  | none => none
  | some l =>
  match parse2 l with
  | none => none
  | some (mo, l) =>
  match expectCh '-' l with
  | none => none
  | some l =>
  match parse2 l with
  | none => none
  | some (d, l) =>
  match expectCh 'T' l with
  | none => none
  | some l =>
  match parse2 l with
  | none => none
  | some (h, l) =>
  match expectCh ':' l with
  | none => none
  | some l =>
  match parse2 l with
  | none => none
  | some (mi, l) =>
  match expectCh ':' l with
  | none => none
  | some l =>
  match parse2 l with
  | none => none
  | some (s, l) =>
  let (ns, l) := match parseFrac l with
    | some (n, r) => (n, r)
    | none => (0, l)
  match parseOffset l with
  | none => none
  | some (off, l) =>
  if 1 ≤ mo && mo ≤ 12 && 1 ≤ d && d ≤ daysIn mo y && h ≤ 23 && mi ≤ 59 && s ≤ 59
      && l.isEmpty then
    some ⟨y, mo, d, h, mi, s, ns, off⟩
  else none

/-! ## float64 -/

/-- Model of a finite float64 via its shortest decimal representation:
value = (-1)^neg * mant * 10^exp10.  Normalized records (mant not divisible
by 10, zero stored as mant 0 / exp10 0) are in bijection with the finite
float64 values within the modelled range; the sign of zero is kept, as Go
formats negative zero as "-0". -/
structure GoFloat where
  neg : Bool
  mant : Nat
  exp10 : Int
deriving DecidableEq

/-- A GoFloat in canonical (shortest-decimal) form. -/
def GoFloat.normalized (f : GoFloat) : Bool :=
  if f.mant = 0 then f.exp10 = 0 else f.mant % 10 ≠ 0

/-- The float64 literal 0.5, the default priority of MakeUrl. -/
def half : GoFloat := ⟨false, 5, -1⟩

/-- Exponent suffix of strconv's %e form: sign then at least two digits. -/
def expChars (e : Int) : List Char :=
  (if e < 0 then '-' else '+') :: padZeros 2 (natChars e.natAbs)

/-- strconv.FormatFloat(x, 'g', -1, 64) on the decimal model: shortest digits;
%e form when the decimal exponent is below -4 or at least 21 (ftoa.go uses
eprec = 21 for shortest precision), positional %f form otherwise. -/
def formatFloatAbs (m : Nat) (exp10 : Int) : List Char :=
  if m = 0 then ['0']
  else
    let ds := natChars m
    let nd : Int := (ds.length : Int)
    let dp : Int := exp10 + nd
    let e : Int := dp - 1
    if e < -4 ∨ e ≥ 21 then
      ds.take 1 ++ (if ds.length = 1 then [] else '.' :: ds.drop 1) ++ 'e' :: expChars e
    else if dp ≤ 0 then
      '0' :: '.' :: (List.replicate (-dp).toNat '0' ++ ds)
    else if dp ≥ nd then
      ds ++ List.replicate (dp - nd).toNat '0'
    else
      ds.take dp.toNat ++ '.' :: ds.drop dp.toNat

def formatFloat (f : GoFloat) : List Char :=
  (if f.neg then ['-'] else []) ++ formatFloatAbs f.mant f.exp10

/-- Remove factors of ten from a nonzero mantissa, moving them into the
exponent; fuel-driven (fuel at least the mantissa is enough). -/
def normFloatAux : Nat → Nat → Int → Nat × Int
  | 0, m, e => (m, e)
  | fuel + 1, m, e => if m ≠ 0 ∧ m % 10 = 0 then normFloatAux fuel (m / 10) (e + 1) else (m, e)

/-- Build the canonical GoFloat denoting (-1)^neg * m * 10^e: the decimal
string read by strconv.ParseFloat and the shortest representation of the
resulting float64 denote the same canonical record. -/
def mkGoFloat (neg : Bool) (m : Nat) (e : Int) : GoFloat :=
  if m = 0 then ⟨neg, 0, 0⟩
  else
    let p := normFloatAux m m e
    ⟨neg, p.1, p.2⟩

/-- Exponent part of strconv.ParseFloat: e or E, optional sign, at least one
digit. Returns the exponent and the rest; no exponent reads as 0. -/
def parseFloatExp (l : List Char) : Option (Int × List Char) :=
  match l with
  | c :: r =>
    if c = 'e' ∨ c = 'E' then
      let (esgn, r1) :=
        match r with
        | '+' :: r2 => (false, r2)
        | '-' :: r2 => (true, r2)
        | _ => (false, r)
      let eds := r1.takeWhile isDigitCh
      if eds.isEmpty then none
      else some ((if esgn then -(digitsVal eds : Int) else (digitsVal eds : Int)), r1.drop eds.length)
    else some (0, l)
  | [] => some (0, [])

/-- strconv.ParseFloat on the decimal syntax: optional sign, digits with at
most one dot (at least one digit overall), optional exponent, nothing left
over.  Hex floats, inf/nan spellings, underscores and out-of-range errors
are outside the model (see the file comment). -/
def parseFloatAbs (neg : Bool) (l1 : List Char) : Option GoFloat :=
  let ds1 := l1.takeWhile isDigitCh
  let l2 := l1.drop ds1.length
  let (ds2, l3) :=
    match l2 with
    | c :: r =>
      if c = '.' then (r.takeWhile isDigitCh, r.drop (r.takeWhile isDigitCh).length)
      else ([], l2)
    | [] => ([], l2)
  if ds1.isEmpty && ds2.isEmpty then none
  else
    match parseFloatExp l3 with
    | none => none
    | some (ex, l4) =>
      if l4.isEmpty then some (mkGoFloat neg (digitsVal (ds1 ++ ds2)) (ex - ds2.length)) else none

def parseFloat (l : List Char) : Option GoFloat :=
  match l with
  | '+' :: r => parseFloatAbs false r
  | '-' :: r => parseFloatAbs true r
  | _ => parseFloatAbs false l

/-! ## XML text escaping (encoding/xml escapeText) -/

/-- XML character range (encoding/xml isInCharacterRange): tab, newline,
carriage return, and the scalar values XML allows in documents. -/
def isInCharacterRange (c : Char) : Bool :=
  c = '\t' || c = '\n' || c = '\r' ||
  (0x20 ≤ c.val && c.val ≤ 0xD7FF) ||
  (0xE000 ≤ c.val && c.val ≤ 0xFFFD) ||
  (0x10000 ≤ c.val && c.val ≤ 0x10FFFF)

/-- Escaping of one character as encoding/xml's escapeText writes it (with
escapeNewline, the mode used by the marshaller for both character data and
attribute values): the five markup characters and tab/newline/CR become
references, characters outside the XML range become U+FFFD, anything else is
copied. -/
def escapeChar (c : Char) : List Char :=
  if c = '"' then ['&', '#', '3', '4', ';']
  else if c = '\'' then ['&', '#', '3', '9', ';']
  else if c = '&' then ['&', 'a', 'm', 'p', ';']
  else if c = '<' then ['&', 'l', 't', ';']
  else if c = '>' then ['&', 'g', 't', ';']
  else if c = '\t' then ['&', '#', 'x', '9', ';']
  else if c = '\n' then ['&', '#', 'x', 'A', ';']
  else if c = '\r' then ['&', '#', 'x', 'D', ';']
  else if isInCharacterRange c then [c]
  else [.ofNat 0xFFFD]

/-- encoding/xml escapeText over a whole string. -/
def escapeText (s : List Char) : List Char := s.flatMap escapeChar

/-- Strings whose characters all lie in the XML character range: on these,
escaping loses nothing and the encode/decode round trip can be exact. -/
def xmlSafe (s : String) : Bool := s.data.all isInCharacterRange

/-! ## Data model (the struct types of model.go)

Go pointers inside the records (*time.Time, *float64, []*URL) are modelled
by Option / plain values: the codec and builders never share or alias them
observably (each URL is exclusively owned by its set), so state passing by
value is faithful. -/

/-- Shorthand: the character list of a string literal. -/
def str (s : String) : List Char := s.data

/-- encoding/xml's xml.Name: a namespace (here: the raw prefix, see the
decoder notes) and a local name. -/
structure XmlName where
  Space : String
  Local : String
deriving DecidableEq

/-- ChangeFreq is a string type (type ChangeFreq string). -/
abbrev ChangeFreq := String

def ChangeFreqAlways : ChangeFreq := "always"
def ChangeFreqHourly : ChangeFreq := "hourly"
def ChangeFreqDaily : ChangeFreq := "daily"
def ChangeFreqWeekly : ChangeFreq := "weekly"
def ChangeFreqMonthly : ChangeFreq := "monthly"
def ChangeFreqYearly : ChangeFreq := "yearly"
def ChangeFreqNever : ChangeFreq := "never"

/-- SitemapEntry: loc plus optional lastmod (LastMod *time.Time). -/
structure SitemapEntry where
  Loc : String
  LastMod : Option GoTime
deriving DecidableEq

/-- SitemapIndex.  The xmlns field is unexported in Go (lowercase), so
encoding/xml ignores it entirely on both marshal and unmarshal; it is kept
in the model because MakeSitemapIndex stores into it. -/
structure SitemapIndex where
  XMLName : XmlName
  xmlns : String
  Sitemaps : List SitemapEntry
deriving DecidableEq

/-- MakeSitemapIndex wraps the given entries and stores the sitemap
namespace in the (unexported, hence never serialized) xmlns field. -/
def MakeSitemapIndex (entries : List SitemapEntry) : SitemapIndex :=
  ⟨⟨"", ""⟩, "http://www.sitemaps.org/schemas/sitemap/0.9", entries⟩

/-- SitemapIndex.Add appends one entry with the given loc and a present
(pointer to a copy of) lastMod. -/
def SitemapIndex.Add (si : SitemapIndex) (loc : String) (lastMod : GoTime) : SitemapIndex :=
  { si with Sitemaps := si.Sitemaps ++ [⟨loc, some lastMod⟩] }

/-- Image extension entry. -/
structure Image where
  Loc : String
  Caption : String
  Title : String
deriving DecidableEq

/-- Video extension entry (Duration is a Go int, omitted when zero). -/
structure Video where
  Loc : String
  ThumbnailLoc : String
  Title : String
  Description : String
  ContentLoc : String
  Duration : Int
  Category : String
  Tags : List String
deriving DecidableEq

/-- Alternate-language link: three attributes, no content. -/
structure Alternate where
  Rel : String
  HrefLang : String
  Href : String
deriving DecidableEq

/-- URL entry (LastMod *time.Time, Priority *float64 modelled as Option). -/
structure URL where
  Loc : String
  LastMod : Option GoTime
  ChangeFreq : ChangeFreq
  Priority : Option GoFloat
  Images : List Image
  Videos : List Video
  Alternate : List Alternate
deriving DecidableEq

/-- URLSet; all namespace attributes are exported here, xmlns without
omitempty, the other three with omitempty. -/
structure URLSet where
  XMLName : XmlName
  XMLNS : String
  XHTML : String
  Image : String
  Video : String
  URLs : List URL
deriving DecidableEq

/-- MakeUrlSet: empty set with the sitemap and xhtml namespaces set and the
image/video namespace attributes left at their zero value. -/
def MakeUrlSet : URLSet :=
  ⟨⟨"", ""⟩, "http://www.sitemaps.org/schemas/sitemap/0.9",
    "http://www.w3.org/1999/xhtml", "", "", []⟩

/-- URLSet.Add appends one URL. -/
def URLSet.Add (u : URLSet) (url : URL) : URLSet :=
  { u with URLs := u.URLs ++ [url] }

/-- UrlOption: a unary mutator over the URL under construction. -/
def UrlOption := URL → URL

/-- WithLastMod overwrites the lastMod. -/
def WithLastMod (t : GoTime) : UrlOption := fun u => { u with LastMod := some t }

/-- WithChangeFreq overwrites the change frequency. -/
def WithChangeFreq (f : ChangeFreq) : UrlOption := fun u => { u with ChangeFreq := f }

/-- WithPriority overwrites the priority. -/
def WithPriority (p : GoFloat) : UrlOption := fun u => { u with Priority := some p }

/-- WithImages appends to the existing images. -/
def WithImages (img : List Image) : UrlOption := fun u => { u with Images := u.Images ++ img }

/-- WithVideosVideos appends to the existing videos. -/
def WithVideosVideos (m : List Video) : UrlOption := fun u => { u with Videos := u.Videos ++ m }

/-- MakeUrl: defaults loc, lastMod := time.Now().UTC() (supplied here as the
explicit parameter now), changeFreq monthly, priority 0.5, then applies the
options left to right. -/
def MakeUrl (now : GoTime) (loc : String) (options : List UrlOption) : URL :=
  options.foldl (fun u o => o u) ⟨loc, some now, ChangeFreqMonthly, some half, [], [], []⟩

/-! ## The marshaller (encoding/xml MarshalIndent on these types)

The output is described by a little fragment language XFrag whose rendering
is the exact byte sequence the Go printer emits: element text and attribute
values pass through escapeText, the indentation bytes are written raw.
MarshalIndent(v, "", "  ") puts a newline plus two spaces per depth before
every start tag, and before an end tag exactly when the element had element
children (printer.writeIndent); xml.Header is prepended by GenerateXML. -/

mutual
inductive XFrag where
  | ftext (s : List Char)
  | fraw (s : List Char)
  | elem (nm : List Char) (attrs : List (List Char × List Char)) (kids : XFrags)
inductive XFrags where
  | nil
  | cons (x : XFrag) (xs : XFrags)
end

/-- Build an XFrags from a list. -/
def frags : List XFrag → XFrags
  | [] => .nil
  | x :: xs => .cons x (frags xs)

/-- Rendering of one attribute: space, name, equals, quoted escaped value. -/
def renderAttr (a : List Char × List Char) : List Char :=
  ' ' :: (a.1 ++ '=' :: '"' :: (escapeText a.2 ++ ['"']))

/-- Rendering of an attribute list. -/
def renderAttrs (l : List (List Char × List Char)) : List Char := l.flatMap renderAttr

mutual
/-- Bytes of one fragment: escaped text, raw bytes, or an element with its
attributes, children and end tag (the Go printer never self-closes). -/
def renderFrag : XFrag → List Char
  | .ftext s => escapeText s
  | .fraw s => s
  | .elem nm attrs kids =>
    '<' :: (nm ++ renderAttrs attrs ++ '>' :: (renderFrags kids ++ '<' :: '/' :: (nm ++ ['>'])))
/-- Bytes of a fragment sequence. -/
def renderFrags : XFrags → List Char
  | .nil => []
  | .cons x xs => renderFrag x ++ renderFrags xs
end

/-- Indentation fragment: newline plus two spaces per depth level. -/
def nl (depth : Nat) : List Char := '\n' :: List.replicate (2 * depth) ' '

/-- Leaf element: start tag, escaped text (possibly empty), end tag inline. -/
def leafElem (nm : List Char) (s : List Char) : XFrag :=
  .elem nm [] (frags [.ftext s])

/-- xml.Header followed by nothing: the XML declaration line. -/
def xmlHeaderChars : List Char := str "<?xml version=\"1.0\" encoding=\"UTF-8\"?>\n"

/-- Fragment of one sitemap index entry: indented sitemap element with a loc
child and, when LastMod is set, a lastmod child. -/
def sitemapEntryFrags (e : SitemapEntry) : List XFrag :=
  [.fraw (nl 1), .elem (str "sitemap") [] (frags (
      [.fraw (nl 2), leafElem (str "loc") e.Loc.data] ++
      (match e.LastMod with
       | none => []
       | some t => [.fraw (nl 2), leafElem (str "lastmod") (formatRFC3339Nano t)]) ++
      [.fraw (nl 1)]))]

/-- time.Time.MarshalText succeeds exactly when the year fits in four
digits and the zone offset hour is below 24; otherwise it reports an error
("year outside of range [0,9999]" / "timezone hour outside of range
[0,23]") which encoding/xml propagates, so MarshalIndent returns no
output. -/
def marshalTimeOk (t : GoTime) : Bool :=
  t.year ≤ 9999 && t.offsetMin.natAbs < 24 * 60

/-- A sitemap entry marshals iff its lastmod, when present, does. -/
def SitemapEntry.marshalOk (e : SitemapEntry) : Bool :=
  match e.LastMod with
  | none => true
  | some t => marshalTimeOk t

/-- The document text of the encoder's success path: xml.Header plus the
indented sitemapindex element.  The unexported xmlns field is skipped by
the encoder, so the root start tag carries no attributes. -/
def SitemapIndex.renderXML (si : SitemapIndex) : String :=
  ⟨xmlHeaderChars ++ renderFrags (frags [.elem (str "sitemapindex") []
     (frags (si.Sitemaps.flatMap sitemapEntryFrags ++
             (if si.Sitemaps.isEmpty then [] else [.fraw (nl 0)])))])⟩

/-- SitemapIndex.GenerateXML: the Go pair (string, error) is modelled as an
Option, none standing for the ("", err) return.  xml.MarshalIndent fails
exactly when some entry's lastmod cannot MarshalText; otherwise the
rendered document is returned. -/
def SitemapIndex.GenerateXML (si : SitemapIndex) : Option String :=
  if si.Sitemaps.all SitemapEntry.marshalOk then some si.renderXML else none

/-- Decimal text of a Go int (video duration). -/
def intChars (n : Int) : List Char :=
  if n < 0 then '-' :: natChars n.natAbs else natChars n.natAbs

/-- Fragment of one image extension block. -/
def imageFrags (im : Image) : List XFrag :=
  [.fraw (nl 2), .elem (str "image:image") [] (frags (
     [.fraw (nl 3), leafElem (str "image:loc") im.Loc.data] ++
     (if im.Caption = "" then [] else [.fraw (nl 3), leafElem (str "image:caption") im.Caption.data]) ++
     (if im.Title = "" then [] else [.fraw (nl 3), leafElem (str "image:title") im.Title.data]) ++
     [.fraw (nl 2)]))]

/-- Fragment of one video tag element. -/
def videoTagFrags (tg : String) : List XFrag :=
  [.fraw (nl 3), leafElem (str "video:tag") tg.data]

/-- Fragment of one video extension block: four required children, then the
omitempty fields, then the tags. -/
def videoFrags (v : Video) : List XFrag :=
  [.fraw (nl 2), .elem (str "video:video") [] (frags (
     [.fraw (nl 3), leafElem (str "video:loc") v.Loc.data,
      .fraw (nl 3), leafElem (str "video:thumbnail_loc") v.ThumbnailLoc.data,
      .fraw (nl 3), leafElem (str "video:title") v.Title.data,
      .fraw (nl 3), leafElem (str "video:description") v.Description.data] ++
     (if v.ContentLoc = "" then [] else [.fraw (nl 3), leafElem (str "video:content_loc") v.ContentLoc.data]) ++
     (if v.Duration = 0 then [] else [.fraw (nl 3), leafElem (str "video:duration") (intChars v.Duration)]) ++
     (if v.Category = "" then [] else [.fraw (nl 3), leafElem (str "video:category") v.Category.data]) ++
     v.Tags.flatMap videoTagFrags ++
     [.fraw (nl 2)]))]

/-- Fragment of one alternate link: an xhtml:link element with three
attributes and no content (the end tag follows immediately). -/
def alternateFrags (a : Alternate) : List XFrag :=
  [.fraw (nl 2), .elem (str "xhtml:link")
     [(str "rel", a.Rel.data), (str "hreflang", a.HrefLang.data), (str "href", a.Href.data)] .nil]

/-- Fragment of one url element, children in struct-field order: loc,
lastmod (if set), changefreq (if non-empty), priority (if set), images,
videos, alternates. -/
def urlFrags (u : URL) : List XFrag :=
  [.fraw (nl 1), .elem (str "url") [] (frags (
     [.fraw (nl 2), leafElem (str "loc") u.Loc.data] ++
     (match u.LastMod with
      | none => []
      | some t => [.fraw (nl 2), leafElem (str "lastmod") (formatRFC3339Nano t)]) ++
     (if u.ChangeFreq = "" then [] else [.fraw (nl 2), leafElem (str "changefreq") u.ChangeFreq.data]) ++
     (match u.Priority with
      | none => []
      | some p => [.fraw (nl 2), leafElem (str "priority") (formatFloat p)]) ++
     u.Images.flatMap imageFrags ++
     u.Videos.flatMap videoFrags ++
     u.Alternate.flatMap alternateFrags ++
     [.fraw (nl 1)]))]

/-- Attributes of the urlset root element: xmlns always (its struct tag has
no omitempty), the xhtml/image/video namespace attributes only when
non-empty. -/
def urlsetAttrs (us : URLSet) : List (List Char × List Char) :=
  (str "xmlns", us.XMLNS.data) ::
  ((if us.XHTML = "" then [] else [(str "xmlns:xhtml", us.XHTML.data)]) ++
   (if us.Image = "" then [] else [(str "xmlns:image", us.Image.data)]) ++
   (if us.Video = "" then [] else [(str "xmlns:video", us.Video.data)]))

/-- A url marshals iff its lastmod, when present, does. -/
def URL.marshalOk (u : URL) : Bool :=
  match u.LastMod with
  | none => true
  | some t => marshalTimeOk t

/-- The document text of the encoder's success path: xml.Header plus the
indented urlset element. -/
def URLSet.renderXML (us : URLSet) : String :=
  ⟨xmlHeaderChars ++ renderFrags (frags [.elem (str "urlset") (urlsetAttrs us)
     (frags (us.URLs.flatMap urlFrags ++
             (if us.URLs.isEmpty then [] else [.fraw (nl 0)])))])⟩

/-- URLSet.GenerateXML: the Go pair (string, error) is modelled as an
Option, none standing for the ("", err) return.  xml.MarshalIndent fails
exactly when some url's lastmod cannot MarshalText; otherwise the rendered
document is returned. -/
def URLSet.GenerateXML (us : URLSet) : Option String :=
  if us.URLs.all URL.marshalOk then some us.renderXML else none

/-! ## The decoder (encoding/xml Decoder in strict mode)

The tokenizer mirrors Decoder.rawToken / Decoder.text / Decoder.nsname.
Namespace handling: the decoder splits a qualified name at its colon and
keeps the raw prefix in Space.  (Go additionally resolves prefixes to
namespace URLs in Decoder.translate, but no struct tag of model.go
constrains a namespace, and field matching in read.go compares local names
only, so URL resolution is observationally irrelevant here and is not
modelled.)  Go's unicode name classes are approximated by accepting all
characters at and above U+0080; the names reachable in this development are
ASCII.  Inner scanning loops take local fuel instantiated with the length
of the remaining input plus one, which always suffices because every
iteration consumes at least one character; this makes every function below
total and computable. -/

/-- Error result of parsing: Go surfaces xml.SyntaxError, io.EOF,
xml.UnmarshalError, or a time/strconv parse error; the claims only
distinguish error from success. -/
inductive PErr where
  | syn (msg : String)
  | eof
  | notElem (msg : String)
  | badValue
  | fuel
deriving DecidableEq

/-- The NUL character, Go's zero byte (used to reset raw-byte history). -/
def nul : Char := Char.ofNat 0

/-- Name start class (Go xml.isName first-character class, with the unicode
tables approximated by everything at or above U+0080). -/
def isNameStartCh (c : Char) : Bool :=
  c.isAlpha || c = '_' || c = ':' || c.val ≥ 0x80

/-- Name continuation class (adds digits, hyphen and dot). -/
def isNameCh (c : Char) : Bool :=
  isNameStartCh c || isDigitCh c || c = '-' || c = '.'

/-- Read an XML name: first character in the start class, then the longest
run of name characters. -/
def readName (l : List Char) : Option (List Char × List Char) :=
  match l with
  | c :: _ => if isNameStartCh c then some (l.takeWhile isNameCh, l.dropWhile isNameCh) else none
  | [] => none

/-- Occurrences of a character. -/
def countCh (c : Char) (l : List Char) : Nat := (l.filter (fun x => x = c)).length

/-- Decoder.nsname: more than one colon leaves the whole name as the local
name; exactly one colon with both parts non-empty splits prefix and local
name; otherwise the whole name is local. -/
def nsnameSplit (s : List Char) : XmlName :=
  if countCh ':' s ≠ 1 then ⟨"", ⟨s⟩⟩
  else
    let sp := s.takeWhile (fun c => c ≠ ':')
    let lc := (s.dropWhile (fun c => c ≠ ':')).drop 1
    if sp.isEmpty || lc.isEmpty then ⟨"", ⟨s⟩⟩ else ⟨⟨sp⟩, ⟨lc⟩⟩

/-- XML character range test on a code point (encoding/xml
isInCharacterRange), needed before a character is built from a reference. -/
def isInCharRangeN (n : Nat) : Bool :=
  n = 9 || n = 10 || n = 13 || (0x20 ≤ n && n ≤ 0xD7FF) ||
  (0xE000 ≤ n && n ≤ 0xFFFD) || (0x10000 ≤ n && n ≤ 0x10FFFF)

def isHexDigitCh (c : Char) : Bool :=
  isDigitCh c || ('a' ≤ c && c ≤ 'f') || ('A' ≤ c && c ≤ 'F')

def hexVal (c : Char) : Nat :=
  if isDigitCh c then digitVal c
  else if 'a' ≤ c && c ≤ 'f' then c.toNat - 87
  else c.toNat - 55

def hexsVal (ds : List Char) : Nat := ds.foldl (fun a c => 16 * a + hexVal c) 0

/-- Character and entity references after the ampersand, in strict mode:
numeric references must be in the XML character range; only the five
predefined named entities resolve (the decoder's Entity map is nil);
a missing semicolon or unknown entity is a syntax error. -/
def readRef (l : List Char) : Except PErr (Char × List Char) :=
  match l with
  | '#' :: 'x' :: r =>
    let ds := r.takeWhile isHexDigitCh
    if ds.isEmpty then .error (.syn "invalid character entity")
    else
      match r.drop ds.length with
      | ';' :: r2 =>
        let n := hexsVal ds
        if isInCharRangeN n then .ok (Char.ofNat n, r2)
        else .error (.syn "invalid character code")
      | _ => .error (.syn "invalid character entity")
  | '#' :: r =>
    let ds := r.takeWhile isDigitCh
    if ds.isEmpty then .error (.syn "invalid character entity")
    else
      match r.drop ds.length with
      | ';' :: r2 =>
        let n := digitsVal ds
        if isInCharRangeN n then .ok (Char.ofNat n, r2)
        else .error (.syn "invalid character code")
      | _ => .error (.syn "invalid character entity")
  | _ =>
    let nm := l.takeWhile isNameCh
    if nm.isEmpty then .error (.syn "invalid character entity")
    else
      match l.drop nm.length with
      | ';' :: r =>
        if nm = str "lt" then .ok ('<', r)
        else if nm = str "gt" then .ok ('>', r)
        else if nm = str "amp" then .ok ('&', r)
        else if nm = str "apos" then .ok ('\'', r)
        else if nm = str "quot" then .ok ('"', r)
        else .error (.syn "invalid character entity")
      | _ => .error (.syn "invalid character entity")

/-- Decoder.text outside CDATA.  With q none it reads element character
data, stopping before an unescaped angle bracket; with q a quote character
it reads an attribute value, consuming the closing quote (an unescaped
opening angle bracket there is a syntax error).  Carriage returns are
rewritten to newlines (CR LF collapses), references are expanded (resetting
the raw-byte history), and a raw "]]>" outside CDATA is a syntax error; the
last two raw characters are tracked in b0 and b1 for those two rules.
At end of input the text read so far is returned (Go breaks the loop; the
caller then fails on its next read if it still needs input). -/
def readText (q : Option Char) : Nat → Char → Char → List Char → List Char →
    Except PErr (List Char × List Char)
  | 0, _, _, _, _ => .error .fuel
  | fuel + 1, b0, b1, acc, l =>
    match l with
    | [] => .ok (acc.reverse, [])
    | c :: r =>
      if c = '<' ∧ q = none then .ok (acc.reverse, l)
      else if c = '<' ∧ q ≠ none then .error (.syn "unescaped < inside quoted string")
      else if q = some c then .ok (acc.reverse, r)
      else if c = '>' ∧ b0 = ']' ∧ b1 = ']' then .error (.syn "unescaped ]]> not in CDATA section")
      else if c = '&' then
        match readRef r with
        | .error e => .error e
        | .ok (ch, r2) => readText q fuel nul nul (ch :: acc) r2
      else if c = '\r' then readText q fuel b1 c ('\n' :: acc) r
      else if c = '\n' ∧ b1 = '\r' then readText q fuel b1 c acc r
      else readText q fuel b1 c (c :: acc) r

/-- CDATA section body up to the "]]>" terminator, with CR/CRLF rewriting;
end of input is "unterminated CDATA section". -/
def readCData : Nat → Char → List Char → List Char → Except PErr (List Char × List Char)
  | 0, _, _, _ => .error .fuel
  | fuel + 1, b1, acc, l =>
    match l with
    | ']' :: ']' :: '>' :: r => .ok (acc.reverse, r)
    | [] => .error (.syn "unterminated CDATA section")
    | c :: r =>
      if c = '\r' then readCData fuel c ('\n' :: acc) r
      else if c = '\n' ∧ b1 = '\r' then readCData fuel c acc r
      else readCData fuel c (c :: acc) r

/-- XML whitespace skip (Decoder.space). -/
def skipWS (l : List Char) : List Char :=
  l.dropWhile (fun c => c = ' ' || c = '\t' || c = '\r' || c = '\n')

/-- Comment body scan: consume through the first "-->" (end of input is an
unexpected EOF). -/
def scanComment : Nat → List Char → Except PErr (List Char)
  | 0, _ => .error .fuel
  | fuel + 1, l =>
    match l with
    | '-' :: '-' :: '>' :: r => .ok r
    | [] => .error .eof
    | _ :: r => scanComment fuel r

/-- Directive scan (rawToken's "<!" default branch): consume through the
matching unquoted angle bracket, tracking quoting, nesting, and skipping
embedded comments. -/
def scanDirective : Nat → Nat → Option Char → List Char → Except PErr (List Char)
  | 0, _, _, _ => .error .fuel
  | fuel + 1, depth, q, l =>
    match l with
    | [] => .error .eof
    | c :: r =>
      match q with
      | some qc =>
        if c = qc then scanDirective fuel depth none r else scanDirective fuel depth (some qc) r
      | none =>
        if c = '>' then (if depth = 0 then .ok r else scanDirective fuel (depth - 1) none r)
        else if c = '\'' ∨ c = '"' then scanDirective fuel depth (some c) r
        else if c = '<' then
          match r with
          | '!' :: '-' :: '-' :: r2 =>
            match scanComment (r2.length + 1) r2 with
            | .error e => .error e
            | .ok r3 => scanDirective fuel depth none r3
          | _ => scanDirective fuel (depth + 1) none r
        else scanDirective fuel depth none r

/-- Processing-instruction body scan: the content through "?>". -/
def scanPI : Nat → List Char → Except PErr (List Char × List Char)
  | 0, _ => .error .fuel
  | fuel + 1, l =>
    match l with
    | '?' :: '>' :: r => .ok ([], r)
    | [] => .error .eof
    | c :: r =>
      match scanPI fuel r with
      | .error e => .error e
      | .ok (content, rest) => .ok (c :: content, rest)

/-- Suffix after the first occurrence of a pattern, if any. -/
def findSub (pat : List Char) : List Char → Option (List Char)
  | [] => if pat.isEmpty then some [] else none
  | l@(_ :: r) => if pat.isPrefixOf l then some (l.drop pat.length) else findSub pat r

/-- The encoding pseudo-attribute of an xml declaration (Go's procInst
helper, same loose quoted-value scan). -/
def procInstEncoding (content : List Char) : Option (List Char) :=
  match findSub (str "encoding=") content with
  | none => none
  | some v =>
    match v with
    | q :: r =>
      if q = '"' ∨ q = '\'' then
        let vs := r.takeWhile (fun c => c ≠ q)
        if (r.drop vs.length).isEmpty then none else some vs
      else none
    | [] => none

def asciiLower (c : Char) : Char :=
  if 'A' ≤ c ∧ c ≤ 'Z' then Char.ofNat (c.toNat + 32) else c

/-- Attribute list of a start tag, through the closing angle bracket; strict
mode requires the equals sign and a quoted value.  Returns the attributes,
whether the tag was self-closing, and the rest of the input. -/
def readAttrs : Nat → List (XmlName × List Char) → List Char →
    Except PErr (List (XmlName × List Char) × Bool × List Char)
  | 0, _, _ => .error .fuel
  | fuel + 1, acc, l =>
    match skipWS l with
    | [] => .error .eof
    | '>' :: r => .ok (acc.reverse, false, r)
    | '/' :: r =>
      match r with
      | '>' :: r2 => .ok (acc.reverse, true, r2)
      | _ => .error (.syn "expected attribute name in element")
    | l1 =>
      match readName l1 with
      | none => .error (.syn "expected attribute name in element")
      | some (anm, l2) =>
        match skipWS l2 with
        | '=' :: l4 =>
          match skipWS l4 with
          | c :: l6 =>
            if c = '"' ∨ c = '\'' then
              match readText (some c) (l6.length + 1) nul nul [] l6 with
              | .error e => .error e
              | .ok (v, l7) => readAttrs fuel ((nsnameSplit anm, v) :: acc) l7
            else .error (.syn "unquoted or missing attribute value in element")
          | [] => .error .eof
        | _ => .error (.syn "attribute name without = in element")

/-- Token as the unmarshaller observes it: start element with attributes,
end element, character data, or anything it ignores (comments, processing
instructions, directives). -/
inductive Tok where
  | start (n : XmlName) (attrs : List (XmlName × List Char))
  | etag (n : XmlName)
  | text (s : List Char)
  | misc
deriving DecidableEq

/-- Decoder state: remaining input, the stack of open element names
(Decoder.stk, checked by popElement), and whether a synthesized end element
for a self-closed tag is pending (Decoder.needClose). -/
structure Dec where
  rem : List Char
  stk : List XmlName
  pend : Bool
deriving DecidableEq

/-- One Decoder.Token step: nothing at end of input; otherwise the next
token and successor state, or the syntax error Go reports.  End tags must
match the innermost open start tag.  An xml declaration with an encoding
other than utf-8 is rejected (Decoder.CharsetReader is nil). -/
def next (d : Dec) : Except PErr (Option (Tok × Dec)) :=
  if d.pend then
    match d.stk with
    | n :: st => .ok (some (.etag n, ⟨d.rem, st, false⟩))
    | [] => .error (.syn "inconsistent state")
  else
  match d.rem with
  | [] => .ok none
  | '<' :: r =>
    match r with
    | '/' :: r2 =>
      match readName r2 with
      | none => .error (.syn "expected element name after markup")
      | some (nm, r3) =>
        match skipWS r3 with
        | '>' :: r4 =>
          let n := nsnameSplit nm
          match d.stk with
          | [] => .error (.syn "unexpected end element")
          | top :: st =>
            if top = n then .ok (some (.etag n, ⟨r4, st, false⟩))
            else .error (.syn "element closed by wrong name")
        | _ => .error (.syn "invalid characters between tag name and closing bracket")
    | '?' :: r2 =>
      match readName r2 with
      | none => .error (.syn "expected target name after markup")
      | some (target, r3) =>
        match scanPI (r3.length + 1) r3 with
        | .error e => .error e
        | .ok (content, r4) =>
          if target = str "xml" then
            match procInstEncoding content with
            | some enc =>
              if enc.map asciiLower = str "utf-8" then .ok (some (.misc, ⟨r4, d.stk, false⟩))
              else .error (.syn "unsupported encoding")
            | none => .ok (some (.misc, ⟨r4, d.stk, false⟩))
          else .ok (some (.misc, ⟨r4, d.stk, false⟩))
    | '!' :: r2 =>
      match r2 with
      | '-' :: '-' :: r3 =>
        match scanComment (r3.length + 1) r3 with
        | .error e => .error e
        | .ok r4 => .ok (some (.misc, ⟨r4, d.stk, false⟩))
      | '[' :: r3 =>
        if (str "CDATA[").isPrefixOf r3 then
          match readCData (r3.length + 1) nul [] (r3.drop 6) with
          | .error e => .error e
          | .ok (s, r4) => .ok (some (.text s, ⟨r4, d.stk, false⟩))
        else .error (.syn "invalid markup sequence")
      | _ =>
        match scanDirective (r2.length + 1) 0 none r2 with
        | .error e => .error e
        | .ok r3 => .ok (some (.misc, ⟨r3, d.stk, false⟩))
    | _ =>
      match readName r with
      | none => .error (.syn "expected element name after markup")
      | some (nm, r2) =>
        match readAttrs (r2.length + 1) [] r2 with
        | .error e => .error e
        | .ok (attrs, selfClose, r3) =>
          let n := nsnameSplit nm
          .ok (some (.start n attrs, ⟨r3, n :: d.stk, selfClose⟩))
  | _ =>
    match readText none (d.rem.length + 1) nul nul [] d.rem with
    | .error e => .error e
    | .ok (s, rest) => .ok (some (.text s, ⟨rest, d.stk, false⟩))

/-! ## The unmarshaller (encoding/xml read.go on the types of model.go)

Field matching follows read.go: a child element is matched against the
struct fields by comparing the tag name with the element's local name (no
tag of model.go carries a space-separated namespace, so namespaces never
constrain a match); the first matching field consumes the element, an
unmatched element is skipped (tolerant parsing).  The colon-carrying tags
"image:image", "video:video", "xhtml:link" can never equal a local name
produced by the tokenizer's prefix split, so those slice fields are dead on
the read side — exactly Go's long-standing marshal/unmarshal prefix
asymmetry.  Unmarshal never reads past the end tag of the element it
decodes: trailing input is not examined. -/

/-- Decoder.Skip: consume tokens until the end tag matching the already
consumed start tag. -/
def skipElem : Nat → Dec → Except PErr Dec
  | 0, _ => .error .fuel
  | fuel + 1, d =>
    match next d with
    | .error e => .error e
    | .ok none => .error .eof
    | .ok (some (t, d')) =>
      match t with
      | .etag _ => .ok d'
      | .start _ _ =>
        match skipElem fuel d' with
        | .error e => .error e
        | .ok d2 => skipElem fuel d2
      | _ => skipElem fuel d'

/-- Character data of an element being decoded into a simple value: collect
text runs up to the end tag, skipping nested elements and ignored tokens
(read.go's saveData loop). -/
def readData : Nat → List Char → Dec → Except PErr (List Char × Dec)
  | 0, _, _ => .error .fuel
  | fuel + 1, acc, d =>
    match next d with
    | .error e => .error e
    | .ok none => .error .eof
    | .ok (some (t, d')) =>
      match t with
      | .etag _ => .ok (acc, d')
      | .text s => readData fuel (acc ++ s) d'
      | .start _ _ =>
        match skipElem fuel d' with
        | .error e => .error e
        | .ok d2 => readData fuel acc d2
      | .misc => readData fuel acc d'

/-- Children of one sitemap element: loc into the string field, lastmod
through time.Parse with the RFC3339 layout into the optional time, anything
else skipped. -/
def parseEntryLoop : Nat → SitemapEntry → Dec → Except PErr (SitemapEntry × Dec)
  | 0, _, _ => .error .fuel
  | fuel + 1, e, d =>
    match next d with
    | .error er => .error er
    | .ok none => .error .eof
    | .ok (some (t, d')) =>
      match t with
      | .etag _ => .ok (e, d')
      | .start n _ =>
        if n.Local = "loc" then
          match readData fuel [] d' with
          | .error er => .error er
          | .ok (s, d2) => parseEntryLoop fuel { e with Loc := ⟨s⟩ } d2
        else if n.Local = "lastmod" then
          match readData fuel [] d' with
          | .error er => .error er
          | .ok (s, d2) =>
            match parseRFC3339 s with
            | none => .error .badValue
            | some tm => parseEntryLoop fuel { e with LastMod := some tm } d2
        else
          match skipElem fuel d' with
          | .error er => .error er
          | .ok d2 => parseEntryLoop fuel e d2
      | _ => parseEntryLoop fuel e d'

/-- Children of the sitemapindex root: each sitemap element appends one
freshly zeroed entry decoded by parseEntryLoop; anything else is skipped. -/
def parseIndexLoop : Nat → List SitemapEntry → Dec → Except PErr (List SitemapEntry × Dec)
  | 0, _, _ => .error .fuel
  | fuel + 1, acc, d =>
    match next d with
    | .error er => .error er
    | .ok none => .error .eof
    | .ok (some (t, d')) =>
      match t with
      | .etag _ => .ok (acc, d')
      | .start n _ =>
        if n.Local = "sitemap" then
          match parseEntryLoop fuel ⟨"", none⟩ d' with
          | .error er => .error er
          | .ok (e, d2) => parseIndexLoop fuel (acc ++ [e]) d2
        else
          match skipElem fuel d' with
          | .error er => .error er
          | .ok d2 => parseIndexLoop fuel acc d2
      | _ => parseIndexLoop fuel acc d'

/-- Whitespace characters of strings.TrimSpace restricted to the one-byte
and latin-1 range (the inputs this codec produces are ASCII). -/
def isGoSpace (c : Char) : Bool :=
  c.val = 32 || c.val = 9 || c.val = 10 || c.val = 11 || c.val = 12 || c.val = 13 ||
  c.val = 0x85 || c.val = 0xA0

/-- strings.TrimSpace, applied by read.go's copyValue to numeric fields. -/
def trimSpace (l : List Char) : List Char :=
  ((l.dropWhile isGoSpace).reverse.dropWhile isGoSpace).reverse

/-- Children of one url element, in the field order of the URL struct:
loc, lastmod, changefreq, priority; everything else (including the
prefix-tagged image/video/link blocks, see above) is skipped. -/
def parseURLLoop : Nat → URL → Dec → Except PErr (URL × Dec)
  | 0, _, _ => .error .fuel
  | fuel + 1, u, d =>
    match next d with
    | .error er => .error er
    | .ok none => .error .eof
    | .ok (some (t, d')) =>
      match t with
      | .etag _ => .ok (u, d')
      | .start n _ =>
        if n.Local = "loc" then
          match readData fuel [] d' with
          | .error er => .error er
          | .ok (s, d2) => parseURLLoop fuel { u with Loc := ⟨s⟩ } d2
        else if n.Local = "lastmod" then
          match readData fuel [] d' with
          | .error er => .error er
          | .ok (s, d2) =>
            match parseRFC3339 s with
            | none => .error .badValue
            | some tm => parseURLLoop fuel { u with LastMod := some tm } d2
        else if n.Local = "changefreq" then
          match readData fuel [] d' with
          | .error er => .error er
          | .ok (s, d2) => parseURLLoop fuel { u with ChangeFreq := ⟨s⟩ } d2
        else if n.Local = "priority" then
          match readData fuel [] d' with
          | .error er => .error er
          | .ok (s, d2) =>
            match parseFloat (trimSpace s) with
            | none => .error .badValue
            | some p => parseURLLoop fuel { u with Priority := some p } d2
        else
          match skipElem fuel d' with
          | .error er => .error er
          | .ok d2 => parseURLLoop fuel u d2
      | _ => parseURLLoop fuel u d'

/-- Children of the urlset root: each url element appends one freshly
zeroed URL decoded by parseURLLoop; anything else is skipped. -/
def parseUrlSetLoop : Nat → List URL → Dec → Except PErr (List URL × Dec)
  | 0, _, _ => .error .fuel
  | fuel + 1, acc, d =>
    match next d with
    | .error er => .error er
    | .ok none => .error .eof
    | .ok (some (t, d')) =>
      match t with
      | .etag _ => .ok (acc, d')
      | .start n _ =>
        if n.Local = "url" then
          match parseURLLoop fuel ⟨"", none, "", none, [], [], []⟩ d' with
          | .error er => .error er
          | .ok (u, d2) => parseUrlSetLoop fuel (acc ++ [u]) d2
        else
          match skipElem fuel d' with
          | .error er => .error er
          | .ok d2 => parseUrlSetLoop fuel acc d2
      | _ => parseUrlSetLoop fuel acc d'

/-- Unmarshal's search for the document element: skip every token until the
first start element (read.go's initial loop). -/
def findRoot : Nat → Dec → Except PErr (XmlName × List (XmlName × List Char) × Dec)
  | 0, _ => .error .fuel
  | fuel + 1, d =>
    match next d with
    | .error e => .error e
    | .ok none => .error .eof
    | .ok (some (.start n attrs, d')) => .ok (n, attrs, d')
    | .ok (some (_, d')) => findRoot fuel d'

/-- ParseXMLSitemapIndex: xml.Unmarshal into a SitemapIndex.  The root's
local name must be sitemapindex (the XMLName field's tag); the unexported
xmlns field is never populated; attributes are ignored (no exported attr
field).  Input after the root's end tag is not read. -/
def ParseXMLSitemapIndex (content : String) : Except PErr SitemapIndex :=
  let fuel := content.data.length + 1
  match findRoot fuel ⟨content.data, [], false⟩ with
  | .error e => .error e
  | .ok (n, _, d1) =>
    if n.Local = "sitemapindex" then
      match parseIndexLoop fuel [] d1 with
      | .error e => .error e
      | .ok (entries, _) => .ok ⟨n, "", entries⟩
    else .error (.notElem "expected element type sitemapindex")

/-- Attribute assignment of the urlset root: the field tagged "xmlns,attr"
matches an attribute whose local name is xmlns (last occurrence wins); the
omitempty-tagged fields "xmlns:xhtml" / "xmlns:image" / "xmlns:video" carry
a colon in their tag name and therefore never match a parsed attribute's
local name — the read-side asymmetry again. -/
def applyUrlsetAttrs (attrs : List (XmlName × List Char)) (us : URLSet) : URLSet :=
  attrs.foldl (fun acc a => if a.1.Local = "xmlns" then { acc with XMLNS := ⟨a.2⟩ } else acc) us

/-- ParseXMLUrlSet: xml.Unmarshal into a URLSet; root local name must be
urlset.  Input after the root's end tag is not read. -/
def ParseXMLUrlSet (content : String) : Except PErr URLSet :=
  let fuel := content.data.length + 1
  match findRoot fuel ⟨content.data, [], false⟩ with
  | .error e => .error e
  | .ok (n, attrs, d1) =>
    if n.Local = "urlset" then
      match parseUrlSetLoop fuel [] d1 with
      | .error e => .error e
      | .ok (urls, _) => .ok (applyUrlsetAttrs attrs ⟨n, "", "", "", "", urls⟩)
    else .error (.notElem "expected element type urlset")

/-! ## Document well-formedness (spec side) -/

/-- Full-document scan underlying specWellFormedXml: tokenize to the end,
requiring no tokenizer error, balanced tags, exactly one top-level element
and only whitespace text outside it. -/
def wfLoop : Nat → Bool → Dec → Bool
  | 0, _, _ => false
  | fuel + 1, seenRoot, d =>
    match next d with
    | .error _ => false
    | .ok none => seenRoot && d.stk.isEmpty && !d.pend
    | .ok (some (t, d')) =>
      match t with
      | .start _ _ =>
        if d.stk.isEmpty && seenRoot then false
        else wfLoop fuel (seenRoot || d.stk.isEmpty) d'
      | .text s =>
        if d.stk.isEmpty && !(s.all (fun c => c = ' ' || c = '\t' || c = '\r' || c = '\n')) then false
        else wfLoop fuel seenRoot d'
      | _ => wfLoop fuel seenRoot d'

/-- Modelled from the spec: the parsing contract speaks of inputs that are
"well-formed XML"; no such predicate exists in the source (the decoder only
ever checks what it reads), so the claim about non-well-formed inputs is
stated against this document checker: the whole input must tokenize without
error into one balanced document element with only misc content around it. -/
def specWellFormedXml (s : String) : Bool :=
  wfLoop (s.data.length + 1) false ⟨s.data, [], false⟩

/-! ## Substring occurrence -/

/-- Prefix test on character lists. -/
def isPfx : List Char → List Char → Bool
  | [], _ => true
  | _ :: _, [] => false
  | a :: as, b :: bs => a = b && isPfx as bs

/-- Substring occurrence test: some suffix starts with the pattern. -/
def containsSub (pat : List Char) : List Char → Bool
  | [] => isPfx pat []
  | s@(_ :: rest) => isPfx pat s || containsSub pat rest

/-! ## Well-formed fragment conditions (towards the round-trip claims) -/

/-- A byte sequence the tokenizer accepts as an XML name: non-empty, first
character in the start class, all characters in the name class. -/
def nameGood (nm : List Char) : Bool :=
  match nm with
  | [] => false
  | c :: _ => isNameStartCh c && nm.all isNameCh

/-- An element fragment (used to recognise fragments whose rendering starts
with an angle bracket). -/
def isElemF : XFrag → Bool
  | .elem _ _ _ => true
  | _ => false

/-- One attribute the decoder reads back intact: a good name and a value in
the XML character range. -/
def attrGood (a : List Char × List Char) : Bool :=
  nameGood a.1 && a.2.all isInCharacterRange

mutual
/-- Fragments whose rendering the tokenizer reads back as the evident token
sequence: text in the XML character range, raw indentation runs, elements
with good names, good attributes and good children. -/
def fragGood : XFrag → Bool
  | .ftext s => s.all isInCharacterRange
  | .fraw s => !s.isEmpty && s.all (fun c => c = '\n' || c = ' ')
  | .elem nm attrs kids => nameGood nm && attrs.all attrGood && fragsGood kids
/-- Good fragment sequences: every fragment good, and no two text-like
fragments adjacent (their renderings would fuse into one token). -/
def fragsGood : XFrags → Bool
  | .nil => true
  | .cons x .nil => fragGood x
  | .cons x (.cons y ys) =>
    fragGood x && (isElemF x || isElemF y) && fragsGood (.cons y ys)
end

/-- Fragment lists shaped as (indentation, element) pairs — the shape in
which the marshaller emits every child block. -/
def pairList : List XFrag → Bool
  | [] => true
  | .fraw s :: x :: rest => fragGood (.fraw s) && fragGood x && isElemF x && pairList rest
  | _ => false

/-- Append a fragment list in front of a fragment sequence. -/
def fragsApp : List XFrag → XFrags → XFrags
  | [], T => T
  | x :: xs, T => .cons x (fragsApp xs T)

/-- An Image whose strings are XML-safe: its marshalled block is read back
verbatim by the tokenizer. -/
def imageGood (im : Image) : Bool :=
  xmlSafe im.Loc && xmlSafe im.Caption && xmlSafe im.Title

/-- A Video whose strings are XML-safe. -/
def videoGood (v : Video) : Bool :=
  xmlSafe v.Loc && xmlSafe v.ThumbnailLoc && xmlSafe v.Title && xmlSafe v.Description &&
  xmlSafe v.ContentLoc && xmlSafe v.Category && v.Tags.all xmlSafe

/-- An Alternate whose strings are XML-safe. -/
def alternateGood (a : Alternate) : Bool :=
  xmlSafe a.Rel && xmlSafe a.HrefLang && xmlSafe a.Href

/-- Elements whose decoded local name matches no field tag of URL, so
read.go skips them (text and raw fragments trivially qualify). -/
def notUrlField (x : XFrag) : Bool :=
  match x with
  | .elem nm _ _ =>
    !((nsnameSplit nm).Local == "loc" || (nsnameSplit nm).Local == "lastmod" ||
      (nsnameSplit nm).Local == "changefreq" || (nsnameSplit nm).Local == "priority")
  | _ => true

/-! ## Claims about the builders (C4, C5, C6, C10) -/

/-- C4: MakeUrl with no options defaults changeFreq to the monthly sentinel,
priority to a present 0.5 (the GoFloat half, whose rendering is "0.5"), and
lastMod to the present wall-clock instant of the call (the explicit now
parameter standing for time.Now().UTC()). -/
theorem makeUrl_defaults (now : GoTime) (loc : String) :
    (MakeUrl now loc []).ChangeFreq = ChangeFreqMonthly ∧
    (MakeUrl now loc []).Priority = some half ∧
    formatFloat half = str "0.5" ∧
    (MakeUrl now loc []).LastMod = some now := by
  refine ⟨rfl, rfl, ?_, rfl⟩
  decide

/-- C5: options apply left to right and the later overwrite-style option
wins: two WithPriority options leave the second priority; in particular
priorities 0.9 then 0.3 leave 0.3. -/
theorem makeUrl_withPriority_last_wins (now : GoTime) (loc : String) (p1 p2 : GoFloat) :
    (MakeUrl now loc [WithPriority p1, WithPriority p2]).Priority = some p2 := rfl

/-- C6: WithImages appends rather than replaces: two WithImages options
yield the concatenation of the two sequences in order. -/
theorem makeUrl_withImages_appends (now : GoTime) (loc : String) (s1 s2 : List Image) :
    (MakeUrl now loc [WithImages s1, WithImages s2]).Images = s1 ++ s2 := by
  simp [MakeUrl, WithImages]

/-- C10: SitemapIndex.Add appends exactly one entry at the end, with the
given loc and a present lastMod equal to the given timestamp, leaving the
existing entries (and every other field) unchanged. -/
theorem sitemapIndex_add_appends (si : SitemapIndex) (loc : String) (t : GoTime) :
    (si.Add loc t).Sitemaps = si.Sitemaps ++ [⟨loc, some t⟩] ∧
    (si.Add loc t).XMLName = si.XMLName ∧ (si.Add loc t).xmlns = si.xmlns := ⟨rfl, rfl, rfl⟩

/-! ## Absence of extension elements (towards C7)

A pattern starting with an angle bracket can occur in rendered output only
at a position where the bracket is immediately followed by the pattern's
second character; escaped text contains no bracket at all, so occurrences
are pinned to the literal tags the renderer emits. -/

/-- No adjacent pair x-then-y occurs in the list. -/
def noAdj (x y : Char) : List Char → Bool
  | a :: b :: r => !(a = x && b = y) && noAdj x y (b :: r)
  | _ => true

theorem noAdj_cons_iff (x y a : Char) (l : List Char) :
    noAdj x y (a :: l) = true ↔ (noAdj x y l = true ∧ ¬(a = x ∧ l.head? = some y)) := by
  cases l with
  | nil => simp [noAdj]
  | cons b r =>
    simp only [noAdj, List.head?_cons, Option.some.injEq, Bool.and_eq_true,
      Bool.not_eq_true', Bool.and_eq_false_iff, decide_eq_false_iff_not]
    constructor
    · rintro ⟨h1, h2⟩
      exact ⟨h2, by rcases h1 with h | h <;> tauto⟩
    · rintro ⟨h1, h2⟩
      refine ⟨?_, h1⟩
      by_cases hax : a = x
      · right; exact fun hb => h2 ⟨hax, hb⟩
      · left; exact hax

theorem noAdj_cons (x y a : Char) (l : List Char)
    (h1 : noAdj x y l = true) (h2 : ¬(a = x ∧ l.head? = some y)) :
    noAdj x y (a :: l) = true := (noAdj_cons_iff x y a l).mpr ⟨h1, h2⟩

theorem noAdj_cons_elim (x y a : Char) (l : List Char)
    (h : noAdj x y (a :: l) = true) : noAdj x y l = true :=
  ((noAdj_cons_iff x y a l).mp h).1

/-- An adjacency-free list cannot contain a pattern whose first two
characters are that adjacent pair. -/
theorem containsSub_eq_false_of_noAdj (x y : Char) (pt : List Char) :
    ∀ s : List Char, noAdj x y s = true → containsSub (x :: y :: pt) s = false := by
  intro s
  induction s with
  | nil => intro _; rfl
  | cons a rest ih =>
    intro h
    have hrest := noAdj_cons_elim x y a rest h
    simp only [containsSub, Bool.or_eq_false_iff]
    refine ⟨?_, ih hrest⟩
    cases rest with
    | nil => simp [isPfx]
    | cons b r =>
      by_cases hax : a = x
      · have hby : ¬ b = y := by
          have h2 := ((noAdj_cons_iff x y a (b :: r)).mp h).2
          intro hb
          exact h2 ⟨hax, by simp [hb]⟩
        have hyb : ¬ y = b := fun hh => hby hh.symm
        simp [isPfx, hyb]
      · have hxa : ¬ x = a := fun hh => hax hh.symm
        simp [isPfx, hxa]

theorem noAdj_append_of_lastOk (x y : Char) (A B : List Char)
    (hA : noAdj x y A = true) (hB : noAdj x y B = true)
    (hL : A.getLast? ≠ some x) : noAdj x y (A ++ B) = true := by
  induction A with
  | nil => simpa using hB
  | cons a r ih =>
    cases r with
    | nil =>
      simp only [List.cons_append, List.nil_append]
      refine noAdj_cons x y a B hB ?_
      rintro ⟨hax, _⟩
      exact hL (by simp [hax])
    | cons a2 r2 =>
      have htail : noAdj x y ((a2 :: r2) ++ B) = true := by
        refine ih (noAdj_cons_elim x y a (a2 :: r2) hA) ?_
        simpa [List.getLast?] using hL
      simp only [List.cons_append] at htail ⊢
      refine noAdj_cons x y a ((a2 :: (r2 ++ B))) htail ?_
      rintro ⟨hax, hhd⟩
      have hno : ¬(a = x ∧ a2 = y) := by
        have h2 := ((noAdj_cons_iff x y a (a2 :: r2)).mp hA).2
        intro hp
        exact h2 ⟨hp.1, by simp [hp.2]⟩
      simp only [List.head?_cons, Option.some.injEq] at hhd
      exact hno ⟨hax, hhd⟩

/-- Escaped text never contains an angle bracket. -/
theorem not_lt_mem_escapeChar (c : Char) : '<' ∉ escapeChar c := by
  unfold escapeChar
  split_ifs with h1 h2 h3 h4 h5 h6 h7 h8 h9 <;> simp_all
  exact fun h => h4 h.symm

theorem not_lt_mem_escapeText (s : List Char) : '<' ∉ escapeText s := by
  intro h
  simp only [escapeText, List.mem_flatMap] at h
  obtain ⟨c, _, hc⟩ := h
  exact not_lt_mem_escapeChar c hc

/-- A list without the left character has no such adjacency. -/
theorem noAdj_of_not_mem (x y : Char) : ∀ l : List Char, x ∉ l → noAdj x y l = true := by
  intro l
  induction l with
  | nil => intro _; rfl
  | cons a r ih =>
    intro h
    refine noAdj_cons x y a r (ih (fun hm => h (List.mem_cons_of_mem a hm))) ?_
    rintro ⟨hax, _⟩
    exact h (by simp [hax])

theorem getLast?_ne_of_not_mem (x : Char) (l : List Char) (h : x ∉ l) :
    l.getLast? ≠ some x := by
  intro hl
  obtain ⟨ys, hys⟩ := List.getLast?_eq_some_iff.mp hl
  exact h (by simp [hys])

/-- Segment invariant: no x-then-y adjacency and the last character is not x. -/
def seg (x y : Char) (l : List Char) : Prop := noAdj x y l = true ∧ l.getLast? ≠ some x

theorem seg_of_not_mem (x y : Char) (l : List Char) (h : x ∉ l) : seg x y l :=
  ⟨noAdj_of_not_mem x y l h, getLast?_ne_of_not_mem x l h⟩

theorem seg_nil (x y : Char) : seg x y [] := ⟨rfl, by simp⟩

theorem seg_append (x y : Char) (A B : List Char) (hA : seg x y A) (hB : seg x y B) :
    seg x y (A ++ B) := by
  refine ⟨noAdj_append_of_lastOk x y A B hA.1 hB.1 hA.2, ?_⟩
  cases B with
  | nil => simpa using hA.2
  | cons b r => rw [List.getLast?_append_cons]; exact hB.2

theorem seg_cons (x y a : Char) (l : List Char) (hl : seg x y l)
    (hh : ¬(a = x ∧ l.head? = some y)) (hlast : l = [] → a ≠ x) : seg x y (a :: l) := by
  refine ⟨noAdj_cons x y a l hl.1 hh, ?_⟩
  cases l with
  | nil => simpa using hlast rfl
  | cons b r =>
    have : (a :: b :: r).getLast? = (b :: r).getLast? := by
      have h2 : ([a] ++ (b :: r)).getLast? = (b :: r).getLast? :=
        List.getLast?_append_of_ne_nil [a] (by simp)
      simpa using h2
    rw [this]
    exact hl.2

mutual
/-- Conditions under which a fragment's rendering has no x-then-c adjacency
for x the angle bracket: element names do not start with c (nor bracket),
names and attribute keys are bracket-free, recursively. -/
def fragOk (c : Char) : XFrag → Bool
  | .ftext _ => true
  | .fraw s => s.all (fun a => a != '<')
  | .elem nm attrs kids =>
    (match nm.head? with
     | none => false
     | some h => h != c && h != '<') &&
    nm.all (fun a => a != '<') &&
    attrs.all (fun a => a.1.all (fun b => b != '<')) &&
    fragsOk c kids
def fragsOk (c : Char) : XFrags → Bool
  | .nil => true
  | .cons x xs => fragOk c x && fragsOk c xs
end

theorem not_lt_mem_renderAttrs (attrs : List (List Char × List Char))
    (h : attrs.all (fun a => a.1.all (fun b => b != '<')) = true) :
    '<' ∉ renderAttrs attrs := by
  intro hmem
  simp only [renderAttrs, List.mem_flatMap] at hmem
  obtain ⟨a, ha, hc⟩ := hmem
  simp only [List.all_eq_true] at h
  have hk := h a ha
  simp only [List.all_eq_true, bne_iff_ne, ne_eq] at hk
  simp only [renderAttr, List.mem_cons, List.mem_append, List.mem_singleton] at hc
  rcases hc with h1 | h1 | h1 | h1 | h1 | h1
  · exact absurd h1 (by decide)
  · exact hk '<' h1 rfl
  · exact absurd h1 (by decide)
  · exact absurd h1 (by decide)
  · exact not_lt_mem_escapeText _ h1
  · exact absurd h1 (by decide)

mutual
theorem seg_renderFrag (c : Char) (hc : c ≠ '/') :
    ∀ (f : XFrag), fragOk c f = true → seg '<' c (renderFrag f)
  | .ftext s, _ => seg_of_not_mem _ _ _ (not_lt_mem_escapeText s)
  | .fraw s, h => seg_of_not_mem _ _ _ (by
      intro hm
      simp only [fragOk, List.all_eq_true, bne_iff_ne, ne_eq] at h
      exact h '<' hm rfl)
  | .elem nm attrs kids, h => by
    simp only [fragOk, Bool.and_eq_true] at h
    obtain ⟨⟨⟨hhead, hnm⟩, hattrs⟩, hkids⟩ := h
    have hnmne : nm ≠ [] := by
      cases hn : nm.head? with
      | none => rw [hn] at hhead; exact absurd hhead (by simp)
      | some v => intro hnil; rw [hnil] at hn; simp at hn
    have hheadv : ∀ v, nm.head? = some v → v ≠ c ∧ v ≠ '<' := by
      intro v hv
      rw [hv] at hhead
      simp only [Bool.and_eq_true, bne_iff_ne, ne_eq] at hhead
      exact hhead
    have hnmfree : '<' ∉ nm := by
      intro hm
      simp only [List.all_eq_true, bne_iff_ne, ne_eq] at hnm
      exact hnm '<' hm rfl
    have hK := seg_renderFrags c hc kids hkids
    -- the suffix after the closing bracket of the start tag
    have segTail : seg '<' c ('<' :: '/' :: (nm ++ ['>'])) := by
      refine seg_cons _ _ _ _ ?_ ?_ (by simp)
      · refine seg_cons _ _ _ _ ?_ ?_ (by simp [hnmne])
        · exact seg_append _ _ _ _ (seg_of_not_mem _ _ _ hnmfree)
            (seg_of_not_mem _ _ _ (by decide))
        · rintro ⟨h1, _⟩; exact absurd h1 (by decide)
      · rintro ⟨_, h2⟩
        rw [List.head?_cons] at h2
        exact hc (by injection h2 with h3; exact h3.symm) 
    have segBody : seg '<' c ('>' :: (renderFrags kids ++ ('<' :: '/' :: (nm ++ ['>'])))) := by
      refine seg_cons _ _ _ _ (seg_append _ _ _ _ hK segTail) ?_ (by simp)
      rintro ⟨h1, _⟩; exact absurd h1 (by decide)
    have segX : seg '<' c (nm ++ (renderAttrs attrs ++ ('>' :: (renderFrags kids ++ ('<' :: '/' :: (nm ++ ['>'])))))) := by
      refine seg_append _ _ _ _ (seg_of_not_mem _ _ _ hnmfree) ?_
      exact seg_append _ _ _ _ (seg_of_not_mem _ _ _ (not_lt_mem_renderAttrs attrs hattrs)) segBody
    have hXhead : (nm ++ (renderAttrs attrs ++ ('>' :: (renderFrags kids ++ ('<' :: '/' :: (nm ++ ['>'])))))).head? = nm.head? :=
      List.head?_append_of_ne_nil nm hnmne
    have result : seg '<' c ('<' :: (nm ++ (renderAttrs attrs ++ ('>' :: (renderFrags kids ++ ('<' :: '/' :: (nm ++ ['>']))))))) := by
      refine seg_cons _ _ _ _ segX ?_ (by simp [hnmne])
      rintro ⟨_, h2⟩
      rw [hXhead] at h2
      exact (hheadv _ h2).1 rfl
    simpa [renderFrag, List.append_assoc] using result
theorem seg_renderFrags (c : Char) (hc : c ≠ '/') :
    ∀ (ks : XFrags), fragsOk c ks = true → seg '<' c (renderFrags ks)
  | .nil, _ => seg_nil _ _
  | .cons f xs, h => by
    simp only [fragsOk, Bool.and_eq_true] at h
    exact seg_append _ _ _ _ (seg_renderFrag c hc f h.1) (seg_renderFrags c hc xs h.2)
end

theorem renderFrags_frags_append (A B : List XFrag) :
    renderFrags (frags (A ++ B)) = renderFrags (frags A) ++ renderFrags (frags B) := by
  induction A with
  | nil => simp [frags, renderFrags]
  | cons x xs ih => simp [frags, renderFrags, ih]

theorem fragsOk_urlFrags (c : Char) (u : URL)
    (him : u.Images = []) (hvid : u.Videos = []) (halt : u.Alternate = [])
    (hc1 : 'u' ≠ c) (hc2 : 'l' ≠ c) (hc3 : 'c' ≠ c) (hc4 : 'p' ≠ c) :
    fragsOk c (frags (urlFrags u)) = true := by
  have e1 : (str "url").head? = some 'u' := rfl
  have e2 : (str "loc").head? = some 'l' := rfl
  have e3 : (str "lastmod").head? = some 'l' := rfl
  have e4 : (str "changefreq").head? = some 'c' := rfl
  have e5 : (str "priority").head? = some 'p' := rfl
  have m1 : ∀ x ∈ str "url", ¬x = '<' := by decide
  have m2 : ∀ x ∈ str "loc", ¬x = '<' := by decide
  have m3 : ∀ x ∈ str "lastmod", ¬x = '<' := by decide
  have m4 : ∀ x ∈ str "changefreq", ¬x = '<' := by decide
  have m5 : ∀ x ∈ str "priority", ¬x = '<' := by decide
  cases u with
  | mk Loc LastMod ChangeFreq Priority Images Videos Alternate =>
    simp only at him hvid halt
    subst him hvid halt
    cases LastMod with
    | none =>
      by_cases hcf : ChangeFreq = "" <;> cases Priority <;>
        simp [urlFrags, fragOk, fragsOk, frags, leafElem, nl, hcf,
          e1, e2, e3, e4, e5, m1, m2, m3, m4, m5, bne_iff_ne, hc1, hc2, hc3, hc4] <;> decide
    | some t =>
      by_cases hcf : ChangeFreq = "" <;> cases Priority <;>
        simp [urlFrags, fragOk, fragsOk, frags, leafElem, nl, hcf,
          e1, e2, e3, e4, e5, m1, m2, m3, m4, m5, bne_iff_ne, hc1, hc2, hc3, hc4] <;> decide

theorem marshalTimeOk_of_valid (t : GoTime) (h : t.valid = true) :
    marshalTimeOk t = true := by
  simp only [GoTime.valid, Bool.and_eq_true, decide_eq_true_eq] at h
  simp only [marshalTimeOk, Bool.and_eq_true, decide_eq_true_eq]
  omega

theorem generateXML_index_some (si : SitemapIndex) (doc : String)
    (h : SitemapIndex.GenerateXML si = some doc) : doc = si.renderXML := by
  unfold SitemapIndex.GenerateXML at h
  split at h
  · exact (Option.some.inj h).symm
  · cases h

theorem generateXML_urlset_some (us : URLSet) (doc : String)
    (h : URLSet.GenerateXML us = some doc) : doc = us.renderXML := by
  unfold URLSet.GenerateXML at h
  split at h
  · exact (Option.some.inj h).symm
  · cases h

theorem generateXML_index_ok (si : SitemapIndex)
    (h : si.Sitemaps.all SitemapEntry.marshalOk = true) :
    SitemapIndex.GenerateXML si = some si.renderXML := by
  rw [SitemapIndex.GenerateXML, if_pos h]

theorem generateXML_urlset_ok (us : URLSet)
    (h : us.URLs.all URL.marshalOk = true) :
    URLSet.GenerateXML us = some us.renderXML := by
  rw [URLSet.GenerateXML, if_pos h]

/-- C7: a URL whose images, videos and alternates are all empty contributes
no image:image, video:video or xhtml:link element: the rendered url element
(shown by the last conjunct to be literally a segment of the document
GenerateXML returns whenever it returns one) does not contain those start
tags even as substrings — escaping guarantees no text can forge an angle
bracket. -/
theorem url_without_extensions_omits_elements (us : URLSet) (u : URL) (hmem : u ∈ us.URLs)
    (him : u.Images = []) (hvid : u.Videos = []) (halt : u.Alternate = []) :
    containsSub (str "<image:image") (renderFrags (frags (urlFrags u))) = false ∧
    containsSub (str "<video:video") (renderFrags (frags (urlFrags u))) = false ∧
    containsSub (str "<xhtml:link") (renderFrags (frags (urlFrags u))) = false ∧
    ∀ doc, us.GenerateXML = some doc →
      ∃ pre post, doc.data = pre ++ renderFrags (frags (urlFrags u)) ++ post := by
  refine ⟨?_, ?_, ?_, ?_⟩
  · have hseg := seg_renderFrags 'i' (by decide) (frags (urlFrags u))
      (fragsOk_urlFrags 'i' u him hvid halt (by decide) (by decide) (by decide) (by decide))
    have hpat : str "<image:image" = '<' :: 'i' :: str "mage:image" := rfl
    rw [hpat]
    exact containsSub_eq_false_of_noAdj '<' 'i' (str "mage:image") _ hseg.1
  · have hseg := seg_renderFrags 'v' (by decide) (frags (urlFrags u))
      (fragsOk_urlFrags 'v' u him hvid halt (by decide) (by decide) (by decide) (by decide))
    have hpat : str "<video:video" = '<' :: 'v' :: str "ideo:video" := rfl
    rw [hpat]
    exact containsSub_eq_false_of_noAdj '<' 'v' (str "ideo:video") _ hseg.1
  · have hseg := seg_renderFrags 'x' (by decide) (frags (urlFrags u))
      (fragsOk_urlFrags 'x' u him hvid halt (by decide) (by decide) (by decide) (by decide))
    have hpat : str "<xhtml:link" = '<' :: 'x' :: str "html:link" := rfl
    rw [hpat]
    exact containsSub_eq_false_of_noAdj '<' 'x' (str "html:link") _ hseg.1
  · intro doc hdocsome
    have hdr : doc = us.renderXML := generateXML_urlset_some us doc hdocsome
    subst hdr
    obtain ⟨l1, l2, hsplit⟩ := List.append_of_mem hmem
    have hdec : (us.renderXML).data =
        (xmlHeaderChars ++ '<' :: (str "urlset" ++ (renderAttrs (urlsetAttrs us) ++ ['>'])))
        ++ (renderFrags (frags (us.URLs.flatMap urlFrags ++
              (if us.URLs.isEmpty then [] else [.fraw (nl 0)])))
        ++ ('<' :: '/' :: (str "urlset" ++ ['>']))) := by
      simp [URLSet.renderXML, frags, renderFrags, renderFrag, List.append_assoc]
    refine ⟨xmlHeaderChars ++ '<' :: (str "urlset" ++ (renderAttrs (urlsetAttrs us) ++ ['>'])) ++
      renderFrags (frags (l1.flatMap urlFrags)),
      renderFrags (frags (l2.flatMap urlFrags ++
        (if (l1 ++ u :: l2).isEmpty then [] else [.fraw (nl 0)]))) ++
        ('<' :: '/' :: (str "urlset" ++ ['>'])), ?_⟩
    rw [hdec, hsplit]
    rw [show (l1 ++ u :: l2).flatMap urlFrags ++
        (if (l1 ++ u :: l2).isEmpty = true then ([] : List XFrag) else [XFrag.fraw (nl 0)]) =
      l1.flatMap urlFrags ++ (urlFrags u ++ (l2.flatMap urlFrags ++
        (if (l1 ++ u :: l2).isEmpty = true then [] else [XFrag.fraw (nl 0)]))) from by
      simp [List.flatMap_append, List.append_assoc]]
    rw [renderFrags_frags_append, renderFrags_frags_append]
    simp only [List.append_assoc]

theorem url_without_extensions_omits_elements_witness :
    (⟨"https://x/", none, "monthly", none, [], [], []⟩ : URL) ∈
      (MakeUrlSet.Add ⟨"https://x/", none, "monthly", none, [], [], []⟩).URLs ∧
    containsSub (str "<image:image")
      (renderFrags (frags (urlFrags ⟨"https://x/", none, "monthly", none, [], [], []⟩))) = false :=
  ⟨by decide,
   (url_without_extensions_omits_elements
      (MakeUrlSet.Add ⟨"https://x/", none, "monthly", none, [], [], []⟩)
      ⟨"https://x/", none, "monthly", none, [], [], []⟩
      (by decide) rfl rfl rfl).1⟩

/-- C3 counterexample: the XML produced for a SitemapIndex built by
MakeSitemapIndex does not contain the substring xmlns at all, in particular
no namespace declaration on the sitemapindex root element: the xmlns field
is unexported, and Go's encoder silently skips unexported fields. -/
theorem sitemapindex_xmlns_counterexample :
    ∃ doc, SitemapIndex.GenerateXML (MakeSitemapIndex []) = some doc ∧
      containsSub (str "xmlns") doc.data = false :=
  ⟨_, rfl, by decide⟩

/-- C3 amended: whenever GenerateXML on a SitemapIndex returns document
text, that text carries the root start tag as the bare, attribute-free
literal: the namespace stored by MakeSitemapIndex in the unexported xmlns
field is never serialized. -/
theorem sitemapindex_root_no_attributes (si : SitemapIndex) (doc : String)
    (h : SitemapIndex.GenerateXML si = some doc) :
    ∃ rest, doc.data = xmlHeaderChars ++ str "<sitemapindex>" ++ rest := by
  have hdr : doc = si.renderXML := generateXML_index_some si doc h
  subst hdr
  refine ⟨renderFrags (frags (si.Sitemaps.flatMap sitemapEntryFrags ++
      (if si.Sitemaps.isEmpty then [] else [.fraw (nl 0)]))) ++ str "</sitemapindex>", ?_⟩
  simp [SitemapIndex.renderXML, renderFrags, renderFrag, renderAttrs, str, frags]

theorem sitemapindex_root_no_attributes_witness :
    ∃ rest, (SitemapIndex.renderXML (MakeSitemapIndex [])).data =
      xmlHeaderChars ++ str "<sitemapindex>" ++ rest :=
  sitemapindex_root_no_attributes (MakeSitemapIndex [])
    (SitemapIndex.renderXML (MakeSitemapIndex [])) rfl

/-- Folding URLSet.Add only appends to the URL sequence. -/
theorem foldl_add_urls (us : URLSet) (urls : List URL) :
    urls.foldl URLSet.Add us = { us with URLs := us.URLs ++ urls } := by
  induction urls generalizing us with
  | nil => simp
  | cons u rest ih => simp [URLSet.Add, ih]

/-- C8: MakeUrlSet starts empty with the sitemap and xhtml namespace
attributes populated and the image/video namespace attributes unset; after
any sequence of Add calls they are still unset, and whenever GenerateXML
returns document text for such a set, its root start tag is exactly the
urlset tag carrying the xmlns and xmlns:xhtml declarations and nothing
else — in particular no xmlns:image or xmlns:video declaration is ever
emitted. -/
theorem makeUrlSet_namespace_invariants :
    MakeUrlSet.URLs = [] ∧
    MakeUrlSet.XMLNS = "http://www.sitemaps.org/schemas/sitemap/0.9" ∧
    MakeUrlSet.XHTML = "http://www.w3.org/1999/xhtml" ∧
    MakeUrlSet.Image = "" ∧ MakeUrlSet.Video = "" ∧
    ∀ urls : List URL,
      (urls.foldl URLSet.Add MakeUrlSet).Image = "" ∧
      (urls.foldl URLSet.Add MakeUrlSet).Video = "" ∧
      ∀ doc, URLSet.GenerateXML (urls.foldl URLSet.Add MakeUrlSet) = some doc →
      ∃ rest, doc.data =
        xmlHeaderChars ++
        str "<urlset xmlns=\"http://www.sitemaps.org/schemas/sitemap/0.9\" xmlns:xhtml=\"http://www.w3.org/1999/xhtml\">"
        ++ rest := by
  refine ⟨rfl, rfl, rfl, rfl, rfl, ?_⟩
  intro urls
  refine ⟨by rw [foldl_add_urls]; rfl, by rw [foldl_add_urls]; rfl, ?_⟩
  intro doc hdocsome
  have hdr : doc = (urls.foldl URLSet.Add MakeUrlSet).renderXML :=
    generateXML_urlset_some _ doc hdocsome
  subst hdr
  rw [foldl_add_urls]
  refine ⟨renderFrags (frags (urls.flatMap urlFrags ++
      (if urls.isEmpty then [] else [.fraw (nl 0)]))) ++ str "</urlset>", ?_⟩
  simp [URLSet.renderXML, renderFrags, renderFrag, renderAttrs, renderAttr, urlsetAttrs,
    MakeUrlSet, str, frags]
  rfl

theorem makeUrlSet_namespace_invariants_witness :
    ∃ rest, (URLSet.renderXML (([] : List URL).foldl URLSet.Add MakeUrlSet)).data =
      xmlHeaderChars ++
      str "<urlset xmlns=\"http://www.sitemaps.org/schemas/sitemap/0.9\" xmlns:xhtml=\"http://www.w3.org/1999/xhtml\">"
      ++ rest :=
  (makeUrlSet_namespace_invariants.2.2.2.2.2 []).2.2
    (URLSet.renderXML (([] : List URL).foldl URLSet.Add MakeUrlSet)) rfl
/-! ### Decimal digit lemmas -/

theorem natDigitsAux_zero (fuel : Nat) : natDigitsAux fuel 0 = [] := by
  cases fuel <;> simp [natDigitsAux]

theorem natDigitsAux_succ (fuel n : Nat) (h0 : 0 < n) (h : n ≤ fuel + 1) :
    natDigitsAux (fuel + 1) n = n % 10 :: natDigitsAux fuel (n / 10) := by
  simp [natDigitsAux, Nat.pos_iff_ne_zero.mp h0]

theorem natDigitsAux_fuel_irrel : ∀ f1 f2 n, n ≤ f1 → n ≤ f2 →
    natDigitsAux f1 n = natDigitsAux f2 n := by
  intro f1
  induction f1 with
  | zero =>
    intro f2 n h1 _
    interval_cases n
    simp [natDigitsAux_zero]
  | succ f ih =>
    intro f2 n h1 h2
    rcases Nat.eq_zero_or_pos n with h0 | h0
    · subst h0; simp [natDigitsAux_zero]
    · cases f2 with
      | zero => omega
      | succ f2' =>
        rw [natDigitsAux_succ f n h0 h1, natDigitsAux_succ f2' n h0 h2]
        have hd : n / 10 ≤ f := by
          have := Nat.div_lt_self h0 (by norm_num : 1 < 10)
          omega
        have hd2 : n / 10 ≤ f2' := by
          have := Nat.div_lt_self h0 (by norm_num : 1 < 10)
          omega
        rw [ih f2' (n / 10) hd hd2]

/-- Value of a little-endian digit list. -/
def lval : List Nat → Nat
  | [] => 0
  | d :: r => d + 10 * lval r

theorem lval_natDigitsAux : ∀ fuel n, n ≤ fuel → lval (natDigitsAux fuel n) = n := by
  intro fuel
  induction fuel with
  | zero => intro n h; interval_cases n; simp [natDigitsAux_zero, lval]
  | succ f ih =>
    intro n h
    rcases Nat.eq_zero_or_pos n with h0 | h0
    · subst h0; simp [natDigitsAux_zero, lval]
    · rw [natDigitsAux_succ f n h0 h]
      have hd : n / 10 ≤ f := by
        have := Nat.div_lt_self h0 (by norm_num : 1 < 10)
        omega
      simp [lval, ih (n / 10) hd]
      omega

theorem natDigitsAux_lt_ten (n : Nat) : ∀ fuel d, n ≤ fuel → d ∈ natDigitsAux fuel n → d < 10 := by
  induction n using Nat.strong_induction_on with
  | _ n ih =>
    intro fuel d hle hmem
    rcases Nat.eq_zero_or_pos n with h0 | h0
    · subst h0; rw [natDigitsAux_zero] at hmem; simp at hmem
    · obtain ⟨f, rfl⟩ : ∃ f, fuel = f + 1 := ⟨fuel - 1, by omega⟩
      rw [natDigitsAux_succ f n h0 hle] at hmem
      rcases List.mem_cons.mp hmem with h1 | h1
      · subst h1; exact Nat.mod_lt n (by norm_num)
      · have hdiv : n / 10 < n := Nat.div_lt_self h0 (by norm_num)
        exact ih (n / 10) hdiv f d (by omega) h1

theorem digitVal_digitChar (d : Nat) (h : d < 10) : digitVal (digitChar d) = d := by
  interval_cases d <;> decide

theorem isDigitCh_digitChar (d : Nat) (h : d < 10) : isDigitCh (digitChar d) = true := by
  interval_cases d <;> decide

theorem digitsVal_append_singleton (A : List Char) (c : Char) :
    digitsVal (A ++ [c]) = 10 * digitsVal A + digitVal c := by
  simp [digitsVal, List.foldl_append]

theorem digitsVal_rev_map (ds : List Nat) (h : ∀ d ∈ ds, d < 10) :
    digitsVal ((ds.map digitChar).reverse) = lval ds := by
  induction ds with
  | nil => rfl
  | cons d r ih =>
    have hd : d < 10 := h d (List.mem_cons_self d r)
    have hr : ∀ x ∈ r, x < 10 := fun x hx => h x (List.mem_cons_of_mem d hx)
    simp only [List.map_cons, List.reverse_cons]
    rw [digitsVal_append_singleton, ih hr, digitVal_digitChar d hd]
    simp [lval]
    ring

theorem digitsVal_natChars (n : Nat) : digitsVal (natChars n) = n := by
  by_cases h0 : n = 0
  · subst h0; decide
  · unfold natChars
    rw [if_neg h0, digitsVal_rev_map _ (fun d hd => natDigitsAux_lt_ten n n d le_rfl hd),
      lval_natDigitsAux n n le_rfl]

theorem natChars_all_digits (n : Nat) : ∀ c ∈ natChars n, isDigitCh c = true := by
  intro c hc
  by_cases h0 : n = 0
  · subst h0; simp [natChars] at hc; subst hc; decide
  · unfold natChars at hc
    rw [if_neg h0] at hc
    simp only [List.mem_reverse, List.mem_map] at hc
    obtain ⟨d, hd, rfl⟩ := hc
    exact isDigitCh_digitChar d (natDigitsAux_lt_ten n n d le_rfl hd)
theorem digitsVal_replicate_zero_append (k : Nat) (ds : List Char) :
    digitsVal (List.replicate k '0' ++ ds) = digitsVal ds := by
  induction k with
  | zero => simp
  | succ m ih =>
    simp only [List.replicate_succ, List.cons_append]
    show digitsVal (List.replicate m '0' ++ ds) = digitsVal ds
    exact ih

theorem digitsVal_append_replicate_zero (ds : List Char) (k : Nat) :
    digitsVal (ds ++ List.replicate k '0') = digitsVal ds * 10 ^ k := by
  induction k with
  | zero => simp
  | succ m ih =>
    have : ds ++ List.replicate (m + 1) '0' = (ds ++ List.replicate m '0') ++ ['0'] := by
      simp [List.replicate_succ']
    rw [this, digitsVal_append_singleton, ih]
    have : digitVal '0' = 0 := rfl
    rw [this]
    ring

theorem digitsVal_padZeros (w : Nat) (ds : List Char) :
    digitsVal (padZeros w ds) = digitsVal ds := by
  unfold padZeros
  exact digitsVal_replicate_zero_append _ ds

theorem padZeros_all_digits (w : Nat) (ds : List Char) (h : ∀ c ∈ ds, isDigitCh c = true) :
    ∀ c ∈ padZeros w ds, isDigitCh c = true := by
  intro c hc
  unfold padZeros at hc
  rcases List.mem_append.mp hc with h1 | h1
  · have := List.eq_of_mem_replicate h1
    subst this; decide
  · exact h c h1

theorem length_padZeros (w : Nat) (ds : List Char) (h : ds.length ≤ w) :
    (padZeros w ds).length = w := by
  simp [padZeros]
  omega

theorem natDigitsAux_length_le (n : Nat) : ∀ fuel k, n ≤ fuel → n < 10 ^ k →
    (natDigitsAux fuel n).length ≤ k := by
  induction n using Nat.strong_induction_on with
  | _ n ih =>
    intro fuel k hle h
    rcases Nat.eq_zero_or_pos n with h0 | h0
    · subst h0; simp [natDigitsAux_zero]
    · obtain ⟨f, rfl⟩ : ∃ f, fuel = f + 1 := ⟨fuel - 1, by omega⟩
      rw [natDigitsAux_succ f n h0 hle]
      simp only [List.length_cons]
      have hk : 0 < k := by
        by_contra hk0
        push_neg at hk0
        interval_cases k
        simp at h
        omega
      obtain ⟨m, rfl⟩ : ∃ m, k = m + 1 := ⟨k - 1, by omega⟩
      have hdiv : n / 10 < n := Nat.div_lt_self h0 (by norm_num)
      have hlt : n / 10 < 10 ^ m := by
        have hpow : 10 ^ (m + 1) = 10 * 10 ^ m := by ring
        rw [hpow] at h
        omega
      have := ih (n / 10) hdiv f m (by omega) hlt
      omega

theorem natChars_length_le (k n : Nat) (hk : 0 < k) (h : n < 10 ^ k) :
    (natChars n).length ≤ k := by
  by_cases h0 : n = 0
  · subst h0; simp [natChars]; omega
  · unfold natChars
    rw [if_neg h0]
    simp only [List.length_reverse, List.length_map]
    exact natDigitsAux_length_le n n k le_rfl h
theorem expectCh_self (c : Char) (r : List Char) : expectCh c (c :: r) = some r := by
  simp [expectCh]

theorem parse2_digits (a b : Char) (rest : List Char)
    (ha : isDigitCh a = true) (hb : isDigitCh b = true) :
    parse2 (a :: b :: rest) = some (10 * digitVal a + digitVal b, rest) := by
  simp [parse2, ha, hb]

theorem parse2_pad2 (n : Nat) (h : n ≤ 99) (rest : List Char) :
    parse2 (pad2 n ++ rest) = some (n, rest) := by
  have hlen : (pad2 n).length = 2 :=
    length_padZeros 2 (natChars n) (natChars_length_le 2 n (by norm_num) (by omega))
  have hdig : ∀ c ∈ pad2 n, isDigitCh c = true :=
    padZeros_all_digits 2 (natChars n) (natChars_all_digits n)
  have hval : digitsVal (pad2 n) = n := by
    rw [pad2, digitsVal_padZeros, digitsVal_natChars]
  obtain ⟨a, b, hab⟩ := List.length_eq_two.mp hlen
  rw [hab] at hdig hval ⊢
  rw [List.cons_append, List.cons_append, List.nil_append]
  rw [parse2_digits a b rest (hdig a (by simp)) (hdig b (by simp))]
  have : 10 * digitVal a + digitVal b = n := by
    have := hval
    simp [digitsVal] at this
    omega
  rw [this]

theorem length_eq_four {α : Type} (l : List α) (h : l.length = 4) :
    ∃ a b c d, l = [a, b, c, d] := by
  match l, h with
  | [a, b, c, d], _ => exact ⟨a, b, c, d, rfl⟩

theorem parse4_pad4 (n : Nat) (h : n ≤ 9999) (rest : List Char) :
    parse4 (pad4 n ++ rest) = some (n, rest) := by
  have hlen : (pad4 n).length = 4 :=
    length_padZeros 4 (natChars n) (natChars_length_le 4 n (by norm_num) (by omega))
  have hdig : ∀ c ∈ pad4 n, isDigitCh c = true :=
    padZeros_all_digits 4 (natChars n) (natChars_all_digits n)
  have hval : digitsVal (pad4 n) = n := by
    rw [pad4, digitsVal_padZeros, digitsVal_natChars]
  obtain ⟨a, b, c, d, habcd⟩ := length_eq_four (pad4 n) hlen
  rw [habcd] at hdig hval ⊢
  simp only [List.cons_append, List.nil_append]
  rw [show parse4 (a :: b :: c :: d :: rest) =
      if isDigitCh a && isDigitCh b && isDigitCh c && isDigitCh d then
        some (1000 * digitVal a + 100 * digitVal b + 10 * digitVal c + digitVal d, rest)
      else none from rfl]
  rw [hdig a (by simp), hdig b (by simp), hdig c (by simp), hdig d (by simp)]
  simp only [Bool.and_self, if_true]
  have : 1000 * digitVal a + 100 * digitVal b + 10 * digitVal c + digitVal d = n := by
    have := hval
    simp [digitsVal] at this
    omega
  rw [this]

theorem takeWhile_append_of_all {p : Char → Bool} (A B : List Char)
    (hA : ∀ c ∈ A, p c = true) (hB : ∀ b, B.head? = some b → p b = false) :
    (A ++ B).takeWhile p = A ∧ (A ++ B).dropWhile p = B := by
  induction A with
  | nil =>
    simp only [List.nil_append]
    cases B with
    | nil => simp
    | cons b r =>
      have := hB b rfl
      simp [List.takeWhile, List.dropWhile, this]
  | cons a r ih =>
    have ha := hA a (List.mem_cons_self a r)
    have hr := ih (fun c hc => hA c (List.mem_cons_of_mem a hc))
    simp only [List.cons_append, List.takeWhile_cons, List.dropWhile_cons, ha, if_true]
    exact ⟨by rw [hr.1], by rw [hr.2]⟩
theorem parseFrac_not_dot (c : Char) (r : List Char) (h : ¬ c = '.') :
    parseFrac (c :: r) = none := by
  simp only [parseFrac]
  split
  · next r' heq => injection heq with h1 _; exact absurd h1 h
  · rfl

theorem stripTrailZero_decomp (l : List Char) :
    ∃ k, l = stripTrailZeroCh l ++ List.replicate k '0' := by
  refine ⟨(l.reverse.takeWhile (fun c => c = '0')).length, ?_⟩
  conv_lhs => rw [← List.reverse_reverse l,
    ← List.takeWhile_append_dropWhile (p := fun c => decide (c = '0')) (l := l.reverse)]
  rw [List.reverse_append]
  unfold stripTrailZeroCh
  congr 1
  have hall : ∀ c ∈ l.reverse.takeWhile (fun c => decide (c = '0')), c = '0' := by
    intro c hc
    have := List.mem_takeWhile_imp hc
    simpa using this
  rw [List.eq_replicate_of_mem hall, List.reverse_replicate]
  simp

theorem stripTrailZero_subset (l : List Char) : ∀ c ∈ stripTrailZeroCh l, c ∈ l := by
  intro c hc
  unfold stripTrailZeroCh at hc
  rw [List.mem_reverse] at hc
  have := (List.dropWhile_sublist (l := l.reverse) (p := fun c => decide (c = '0'))).subset hc
  rwa [List.mem_reverse] at this

theorem digitsVal_replicate_zero (k : Nat) : digitsVal (List.replicate k '0') = 0 := by
  have := digitsVal_append_replicate_zero [] k
  simpa [digitsVal] using this

theorem parseFrac_fracChars (ns : Nat) (h0 : ns ≠ 0) (hns : ns < 10 ^ 9) (B : List Char)
    (hB : ∀ b, B.head? = some b → isDigitCh b = false) :
    parseFrac (fracChars ns ++ B) = some (ns, B) := by
  unfold fracChars
  rw [if_neg h0]
  obtain ⟨k, hk⟩ := stripTrailZero_decomp (padZeros 9 (natChars ns))
  have hlen9 : (padZeros 9 (natChars ns)).length = 9 :=
    length_padZeros 9 _ (natChars_length_le 9 ns (by norm_num) hns)
  have hdig9 : ∀ c ∈ padZeros 9 (natChars ns), isDigitCh c = true :=
    padZeros_all_digits 9 _ (natChars_all_digits ns)
  have hval9 : digitsVal (padZeros 9 (natChars ns)) = ns := by
    rw [digitsVal_padZeros, digitsVal_natChars]
  have hstdig : ∀ c ∈ stripTrailZeroCh (padZeros 9 (natChars ns)), isDigitCh c = true :=
    fun c hc => hdig9 c (stripTrailZero_subset _ c hc)
  have hstlen : (stripTrailZeroCh (padZeros 9 (natChars ns))).length + k = 9 := by
    rw [hk] at hlen9
    simpa using hlen9
  have hstne : stripTrailZeroCh (padZeros 9 (natChars ns)) ≠ [] := by
    intro he
    rw [he, List.nil_append] at hk
    rw [hk, digitsVal_replicate_zero] at hval9
    exact h0 hval9.symm
  have hstval : digitsVal (stripTrailZeroCh (padZeros 9 (natChars ns))) * 10 ^ k = ns := by
    have h1 := hval9
    rw [hk, digitsVal_append_replicate_zero] at h1
    exact h1
  have hspan := takeWhile_append_of_all (p := isDigitCh)
    (stripTrailZeroCh (padZeros 9 (natChars ns))) B hstdig hB
  simp only [List.cons_append, parseFrac]
  rw [hspan.1]
  rw [if_neg (by simpa using hstne)]
  have htake : (stripTrailZeroCh (padZeros 9 (natChars ns))).take 9 =
      stripTrailZeroCh (padZeros 9 (natChars ns)) :=
    List.take_of_length_le (by omega)
  rw [htake]
  have hdrop : (stripTrailZeroCh (padZeros 9 (natChars ns)) ++ B).drop
      (stripTrailZeroCh (padZeros 9 (natChars ns))).length = B := List.drop_left _ _
  rw [hdrop]
  rw [show 9 - (stripTrailZeroCh (padZeros 9 (natChars ns))).length = k from by omega]
  rw [hstval]

theorem parse2_pad2_nil (n : Nat) (h : n ≤ 99) : parse2 (pad2 n) = some (n, []) := by
  have := parse2_pad2 n h []
  simpa using this

theorem parseOffset_offsetChars (off : Int) (hlo : -(23 * 60 + 59) ≤ off)
    (hhi : off ≤ 23 * 60 + 59) : parseOffset (offsetChars off) = some (off, []) := by
  unfold offsetChars
  by_cases h0 : off = 0
  · rw [if_pos h0]; subst h0; rfl
  · rw [if_neg h0]
    have hha : off.natAbs / 60 ≤ 23 := by omega
    have hma : off.natAbs % 60 ≤ 59 := by omega
    by_cases hneg : off < 0
    · rw [if_pos hneg]
      simp only [parseOffset]
      simp only [parse2_pad2 (off.natAbs / 60) (by omega : off.natAbs / 60 ≤ 99),
        expectCh_self, parse2_pad2_nil (off.natAbs % 60) (by omega : off.natAbs % 60 ≤ 99)]
      simp [hha, hma, -Int.natCast_natAbs] <;> omega
    · rw [if_neg hneg]
      simp only [parseOffset]
      simp only [parse2_pad2 (off.natAbs / 60) (by omega : off.natAbs / 60 ≤ 99),
        expectCh_self, parse2_pad2_nil (off.natAbs % 60) (by omega : off.natAbs % 60 ≤ 99)]
      simp [hha, hma, -Int.natCast_natAbs] <;> omega
theorem offsetChars_head_not_digit (off : Int) :
    ∀ b, (offsetChars off).head? = some b → isDigitCh b = false := by
  intro b hb
  unfold offsetChars at hb
  by_cases h0 : off = 0
  · rw [if_pos h0] at hb
    simp at hb
    subst hb; decide
  · rw [if_neg h0] at hb
    by_cases hneg : off < 0
    · rw [if_pos hneg] at hb
      simp at hb
      subst hb; decide
    · rw [if_neg hneg] at hb
      simp at hb
      subst hb; decide

theorem offsetChars_head_not_dot (off : Int) :
    ∀ b, (offsetChars off).head? = some b → ¬ b = '.' := by
  intro b hb
  unfold offsetChars at hb
  by_cases h0 : off = 0
  · rw [if_pos h0] at hb
    simp at hb
    subst hb; decide
  · rw [if_neg h0] at hb
    by_cases hneg : off < 0
    · rw [if_pos hneg] at hb
      simp at hb
      subst hb; decide
    · rw [if_neg hneg] at hb
      simp at hb
      subst hb; decide

/-- The strict RFC 3339 parser inverts the RFC3339Nano renderer on every
valid time: the heart of the lastmod round trip. -/
theorem daysIn_le_31 (m y : Nat) : daysIn m y ≤ 31 := by
  unfold daysIn
  split_ifs <;> omega

theorem parseRFC3339_format (t : GoTime) (h : t.valid = true) :
    parseRFC3339 (formatRFC3339Nano t) = some t := by
  obtain ⟨y, mo, d, hh, mi, s, ns, off⟩ := t
  simp only [GoTime.valid, Bool.and_eq_true, decide_eq_true_eq] at h
  obtain ⟨⟨⟨⟨⟨⟨⟨⟨⟨⟨h1, h2⟩, h3⟩, h4⟩, h5⟩, h6⟩, h7⟩, h8⟩, h9⟩, h10⟩, h11⟩ := h
  have h5' : d ≤ 31 := le_trans h5 (daysIn_le_31 mo y)
  unfold formatRFC3339Nano
  simp only [List.append_assoc, List.cons_append]
  unfold parseRFC3339
  by_cases hns : ns = 0
  · subst hns
    have hfr : parseFrac (offsetChars off) = none := by
      cases hoc : offsetChars off with
      | nil => rfl
      | cons c r =>
        exact parseFrac_not_dot c r (offsetChars_head_not_dot off c (by rw [hoc]; rfl))
    simp only [parse4_pad4 y (by omega), expectCh_self,
      parse2_pad2 mo (by omega), parse2_pad2 d (by omega), parse2_pad2 hh (by omega),
      parse2_pad2 mi (by omega), parse2_pad2 s (by omega),
      show fracChars 0 = [] from rfl, List.nil_append, hfr,
      parseOffset_offsetChars off (by omega) (by omega)]
    rw [if_pos (by simp [h2, h3, h4, h5, h6, h7, h8])]
  · simp only [parse4_pad4 y (by omega), expectCh_self,
      parse2_pad2 mo (by omega), parse2_pad2 d (by omega), parse2_pad2 hh (by omega),
      parse2_pad2 mi (by omega), parse2_pad2 s (by omega),
      parseFrac_fracChars ns hns (by norm_num at h9 ⊢; omega) (offsetChars off)
        (offsetChars_head_not_digit off),
      parseOffset_offsetChars off (by omega) (by omega)]
    rw [if_pos (by simp [h2, h3, h4, h5, h6, h7, h8])]
theorem takeWhile_all_self {p : Char → Bool} (A : List Char) (hA : ∀ c ∈ A, p c = true) :
    A.takeWhile p = A ∧ A.dropWhile p = [] := by
  have := takeWhile_append_of_all A [] hA (by simp)
  simpa using this

theorem natChars_ne_nil (n : Nat) : natChars n ≠ [] := by
  unfold natChars
  by_cases h0 : n = 0
  · simp [h0]
  · rw [if_neg h0]
    obtain ⟨f, hf⟩ : ∃ f, n = f + 1 := ⟨n - 1, by omega⟩
    rw [hf, natDigitsAux_succ f (f + 1) (by omega) le_rfl]
    simp

theorem parseFloatExp_e (e : Int) : parseFloatExp ('e' :: expChars e) = some (e, []) := by
  unfold expChars
  have hpadd : ∀ c ∈ padZeros 2 (natChars e.natAbs), isDigitCh c = true :=
    padZeros_all_digits 2 _ (natChars_all_digits e.natAbs)
  have hspan := takeWhile_all_self (padZeros 2 (natChars e.natAbs)) hpadd
  have hpne : padZeros 2 (natChars e.natAbs) ≠ [] := by
    intro he
    have := length_padZeros 2 (natChars e.natAbs)
    unfold padZeros at he
    have h2 := List.append_eq_nil.mp he
    exact natChars_ne_nil e.natAbs h2.2
  have hval : digitsVal (padZeros 2 (natChars e.natAbs)) = e.natAbs := by
    rw [digitsVal_padZeros, digitsVal_natChars]
  by_cases hneg : e < 0
  · rw [if_pos hneg]
    simp only [parseFloatExp]
    simp only [hspan.1, List.drop_length, hval]
    rw [if_pos (show (True ∨ ('e' = 'E')) from Or.inl trivial),
      if_neg (by simpa using hpne)]
    simp [-Int.natCast_natAbs] <;> omega
  · rw [if_neg hneg]
    simp only [parseFloatExp]
    simp only [hspan.1, List.drop_length, hval]
    rw [if_pos (show (True ∨ ('e' = 'E')) from Or.inl trivial),
      if_neg (by simpa using hpne)]
    simp [-Int.natCast_natAbs] <;> omega
theorem normFloatAux_stop (fuel m : Nat) (e : Int) (h : m = 0 ∨ m % 10 ≠ 0) :
    normFloatAux fuel m e = (m, e) := by
  cases fuel with
  | zero => rfl
  | succ f =>
    unfold normFloatAux
    rw [if_neg (by rcases h with h | h <;> simp [h])]

theorem normFloatAux_mul (k : Nat) : ∀ fuel m e, m ≠ 0 → m % 10 ≠ 0 → k ≤ fuel →
    normFloatAux fuel (m * 10 ^ k) e = (m, e + k) := by
  induction k with
  | zero =>
    intro fuel m e hm0 hm _
    simpa using normFloatAux_stop fuel m e (Or.inr hm)
  | succ n ih =>
    intro fuel m e hm0 hm hk
    obtain ⟨f, rfl⟩ : ∃ f, fuel = f + 1 := ⟨fuel - 1, by omega⟩
    unfold normFloatAux
    rw [if_pos ⟨by positivity, by
      have : 10 ^ (n + 1) = 10 ^ n * 10 := by ring
      rw [this, ← Nat.mul_assoc]
      exact Nat.mul_mod_left _ 10⟩]
    have hdiv : m * 10 ^ (n + 1) / 10 = m * 10 ^ n := by
      have : m * 10 ^ (n + 1) = m * 10 ^ n * 10 := by ring
      rw [this]
      exact Nat.mul_div_cancel _ (by norm_num)
    rw [hdiv, ih f m (e + 1) hm0 hm (by omega)]
    congr 1
    omega

theorem mkGoFloat_id (neg : Bool) (m : Nat) (e : Int) (hm0 : m ≠ 0) (hm : m % 10 ≠ 0) :
    mkGoFloat neg m e = ⟨neg, m, e⟩ := by
  unfold mkGoFloat
  rw [if_neg hm0, normFloatAux_stop m m e (Or.inr hm)]

theorem mkGoFloat_mul (neg : Bool) (m : Nat) (k : Nat) (hm0 : m ≠ 0) (hm : m % 10 ≠ 0) :
    mkGoFloat neg (m * 10 ^ k) 0 = ⟨neg, m, (k : Int)⟩ := by
  unfold mkGoFloat
  rw [if_neg (by positivity)]
  have hk : k ≤ m * 10 ^ k := by
    have h1 : k < 10 ^ k := Nat.lt_pow_self (by norm_num) k
    have h2 : 10 ^ k ≤ m * 10 ^ k := Nat.le_mul_of_pos_left _ (by omega)
    omega
  rw [normFloatAux_mul k (m * 10 ^ k) m 0 hm0 hm hk]
  simp
theorem digitsVal_zero_cons (l : List Char) : digitsVal ('0' :: l) = digitsVal l := rfl

theorem not_empty_and (A B : List Char) (h : A ≠ []) : (A.isEmpty && B.isEmpty) = false := by
  cases A with
  | nil => exact absurd rfl h
  | cons a r => rfl

theorem not_empty_and_prop (A B : List Char) (h : A ≠ []) :
    ¬((A.isEmpty && B.isEmpty) = true) := by
  rw [not_empty_and A B h]
  simp

theorem parseFloatAbs_format (neg : Bool) (m : Nat) (e10 : Int)
    (hm0 : m ≠ 0) (hm : m % 10 ≠ 0) :
    parseFloatAbs neg (formatFloatAbs m e10) = some ⟨neg, m, e10⟩ := by
  have hds_dig := natChars_all_digits m
  have hds_ne := natChars_ne_nil m
  have hds_val := digitsVal_natChars m
  have hnd1 : 1 ≤ (natChars m).length := by
    cases hd : natChars m with
    | nil => exact absurd hd hds_ne
    | cons a r => simp
  have hemp : (([] : List Char).isEmpty = true) := rfl
  have hedot : ('e' = '.') = False := eq_false (by decide)
  have hdotdot : ('.' = '.') = True := eq_true rfl
  unfold formatFloatAbs
  rw [if_neg hm0]
  simp only []
  by_cases hE : e10 + ((natChars m).length : Int) - 1 < -4 ∨
      e10 + ((natChars m).length : Int) - 1 ≥ 21
  · rw [if_pos hE]
    by_cases h1 : (natChars m).length = 1
    · rw [if_pos h1]
      have htake : (natChars m).take 1 = natChars m := List.take_of_length_le (by omega)
      rw [htake, List.append_nil]
      have hspan := takeWhile_append_of_all (p := isDigitCh) (natChars m)
        ('e' :: expChars (e10 + ((natChars m).length : Int) - 1)) hds_dig
        (by intro b hb; simp at hb; subst hb; decide)
      simp only [parseFloatAbs, hspan.1, List.drop_left, hedot, if_false]
      rw [if_neg (not_empty_and_prop _ _ hds_ne)]
      simp only [parseFloatExp_e]
      rw [if_pos hemp]
      rw [List.append_nil, hds_val]
      rw [show ((e10 + ((natChars m).length : Int) - 1) - ((List.length ([] : List Char)) : Int)) = e10 from by
        rw [h1]
        simp]
      rw [mkGoFloat_id neg m e10 hm0 hm]
    · rw [if_neg h1]
      simp only [List.append_assoc, List.cons_append, List.nil_append]
      have htakene : (natChars m).take 1 ≠ [] := by
        intro he
        have hlen := congrArg List.length he
        simp only [List.length_take, List.length_nil] at hlen
        omega
      have hspan := takeWhile_append_of_all (p := isDigitCh) ((natChars m).take 1)
        ('.' :: ((natChars m).drop 1 ++ 'e' :: expChars (e10 + ((natChars m).length : Int) - 1)))
        (fun c hc => hds_dig c (List.mem_of_mem_take hc))
        (by intro b hb; simp at hb; subst hb; decide)
      have hspan2 := takeWhile_append_of_all (p := isDigitCh) ((natChars m).drop 1)
        ('e' :: expChars (e10 + ((natChars m).length : Int) - 1))
        (fun c hc => hds_dig c (List.mem_of_mem_drop hc))
        (by intro b hb; simp at hb; subst hb; decide)
      simp only [parseFloatAbs, hspan.1, List.drop_left, hdotdot, if_true,
        hspan2.1]
      rw [if_neg (not_empty_and_prop _ _ htakene)]
      simp only [List.drop_left, parseFloatExp_e]
      rw [if_pos hemp]
      rw [List.take_append_drop, hds_val]
      rw [show ((e10 + ((natChars m).length : Int) - 1) - ((((natChars m).drop 1).length : Nat) : Int)) = e10 from by
        have hd : ((natChars m).drop 1).length = (natChars m).length - 1 := by simp
        rw [hd]
        omega]
      rw [mkGoFloat_id neg m e10 hm0 hm]
  · rw [if_neg hE]
    by_cases hdp : e10 + ((natChars m).length : Int) ≤ 0
    · rw [if_pos hdp]
      have hspan := takeWhile_all_self (p := isDigitCh)
        (List.replicate (-(e10 + ((natChars m).length : Int))).toNat '0' ++ natChars m)
        (by
          intro c hc
          rcases List.mem_append.mp hc with h | h
          · have := List.eq_of_mem_replicate h; subst this; decide
          · exact hds_dig c h)
      simp only [parseFloatAbs]
      rw [show List.takeWhile isDigitCh
          ('0' :: '.' :: (List.replicate (-(e10 + ((natChars m).length : Int))).toNat '0' ++ natChars m)) =
          ['0'] from by simp [List.takeWhile, isDigitCh]]
      rw [show (('0' :: '.' :: (List.replicate (-(e10 + ((natChars m).length : Int))).toNat '0' ++ natChars m)).drop
          (List.length ['0'])) = '.' :: (List.replicate (-(e10 + ((natChars m).length : Int))).toNat '0' ++ natChars m) from by simp]
      simp only [hdotdot, if_true, hspan.1, List.drop_length]
      rw [if_neg (not_empty_and_prop ['0'] _ (by decide))]
      simp only [parseFloatExp]
      rw [if_pos hemp]
      rw [show digitsVal (['0'] ++ (List.replicate (-(e10 + ((natChars m).length : Int))).toNat '0' ++ natChars m)) = m from by
        rw [List.singleton_append, digitsVal_zero_cons, digitsVal_replicate_zero_append, hds_val]]
      rw [show ((0 : Int) - (((List.replicate (-(e10 + ((natChars m).length : Int))).toNat '0' ++ natChars m).length : Nat) : Int)) = e10 from by
        simp only [List.length_append, List.length_replicate]
        push_cast
        omega]
      rw [mkGoFloat_id neg m e10 hm0 hm]
    · rw [if_neg hdp]
      by_cases hge : (e10 + ((natChars m).length : Int)) ≥ ((natChars m).length : Int)
      · rw [if_pos hge]
        have happne : natChars m ++ List.replicate
            ((e10 + ((natChars m).length : Int)) - ((natChars m).length : Int)).toNat '0' ≠ [] := by
          intro he
          exact hds_ne (List.append_eq_nil.mp he).1
        have hspan := takeWhile_all_self (p := isDigitCh)
          (natChars m ++ List.replicate ((e10 + ((natChars m).length : Int)) - ((natChars m).length : Int)).toNat '0')
          (by
            intro c hc
            rcases List.mem_append.mp hc with h | h
            · exact hds_dig c h
            · have := List.eq_of_mem_replicate h; subst this; decide)
        simp only [parseFloatAbs, hspan.1, List.drop_length]
        rw [if_neg (not_empty_and_prop _ _ happne)]
        simp only [parseFloatExp]
        rw [if_pos hemp]
        rw [List.append_nil, digitsVal_append_replicate_zero, hds_val]
        rw [show ((0 : Int) - ((List.length ([] : List Char)) : Int)) = 0 from by simp]
        rw [mkGoFloat_mul neg m _ hm0 hm]
        simp only [Option.some.injEq, GoFloat.mk.injEq, true_and]
        omega
      · rw [if_neg hge]
        have htakene : (natChars m).take (e10 + ((natChars m).length : Int)).toNat ≠ [] := by
          intro he
          have hlen := congrArg List.length he
          simp only [List.length_take, List.length_nil] at hlen
          omega
        have hspan := takeWhile_append_of_all (p := isDigitCh)
          ((natChars m).take (e10 + ((natChars m).length : Int)).toNat)
          ('.' :: (natChars m).drop (e10 + ((natChars m).length : Int)).toNat)
          (fun c hc => hds_dig c (List.mem_of_mem_take hc))
          (by intro b hb; simp at hb; subst hb; decide)
        have hspan2 := takeWhile_all_self (p := isDigitCh)
          ((natChars m).drop (e10 + ((natChars m).length : Int)).toNat)
          (fun c hc => hds_dig c (List.mem_of_mem_drop hc))
        simp only [parseFloatAbs, hspan.1, List.drop_left, hdotdot, if_true,
          hspan2.1, List.drop_length]
        rw [if_neg (not_empty_and_prop _ _ htakene)]
        simp only [parseFloatExp]
        rw [if_pos hemp]
        rw [List.take_append_drop, hds_val]
        rw [show ((0 : Int) - ((((natChars m).drop (e10 + ((natChars m).length : Int)).toNat).length : Nat) : Int)) = e10 from by
          have hd : ((natChars m).drop (e10 + ((natChars m).length : Int)).toNat).length =
              (natChars m).length - (e10 + ((natChars m).length : Int)).toNat := by simp
          rw [hd]
          omega]
        rw [mkGoFloat_id neg m e10 hm0 hm]
theorem isGoSpace_false_of_digit (c : Char) (h : isDigitCh c = true) : isGoSpace c = false := by
  simp only [isDigitCh, Bool.and_eq_true, decide_eq_true_eq, Char.le_def] at h
  obtain ⟨h1, h2⟩ := h
  simp only [isGoSpace, Bool.or_eq_false_iff, decide_eq_false_iff_not]
  refine ⟨⟨⟨⟨⟨⟨⟨?_, ?_⟩, ?_⟩, ?_⟩, ?_⟩, ?_⟩, ?_⟩, ?_⟩ <;>
    · intro he
      rw [he] at h1 h2
      revert h1 h2
      decide

theorem dropWhile_eq_self_of_all (p : Char → Bool) (l : List Char)
    (h : ∀ c ∈ l, p c = false) : l.dropWhile p = l := by
  cases l with
  | nil => rfl
  | cons a r =>
    rw [List.dropWhile_cons, h a (List.mem_cons_self a r)]
    simp

theorem trimSpace_eq_self (l : List Char) (h : ∀ c ∈ l, isGoSpace c = false) :
    trimSpace l = l := by
  unfold trimSpace
  rw [dropWhile_eq_self_of_all _ _ h,
      dropWhile_eq_self_of_all _ _ (fun c hc => h c (List.mem_reverse.mp hc)),
      List.reverse_reverse]

theorem expChars_no_space (e : Int) : ∀ c ∈ expChars e, isGoSpace c = false := by
  intro c hc
  unfold expChars at hc
  rcases List.mem_cons.mp hc with he | hp
  · by_cases hneg : e < 0
    · rw [if_pos hneg] at he; subst he; decide
    · rw [if_neg hneg] at he; subst he; decide
  · exact isGoSpace_false_of_digit c (padZeros_all_digits 2 _ (natChars_all_digits _) c hp)

theorem formatFloatAbs_no_space (m : Nat) (e10 : Int) :
    ∀ c ∈ formatFloatAbs m e10, isGoSpace c = false := by
  intro c hc
  have hds := natChars_all_digits m
  unfold formatFloatAbs at hc
  by_cases hm : m = 0
  · rw [if_pos hm, List.mem_singleton] at hc
    subst hc; decide
  · rw [if_neg hm] at hc
    simp only [] at hc
    by_cases hE : e10 + ((natChars m).length : Int) - 1 < -4 ∨
        e10 + ((natChars m).length : Int) - 1 ≥ 21
    · rw [if_pos hE] at hc
      simp only [List.mem_append, List.mem_cons] at hc
      rcases hc with (h | h) | h | h
      · exact isGoSpace_false_of_digit c (hds c (List.mem_of_mem_take h))
      · by_cases h1 : (natChars m).length = 1
        · rw [if_pos h1] at h; cases h
        · rw [if_neg h1] at h
          rcases List.mem_cons.mp h with he | hd
          · subst he; decide
          · exact isGoSpace_false_of_digit c (hds c (List.mem_of_mem_drop hd))
      · subst h; decide
      · exact expChars_no_space _ c h
    · rw [if_neg hE] at hc
      by_cases hdp : e10 + ((natChars m).length : Int) ≤ 0
      · rw [if_pos hdp] at hc
        rcases List.mem_cons.mp hc with he | hc2
        · subst he; decide
        · rcases List.mem_cons.mp hc2 with he | hc3
          · subst he; decide
          · rcases List.mem_append.mp hc3 with h | h
            · have := List.eq_of_mem_replicate h; subst this; decide
            · exact isGoSpace_false_of_digit c (hds c h)
      · rw [if_neg hdp] at hc
        by_cases hge : (e10 + ((natChars m).length : Int)) ≥ ((natChars m).length : Int)
        · rw [if_pos hge] at hc
          rcases List.mem_append.mp hc with h | h
          · exact isGoSpace_false_of_digit c (hds c h)
          · have := List.eq_of_mem_replicate h; subst this; decide
        · rw [if_neg hge] at hc
          rcases List.mem_append.mp hc with h | h
          · exact isGoSpace_false_of_digit c (hds c (List.mem_of_mem_take h))
          · rcases List.mem_cons.mp h with he | hd
            · subst he; decide
            · exact isGoSpace_false_of_digit c (hds c (List.mem_of_mem_drop hd))

theorem formatFloat_no_space (f : GoFloat) : ∀ c ∈ formatFloat f, isGoSpace c = false := by
  intro c hc
  unfold formatFloat at hc
  rcases List.mem_append.mp hc with h | h
  · by_cases hneg : f.neg = true
    · rw [if_pos hneg, List.mem_singleton] at h; subst h; decide
    · rw [if_neg hneg] at h; cases h
  · exact formatFloatAbs_no_space f.mant f.exp10 c h

theorem trimSpace_formatFloat (f : GoFloat) : trimSpace (formatFloat f) = formatFloat f :=
  trimSpace_eq_self _ (formatFloat_no_space f)

theorem formatFloatAbs_head_digit (m : Nat) (e10 : Int) :
    ∃ c r, formatFloatAbs m e10 = c :: r ∧ isDigitCh c = true := by
  unfold formatFloatAbs
  by_cases hm : m = 0
  · rw [if_pos hm]; exact ⟨'0', [], rfl, by decide⟩
  · rw [if_neg hm]
    simp only []
    obtain ⟨d, ds', hd⟩ : ∃ d ds', natChars m = d :: ds' := by
      cases h : natChars m with
      | nil => exact absurd h (natChars_ne_nil m)
      | cons a r => exact ⟨a, r, rfl⟩
    have hddig : isDigitCh d = true :=
      natChars_all_digits m d (by rw [hd]; exact List.mem_cons_self _ _)
    by_cases hE : e10 + ((natChars m).length : Int) - 1 < -4 ∨
        e10 + ((natChars m).length : Int) - 1 ≥ 21
    · rw [if_pos hE, hd]
      exact ⟨d, _, rfl, hddig⟩
    · rw [if_neg hE]
      by_cases hdp : e10 + ((natChars m).length : Int) ≤ 0
      · rw [if_pos hdp]
        exact ⟨'0', _, rfl, by decide⟩
      · rw [if_neg hdp]
        by_cases hge : (e10 + ((natChars m).length : Int)) ≥ ((natChars m).length : Int)
        · rw [if_pos hge, hd]
          exact ⟨d, _, rfl, hddig⟩
        · rw [if_neg hge]
          have hpos : (e10 + ((natChars m).length : Int)).toNat =
              ((e10 + ((natChars m).length : Int)).toNat - 1) + 1 := by omega
          rw [hpos, hd]
          exact ⟨d, _, by rw [List.take_succ_cons, List.cons_append], hddig⟩

theorem parseFloat_not_sign (c : Char) (r : List Char) (h1 : c ≠ '+') (h2 : c ≠ '-') :
    parseFloat (c :: r) = parseFloatAbs false (c :: r) := by
  unfold parseFloat
  split
  · rename_i r' heq
    rw [List.cons.injEq] at heq
    exact absurd heq.1 h1
  · rename_i r' heq
    rw [List.cons.injEq] at heq
    exact absurd heq.1 h2
  · rfl

theorem parseFloat_neg (r : List Char) : parseFloat ('-' :: r) = parseFloatAbs true r := rfl

theorem parseFloat_formatFloat (f : GoFloat) (h : f.normalized = true) :
    parseFloat (formatFloat f) = some f := by
  obtain ⟨neg, m, e⟩ := f
  by_cases hm : m = 0
  · subst hm
    have he : e = 0 := by simpa [GoFloat.normalized] using h
    subst he
    cases neg <;> decide
  · have hm10 : m % 10 ≠ 0 := by simpa [GoFloat.normalized, hm] using h
    obtain ⟨c, r, hcr, hdig⟩ := formatFloatAbs_head_digit m e
    have hne1 : c ≠ '+' := by intro he; rw [he] at hdig; exact absurd hdig (by decide)
    have hne2 : c ≠ '-' := by intro he; rw [he] at hdig; exact absurd hdig (by decide)
    cases neg with
    | false =>
      have hff : formatFloat ⟨false, m, e⟩ = formatFloatAbs m e := by
        simp [formatFloat]
      rw [hff, hcr, parseFloat_not_sign c r hne1 hne2, ← hcr,
        parseFloatAbs_format false m e hm hm10]
    | true =>
      have hff : formatFloat ⟨true, m, e⟩ = '-' :: formatFloatAbs m e := by
        simp [formatFloat]
      rw [hff, parseFloat_neg, parseFloatAbs_format true m e hm hm10]
theorem readRef_quot (t : List Char) : readRef ('#' :: '3' :: '4' :: ';' :: t) = .ok ('"', t) := rfl

theorem readRef_apos (t : List Char) : readRef ('#' :: '3' :: '9' :: ';' :: t) = .ok ('\'', t) := rfl

theorem readRef_amp (t : List Char) : readRef ('a' :: 'm' :: 'p' :: ';' :: t) = .ok ('&', t) := rfl

theorem readRef_lt (t : List Char) : readRef ('l' :: 't' :: ';' :: t) = .ok ('<', t) := rfl

theorem readRef_gt (t : List Char) : readRef ('g' :: 't' :: ';' :: t) = .ok ('>', t) := rfl

theorem readRef_tab (t : List Char) : readRef ('#' :: 'x' :: '9' :: ';' :: t) = .ok ('\t', t) := rfl

theorem readRef_lf (t : List Char) : readRef ('#' :: 'x' :: 'A' :: ';' :: t) = .ok ('\n', t) := rfl

theorem readRef_cr (t : List Char) : readRef ('#' :: 'x' :: 'D' :: ';' :: t) = .ok ('\r', t) := rfl

theorem readText_amp_step (q : Option Char) (hq : q = none ∨ q = some '"')
    (f : Nat) (b0 b1 : Char) (acc l rest : List Char) (ch : Char)
    (href : readRef l = .ok (ch, rest)) :
    readText q (f + 1) b0 b1 acc ('&' :: l) = readText q f nul nul (ch :: acc) rest := by
  rcases hq with rfl | rfl <;> simp [readText, href]

theorem readText_plain_step (q : Option Char) (hq : q = none ∨ q = some '"')
    (f : Nat) (b0 b1 : Char) (acc : List Char) (c : Char) (r : List Char)
    (h1 : c ≠ '<') (h2 : c ≠ '>') (h3 : c ≠ '&') (h4 : c ≠ '\r') (h5 : c ≠ '\n')
    (h6 : c ≠ '"') :
    readText q (f + 1) b0 b1 acc (c :: r) = readText q f b1 c (c :: acc) r := by
  rcases hq with rfl | rfl <;>
    simp [readText, h1, h2, h3, h4, h5, h6, Ne.symm h6]

theorem escapeChar_length_pos (c : Char) : 0 < (escapeChar c).length := by
  unfold escapeChar
  repeat' split
  all_goals simp

theorem readText_escape_aux (q : Option Char) (hq : q = none ∨ q = some '"')
    (rest : List Char) :
    ∀ (s : List Char), (∀ c ∈ s, isInCharacterRange c = true) →
    ∀ fuel b0 b1 acc, (escapeText s).length < fuel →
    ∃ f' b0' b1', fuel ≤ f' + (escapeText s).length ∧ 0 < f' ∧
      readText q fuel b0 b1 acc (escapeText s ++ rest) =
        readText q f' b0' b1' (s.reverse ++ acc) rest := by
  intro s
  induction s with
  | nil =>
    intro _ fuel b0 b1 acc hfuel
    exact ⟨fuel, b0, b1, by simp, by simpa [escapeText] using hfuel, by simp [escapeText]⟩
  | cons c s' ih =>
    intro hs fuel b0 b1 acc hfuel
    have hc : isInCharacterRange c = true := hs c (List.mem_cons_self _ _)
    have hs' : ∀ x ∈ s', isInCharacterRange x = true := fun x hx => hs x (List.mem_cons_of_mem _ hx)
    have hesc : escapeText (c :: s') = escapeChar c ++ escapeText s' := by
      simp [escapeText]
    rw [hesc] at hfuel ⊢
    obtain ⟨f, rfl⟩ : ∃ f, fuel = f + 1 := by
      refine ⟨fuel - 1, ?_⟩
      have h1 := escapeChar_length_pos c
      simp only [List.length_append] at hfuel
      omega
    by_cases e1 : c = '"'
    · subst e1
      rw [show escapeChar '"' = ['&', '#', '3', '4', ';'] from rfl]
      rw [show (['&', '#', '3', '4', ';'] : List Char) ++ escapeText s' ++ rest =
        '&' :: ('#' :: '3' :: '4' :: ';' :: (escapeText s' ++ rest)) from by simp]
      rw [readText_amp_step q hq f b0 b1 acc _ _ _ (readRef_quot (escapeText s' ++ rest))]
      obtain ⟨f', b0', b1', hle, hpos, heq⟩ := ih hs' f nul nul ('"' :: acc)
        (by simp [escapeChar] at hfuel ⊢; omega)
      exact ⟨f', b0', b1', by simp [escapeChar] at hle ⊢; omega, hpos,
        by rw [heq]; simp⟩
    · by_cases e2 : c = '\''
      · subst e2
        rw [show escapeChar '\'' = ['&', '#', '3', '9', ';'] from rfl]
        rw [show (['&', '#', '3', '9', ';'] : List Char) ++ escapeText s' ++ rest =
          '&' :: ('#' :: '3' :: '9' :: ';' :: (escapeText s' ++ rest)) from by simp]
        rw [readText_amp_step q hq f b0 b1 acc _ _ _ (readRef_apos (escapeText s' ++ rest))]
        obtain ⟨f', b0', b1', hle, hpos, heq⟩ := ih hs' f nul nul ('\'' :: acc)
          (by simp [escapeChar] at hfuel ⊢; omega)
        exact ⟨f', b0', b1', by simp [escapeChar] at hle ⊢; omega, hpos, by rw [heq]; simp⟩
      · by_cases e3 : c = '&'
        · subst e3
          rw [show escapeChar '&' = ['&', 'a', 'm', 'p', ';'] from rfl]
          rw [show (['&', 'a', 'm', 'p', ';'] : List Char) ++ escapeText s' ++ rest =
            '&' :: ('a' :: 'm' :: 'p' :: ';' :: (escapeText s' ++ rest)) from by simp]
          rw [readText_amp_step q hq f b0 b1 acc _ _ _ (readRef_amp (escapeText s' ++ rest))]
          obtain ⟨f', b0', b1', hle, hpos, heq⟩ := ih hs' f nul nul ('&' :: acc)
            (by simp [escapeChar] at hfuel ⊢; omega)
          exact ⟨f', b0', b1', by simp [escapeChar] at hle ⊢; omega, hpos, by rw [heq]; simp⟩
        · by_cases e4 : c = '<'
          · subst e4
            rw [show escapeChar '<' = ['&', 'l', 't', ';'] from rfl]
            rw [show (['&', 'l', 't', ';'] : List Char) ++ escapeText s' ++ rest =
              '&' :: ('l' :: 't' :: ';' :: (escapeText s' ++ rest)) from by simp]
            rw [readText_amp_step q hq f b0 b1 acc _ _ _ (readRef_lt (escapeText s' ++ rest))]
            obtain ⟨f', b0', b1', hle, hpos, heq⟩ := ih hs' f nul nul ('<' :: acc)
              (by simp [escapeChar] at hfuel ⊢; omega)
            exact ⟨f', b0', b1', by simp [escapeChar] at hle ⊢; omega, hpos, by rw [heq]; simp⟩
          · by_cases e5 : c = '>'
            · subst e5
              rw [show escapeChar '>' = ['&', 'g', 't', ';'] from rfl]
              rw [show (['&', 'g', 't', ';'] : List Char) ++ escapeText s' ++ rest =
                '&' :: ('g' :: 't' :: ';' :: (escapeText s' ++ rest)) from by simp]
              rw [readText_amp_step q hq f b0 b1 acc _ _ _ (readRef_gt (escapeText s' ++ rest))]
              obtain ⟨f', b0', b1', hle, hpos, heq⟩ := ih hs' f nul nul ('>' :: acc)
                (by simp [escapeChar] at hfuel ⊢; omega)
              exact ⟨f', b0', b1', by simp [escapeChar] at hle ⊢; omega, hpos, by rw [heq]; simp⟩
            · by_cases e6 : c = '\t'
              · subst e6
                rw [show escapeChar '\t' = ['&', '#', 'x', '9', ';'] from rfl]
                rw [show (['&', '#', 'x', '9', ';'] : List Char) ++ escapeText s' ++ rest =
                  '&' :: ('#' :: 'x' :: '9' :: ';' :: (escapeText s' ++ rest)) from by simp]
                rw [readText_amp_step q hq f b0 b1 acc _ _ _ (readRef_tab (escapeText s' ++ rest))]
                obtain ⟨f', b0', b1', hle, hpos, heq⟩ := ih hs' f nul nul ('\t' :: acc)
                  (by simp [escapeChar] at hfuel ⊢; omega)
                exact ⟨f', b0', b1', by simp [escapeChar] at hle ⊢; omega, hpos, by rw [heq]; simp⟩
              · by_cases e7 : c = '\n'
                · subst e7
                  rw [show escapeChar '\n' = ['&', '#', 'x', 'A', ';'] from rfl]
                  rw [show (['&', '#', 'x', 'A', ';'] : List Char) ++ escapeText s' ++ rest =
                    '&' :: ('#' :: 'x' :: 'A' :: ';' :: (escapeText s' ++ rest)) from by simp]
                  rw [readText_amp_step q hq f b0 b1 acc _ _ _ (readRef_lf (escapeText s' ++ rest))]
                  obtain ⟨f', b0', b1', hle, hpos, heq⟩ := ih hs' f nul nul ('\n' :: acc)
                    (by simp [escapeChar] at hfuel ⊢; omega)
                  exact ⟨f', b0', b1', by simp [escapeChar] at hle ⊢; omega, hpos, by rw [heq]; simp⟩
                · by_cases e8 : c = '\r'
                  · subst e8
                    rw [show escapeChar '\r' = ['&', '#', 'x', 'D', ';'] from rfl]
                    rw [show (['&', '#', 'x', 'D', ';'] : List Char) ++ escapeText s' ++ rest =
                      '&' :: ('#' :: 'x' :: 'D' :: ';' :: (escapeText s' ++ rest)) from by simp]
                    rw [readText_amp_step q hq f b0 b1 acc _ _ _ (readRef_cr (escapeText s' ++ rest))]
                    obtain ⟨f', b0', b1', hle, hpos, heq⟩ := ih hs' f nul nul ('\r' :: acc)
                      (by simp [escapeChar] at hfuel ⊢; omega)
                    exact ⟨f', b0', b1', by simp [escapeChar] at hle ⊢; omega, hpos, by rw [heq]; simp⟩
                  · have hplain : escapeChar c = [c] := by
                      unfold escapeChar
                      rw [if_neg e1, if_neg e2, if_neg e3, if_neg e4, if_neg e5,
                          if_neg e6, if_neg e7, if_neg e8, if_pos hc]
                    rw [hplain]
                    rw [show ([c] : List Char) ++ escapeText s' ++ rest =
                      c :: (escapeText s' ++ rest) from by simp]
                    rw [readText_plain_step q hq f b0 b1 acc c _ e4 e5 e3 e8 e7 e1]
                    obtain ⟨f', b0', b1', hle, hpos, heq⟩ := ih hs' f b1 c (c :: acc)
                      (by rw [hplain] at hfuel; simp at hfuel ⊢; omega)
                    refine ⟨f', b0', b1', by simp at hle ⊢; omega, hpos, ?_⟩
                    rw [heq]
                    simp
theorem readText_escape_elem (s : List Char) (hs : ∀ c ∈ s, isInCharacterRange c = true)
    (fuel : Nat) (b0 b1 : Char) (acc rest : List Char)
    (hfuel : (escapeText s).length < fuel) :
    readText none fuel b0 b1 acc (escapeText s ++ '<' :: rest) =
      .ok (acc.reverse ++ s, '<' :: rest) := by
  obtain ⟨f', b0', b1', hle, hpos, heq⟩ :=
    readText_escape_aux none (Or.inl rfl) ('<' :: rest) s hs fuel b0 b1 acc hfuel
  rw [heq]
  obtain ⟨f, rfl⟩ : ∃ f, f' = f + 1 := ⟨f' - 1, by omega⟩
  simp [readText]

theorem readText_escape_quote (s : List Char) (hs : ∀ c ∈ s, isInCharacterRange c = true)
    (fuel : Nat) (b0 b1 : Char) (acc rest : List Char)
    (hfuel : (escapeText s).length < fuel) :
    readText (some '"') fuel b0 b1 acc (escapeText s ++ '"' :: rest) =
      .ok (acc.reverse ++ s, rest) := by
  obtain ⟨f', b0', b1', hle, hpos, heq⟩ :=
    readText_escape_aux (some '"') (Or.inr rfl) ('"' :: rest) s hs fuel b0 b1 acc hfuel
  rw [heq]
  obtain ⟨f, rfl⟩ : ∃ f, f' = f + 1 := ⟨f' - 1, by omega⟩
  simp [readText]

theorem readText_lf_step (q : Option Char) (hq : q = none ∨ q = some '"')
    (f : Nat) (b0 b1 : Char) (acc r : List Char) (hb : b1 ≠ '\r') :
    readText q (f + 1) b0 b1 acc ('\n' :: r) = readText q f b1 '\n' ('\n' :: acc) r := by
  rcases hq with rfl | rfl <;> simp [readText, hb]

theorem readText_indent (s : List Char) (hs : ∀ c ∈ s, c = '\n' ∨ c = ' ') :
    ∀ fuel (b0 b1 : Char) (acc rest : List Char), s.length < fuel → b1 ≠ '\r' →
    readText none fuel b0 b1 acc (s ++ '<' :: rest) = .ok (acc.reverse ++ s, '<' :: rest) := by
  induction s with
  | nil =>
    intro fuel b0 b1 acc rest hfuel hb
    obtain ⟨f, rfl⟩ : ∃ f, fuel = f + 1 := ⟨fuel - 1, by omega⟩
    simp [readText]
  | cons c s' ih =>
    intro fuel b0 b1 acc rest hfuel hb
    obtain ⟨f, rfl⟩ : ∃ f, fuel = f + 1 := ⟨fuel - 1, by omega⟩
    have hc := hs c (List.mem_cons_self _ _)
    have hs' : ∀ x ∈ s', x = '\n' ∨ x = ' ' := fun x hx => hs x (List.mem_cons_of_mem _ hx)
    rcases hc with rfl | rfl
    · rw [List.cons_append, readText_lf_step none (Or.inl rfl) f b0 b1 acc _ hb]
      rw [ih hs' f b1 '\n' ('\n' :: acc) rest (by simp at hfuel; omega) (by decide)]
      simp
    · rw [List.cons_append,
        readText_plain_step none (Or.inl rfl) f b0 b1 acc ' ' _
          (by decide) (by decide) (by decide) (by decide) (by decide) (by decide)]
      rw [ih hs' f b1 ' ' (' ' :: acc) rest (by simp at hfuel; omega) (by decide)]
      simp

theorem nameStart_not_special (c : Char) (h : isNameStartCh c = true) :
    c ≠ ' ' ∧ c ≠ '\t' ∧ c ≠ '\r' ∧ c ≠ '\n' ∧ c ≠ '/' ∧ c ≠ '?' ∧ c ≠ '!' ∧
      c ≠ '>' ∧ c ≠ '=' ∧ c ≠ '<' := by
  refine ⟨?_, ?_, ?_, ?_, ?_, ?_, ?_, ?_, ?_, ?_⟩ <;> (rintro rfl; exact absurd h (by decide))

theorem nameStart_not_ws (c : Char) (h : isNameStartCh c = true) :
    (c = ' ' || c = '\t' || c = '\r' || c = '\n') = false := by
  obtain ⟨h1, h2, h3, h4, _⟩ := nameStart_not_special c h
  simp [h1, h2, h3, h4]

theorem skipWS_cons (c : Char) (l : List Char)
    (h : (c = ' ' || c = '\t' || c = '\r' || c = '\n') = false) : skipWS (c :: l) = c :: l := by
  simp only [skipWS, List.dropWhile_cons, h]
  simp

theorem readName_name (nm : List Char) (h : nameGood nm = true) (stopc : Char)
    (hstop : isNameCh stopc = false) (rest : List Char) :
    readName (nm ++ stopc :: rest) = some (nm, stopc :: rest) := by
  match nm, h with
  | c :: nr, h =>
    simp only [nameGood, Bool.and_eq_true, List.all_eq_true] at h
    obtain ⟨hstart, hall⟩ := h
    have hspan := takeWhile_append_of_all (p := isNameCh) (c :: nr) (stopc :: rest)
      hall (by intro b hb; simp at hb; subst hb; exact hstop)
    rw [List.cons_append, readName]
    rw [← List.cons_append, hspan.1, hspan.2, if_pos hstart]

theorem readAttrs_gt (f : Nat) (acc : List (XmlName × List Char)) (rest : List Char) :
    readAttrs (f + 1) acc ('>' :: rest) = .ok (acc.reverse, false, rest) := rfl

theorem next_text (c : Char) (r : List Char) (stk : List XmlName) (hc : c ≠ '<') :
    next ⟨c :: r, stk, false⟩ =
      match readText none ((c :: r).length + 1) nul nul [] (c :: r) with
      | .error e => .error e
      | .ok (s, rest) => .ok (some (.text s, ⟨rest, stk, false⟩)) := by
  unfold next
  rw [if_neg Bool.false_ne_true]
  split
  · rename_i heq; cases heq
  · rename_i r' heq
    rw [List.cons.injEq] at heq
    exact absurd heq.1 hc
  · rfl

theorem next_etag (nm : List Char) (h : nameGood nm = true) (rest : List Char)
    (stk : List XmlName) :
    next ⟨'<' :: '/' :: (nm ++ '>' :: rest), nsnameSplit nm :: stk, false⟩ =
      .ok (some (.etag (nsnameSplit nm), ⟨rest, stk, false⟩)) := by
  have h1 := readName_name nm h '>' (by decide) rest
  have h2 : skipWS ('>' :: rest) = '>' :: rest := skipWS_cons '>' rest (by decide)
  simp [next, h1, h2]

theorem next_start_plain (nm : List Char) (h : nameGood nm = true) (rest : List Char)
    (stk : List XmlName) :
    next ⟨'<' :: (nm ++ '>' :: rest), stk, false⟩ =
      .ok (some (.start (nsnameSplit nm) [], ⟨rest, nsnameSplit nm :: stk, false⟩)) := by
  match nm, h with
  | c₀ :: nr, h =>
    have hstart : isNameStartCh c₀ = true := by
      simp only [nameGood, Bool.and_eq_true] at h
      exact h.1
    obtain ⟨_, _, _, _, h5, h6, h7, _, _, _⟩ := nameStart_not_special c₀ hstart
    have h1 := readName_name (c₀ :: nr) h '>' (by decide) rest
    unfold next
    rw [if_neg Bool.false_ne_true]
    simp only [List.cons_append]
    split
    · rename_i heq
      rw [List.cons.injEq] at heq
      exact absurd heq.1 h5
    · rename_i heq
      rw [List.cons.injEq] at heq
      exact absurd heq.1 h6
    · rename_i heq
      rw [List.cons.injEq] at heq
      exact absurd heq.1 h7
    · rw [← List.cons_append, h1]
      simp [readAttrs_gt]
theorem next_header (rest : List Char) (stk : List XmlName) :
    next ⟨str "<?xml version=\"1.0\" encoding=\"UTF-8\"?>\n" ++ rest, stk, false⟩ =
      .ok (some (.misc, ⟨'\n' :: rest, stk, false⟩)) := rfl

theorem skipWS_space (l : List Char) : skipWS (' ' :: l) = skipWS l := by
  simp [skipWS, List.dropWhile_cons]

theorem renderAttr_length_pos (a : List Char × List Char) : 0 < (renderAttr a).length := by
  simp [renderAttr]

theorem attrs_length_le (attrs : List (List Char × List Char)) :
    attrs.length ≤ (renderAttrs attrs).length := by
  induction attrs with
  | nil => simp [renderAttrs]
  | cons a as ih =>
    have h := renderAttr_length_pos a
    simp only [renderAttrs, List.flatMap_cons, List.length_append, List.length_cons] at ih ⊢
    omega

theorem readAttrs_render (attrs : List (List Char × List Char)) :
    attrs.all attrGood = true →
    ∀ (f : Nat) (acc : List (XmlName × List Char)) (rest : List Char), attrs.length < f →
    readAttrs f acc (renderAttrs attrs ++ '>' :: rest) =
      .ok (acc.reverse ++ attrs.map (fun a => (nsnameSplit a.1, a.2)), false, rest) := by
  induction attrs with
  | nil =>
    intro _ f acc rest hf
    obtain ⟨f', rfl⟩ : ∃ f', f = f' + 1 := ⟨f - 1, by omega⟩
    simp [renderAttrs, readAttrs_gt]
  | cons a as ih =>
    intro hgood f acc rest hf
    obtain ⟨anm, av⟩ := a
    simp only [List.all_cons, Bool.and_eq_true] at hgood
    obtain ⟨hga, hgas⟩ := hgood
    simp only [attrGood, Bool.and_eq_true, List.all_eq_true] at hga
    obtain ⟨hnm, hval⟩ := hga
    obtain ⟨f', rfl⟩ : ∃ f', f = f' + 1 := ⟨f - 1, by omega⟩
    cases anm with
    | nil => simp [nameGood] at hnm
    | cons c anr =>
      have hc0 : isNameStartCh c = true := by
        simp only [nameGood, Bool.and_eq_true] at hnm
        exact hnm.1
      obtain ⟨hcs, _, _, _, hcsl, _, _, hcgt, hceq, _⟩ := nameStart_not_special c hc0
      have hshape : renderAttrs ((c :: anr, av) :: as) ++ '>' :: rest =
          ' ' :: ((c :: anr) ++ '=' :: '"' ::
            (escapeText av ++ '"' :: (renderAttrs as ++ '>' :: rest))) := by
        simp [renderAttrs, renderAttr]
      rw [hshape]
      rw [readAttrs]
      rw [skipWS_space, List.cons_append,
        skipWS_cons c _ (nameStart_not_ws c hc0)]
      have hrn := readName_name (c :: anr) hnm '=' (by decide)
        ('"' :: (escapeText av ++ '"' :: (renderAttrs as ++ '>' :: rest)))
      have hsw1 : skipWS ('=' :: '"' :: (escapeText av ++ '"' :: (renderAttrs as ++ '>' :: rest))) =
          '=' :: '"' :: (escapeText av ++ '"' :: (renderAttrs as ++ '>' :: rest)) :=
        skipWS_cons _ _ (by decide)
      have hsw2 : skipWS ('"' :: (escapeText av ++ '"' :: (renderAttrs as ++ '>' :: rest))) =
          '"' :: (escapeText av ++ '"' :: (renderAttrs as ++ '>' :: rest)) :=
        skipWS_cons _ _ (by decide)
      have hrt : readText (some '"')
          ((escapeText av ++ '"' :: (renderAttrs as ++ '>' :: rest)).length + 1) nul nul []
          (escapeText av ++ '"' :: (renderAttrs as ++ '>' :: rest)) =
          .ok (av, renderAttrs as ++ '>' :: rest) := by
        have := readText_escape_quote av hval
          ((escapeText av ++ '"' :: (renderAttrs as ++ '>' :: rest)).length + 1) nul nul []
          (renderAttrs as ++ '>' :: rest) (by simp; omega)
        simpa using this
      split
      · rename_i heq; cases heq
      · rename_i r heq
        rw [List.cons.injEq] at heq
        exact absurd heq.1 hcgt
      · rename_i r heq
        rw [List.cons.injEq] at heq
        exact absurd heq.1 hcsl
      · rw [← List.cons_append, hrn]
        simp only [hsw1]
        split
        · rename_i x l4 heq
          rw [hsw2, List.cons.injEq] at heq
          obtain ⟨hx1, hl4⟩ := heq
          subst hx1
          subst hl4
          rw [if_pos (Or.inl rfl), hrt]
          simp only []
          rw [ih hgas f' ((nsnameSplit (c :: anr), av) :: acc) rest
            (by simp at hf ⊢; omega)]
          simp
        · rename_i heq
          rw [hsw2] at heq
          cases heq
theorem next_start_attrs (nm : List Char) (h : nameGood nm = true)
    (attrs : List (List Char × List Char)) (hattrs : attrs.all attrGood = true)
    (rest : List Char) (stk : List XmlName) :
    next ⟨'<' :: (nm ++ renderAttrs attrs ++ '>' :: rest), stk, false⟩ =
      .ok (some (.start (nsnameSplit nm) (attrs.map fun a => (nsnameSplit a.1, a.2)),
        ⟨rest, nsnameSplit nm :: stk, false⟩)) := by
  cases attrs with
  | nil =>
    have h0 := next_start_plain nm h rest stk
    simpa [renderAttrs] using h0
  | cons a as =>
    obtain ⟨anm, av⟩ := a
    match nm, h with
    | c₀ :: nr, h =>
      have hstart : isNameStartCh c₀ = true := by
        simp only [nameGood, Bool.and_eq_true] at h
        exact h.1
      obtain ⟨_, _, _, _, h5, h6, h7, _, _, _⟩ := nameStart_not_special c₀ hstart
      have hra : renderAttrs ((anm, av) :: as) ++ '>' :: rest =
          ' ' :: (anm ++ '=' :: '"' ::
            (escapeText av ++ '"' :: (renderAttrs as ++ '>' :: rest))) := by
        simp [renderAttrs, renderAttr]
      have hrem : (c₀ :: nr) ++ renderAttrs ((anm, av) :: as) ++ '>' :: rest =
          (c₀ :: nr) ++ ' ' :: (anm ++ '=' :: '"' ::
            (escapeText av ++ '"' :: (renderAttrs as ++ '>' :: rest))) := by
        rw [List.append_assoc, hra]
      rw [hrem]
      have h1 := readName_name (c₀ :: nr) h ' ' (by decide)
        (anm ++ '=' :: '"' :: (escapeText av ++ '"' :: (renderAttrs as ++ '>' :: rest)))
      unfold next
      rw [if_neg Bool.false_ne_true]
      simp only [List.cons_append]
      split
      · rename_i heq
        rw [List.cons.injEq] at heq
        exact absurd heq.1 h5
      · rename_i heq
        rw [List.cons.injEq] at heq
        exact absurd heq.1 h6
      · rename_i heq
        rw [List.cons.injEq] at heq
        exact absurd heq.1 h7
      · rw [← List.cons_append, h1]
        simp only []
        rw [← hra]
        have hlen : ((renderAttrs ((anm, av) :: as) ++ '>' :: rest).length + 1) >
            ((anm, av) :: as).length := by
          have hat := attrs_length_le ((anm, av) :: as)
          simp only [List.length_append, List.length_cons] at hat ⊢
          omega
        rw [readAttrs_render ((anm, av) :: as) (by simpa using hattrs) _ [] rest hlen]
        simp

theorem fragsGood_parts (x : XFrag) (xs : XFrags) (h : fragsGood (.cons x xs) = true) :
    fragGood x = true ∧ fragsGood xs = true := by
  cases xs with
  | nil =>
    exact ⟨h, rfl⟩
  | cons y ys =>
    unfold fragsGood at h
    simp only [Bool.and_eq_true] at h
    exact ⟨h.1.1, h.2⟩

theorem frags_after_textish (x : XFrag) (xs : XFrags) (h : fragsGood (.cons x xs) = true)
    (hx : isElemF x = false) (TAIL : List Char) :
    ∃ W, renderFrags xs ++ '<' :: TAIL = '<' :: W := by
  cases xs with
  | nil => exact ⟨TAIL, by simp [renderFrags]⟩
  | cons y ys =>
    have hy : isElemF y = true := by
      unfold fragsGood at h
      simp only [Bool.and_eq_true] at h
      have hor := h.1.2
      rw [hx] at hor
      simpa using hor
    cases y with
    | ftext s => exact absurd hy (by simp [isElemF])
    | fraw s => exact absurd hy (by simp [isElemF])
    | elem nm' attrs' kids' =>
      refine ⟨(nm' ++ renderAttrs attrs' ++ '>' ::
        (renderFrags kids' ++ '<' :: '/' :: (nm' ++ ['>']))) ++
        (renderFrags ys ++ '<' :: TAIL), ?_⟩
      simp [renderFrags, renderFrag]

theorem escapeText_eq_nil {s : List Char} (h : escapeText s = []) : s = [] := by
  cases s with
  | nil => rfl
  | cons c s' =>
    exfalso
    have hpos := escapeChar_length_pos c
    simp only [escapeText, List.flatMap_cons, List.append_eq_nil] at h
    rw [h.1] at hpos
    simp at hpos
theorem renderFrags_nil : renderFrags .nil = ([] : List Char) := rfl

theorem renderFrags_cons (x : XFrag) (xs : XFrags) :
    renderFrags (.cons x xs) = renderFrag x ++ renderFrags xs := rfl

theorem renderFrag_ftext (s : List Char) : renderFrag (.ftext s) = escapeText s := rfl

theorem renderFrag_fraw (s : List Char) : renderFrag (.fraw s) = s := rfl

theorem renderFrag_elem (nm : List Char) (attrs : List (List Char × List Char)) (kids : XFrags) :
    renderFrag (.elem nm attrs kids) =
      '<' :: (nm ++ renderAttrs attrs ++ '>' ::
        (renderFrags kids ++ '<' :: '/' :: (nm ++ ['>']))) := rfl

theorem nul_ne_cr : nul ≠ '\r' := by decide

theorem skipElem_render : ∀ (fuel n : Nat) (kids : XFrags), sizeOf kids ≤ n →
    fragsGood kids = true → ∀ (nm : List Char), nameGood nm = true →
    ∀ (stk : List XmlName) (rest : List Char),
    (renderFrags kids ++ '<' :: '/' :: (nm ++ '>' :: rest)).length < fuel →
    skipElem fuel ⟨renderFrags kids ++ '<' :: '/' :: (nm ++ '>' :: rest),
      nsnameSplit nm :: stk, false⟩ = .ok ⟨rest, stk, false⟩ := by
  intro fuel
  induction fuel using Nat.strong_induction_on with
  | _ fuel IHf =>
  intro n
  induction n using Nat.strong_induction_on with
  | _ n IHn =>
  intro kids hsize hkids nm hnm stk rest hfuel
  obtain ⟨f, rfl⟩ : ∃ f, fuel = f + 1 := ⟨fuel - 1, by omega⟩
  cases kids with
  | nil =>
    rw [skipElem, renderFrags_nil, List.nil_append, next_etag nm hnm rest stk]
  | cons x xs =>
    obtain ⟨hx, hxs⟩ := fragsGood_parts x xs hkids
    cases x with
    | ftext s =>
      have hsafe : ∀ c ∈ s, isInCharacterRange c = true := by
        simpa [fragGood, List.all_eq_true] using hx
      cases hE : escapeText s with
      | nil =>
        rw [renderFrags_cons, renderFrag_ftext, hE, List.nil_append] at hfuel ⊢
        have hlt : sizeOf xs < n := by
          simp at hsize
          omega
        exact IHn (sizeOf xs) hlt xs le_rfl hxs nm hnm stk rest hfuel
      | cons c es =>
        obtain ⟨W, hW⟩ := frags_after_textish (.ftext s) xs hkids (by simp [isElemF])
          ('/' :: (nm ++ '>' :: rest))
        have hrem : renderFrags (.cons (.ftext s) xs) ++ '<' :: '/' :: (nm ++ '>' :: rest)
            = escapeText s ++ ('<' :: W) := by
          rw [renderFrags_cons, renderFrag_ftext, List.append_assoc, hW]
        have hc_ne : c ≠ '<' := by
          have hm : '<' ∉ escapeText s := not_lt_mem_escapeText s
          rw [hE] at hm
          intro he
          rw [he] at hm
          exact hm (List.mem_cons_self _ _)
        rw [skipElem, hrem, hE, List.cons_append,
          next_text c (es ++ '<' :: W) _ hc_ne,
          show c :: (es ++ '<' :: W) = escapeText s ++ '<' :: W from by rw [hE]; simp,
          readText_escape_elem s hsafe _ nul nul [] W
            (by simp [List.length_append]; omega)]
        simp only [List.reverse_nil, List.nil_append]
        rw [show ('<' :: W) = renderFrags xs ++ '<' :: '/' :: (nm ++ '>' :: rest) from hW.symm]
        have hlen : (renderFrags xs ++ '<' :: '/' :: (nm ++ '>' :: rest)).length < f := by
          rw [hrem, hE] at hfuel
          have := congrArg List.length hW
          simp only [List.length_append, List.length_cons] at hfuel this ⊢
          omega
        exact IHf f (by omega) (sizeOf xs) xs le_rfl hxs nm hnm stk rest hlen
    | fraw s =>
      have hxg : (!s.isEmpty) = true ∧ ∀ c ∈ s, c = '\n' ∨ c = ' ' := by
        simpa [fragGood, List.all_eq_true] using hx
      obtain ⟨hne, hch⟩ := hxg
      cases s with
      | nil => simp at hne
      | cons c sr =>
        obtain ⟨W, hW⟩ := frags_after_textish (.fraw (c :: sr)) xs hkids (by simp [isElemF])
          ('/' :: (nm ++ '>' :: rest))
        have hrem : renderFrags (.cons (.fraw (c :: sr)) xs) ++ '<' :: '/' :: (nm ++ '>' :: rest)
            = (c :: sr) ++ ('<' :: W) := by
          rw [renderFrags_cons, renderFrag_fraw, List.append_assoc, hW]
        have hc_ne : c ≠ '<' := by
          rcases hch c (List.mem_cons_self _ _) with rfl | rfl <;> decide
        rw [skipElem, hrem, List.cons_append,
          next_text c (sr ++ '<' :: W) _ hc_ne,
          show c :: (sr ++ '<' :: W) = (c :: sr) ++ '<' :: W from by simp,
          readText_indent (c :: sr) hch _ nul nul [] W
            (by simp [List.length_append]; omega) nul_ne_cr]
        simp only [List.reverse_nil, List.nil_append]
        rw [show ('<' :: W) = renderFrags xs ++ '<' :: '/' :: (nm ++ '>' :: rest) from hW.symm]
        have hlen : (renderFrags xs ++ '<' :: '/' :: (nm ++ '>' :: rest)).length < f := by
          rw [hrem] at hfuel
          have := congrArg List.length hW
          simp only [List.length_append, List.length_cons] at hfuel this ⊢
          omega
        exact IHf f (by omega) (sizeOf xs) xs le_rfl hxs nm hnm stk rest hlen
    | elem nm2 attrs2 kids2 =>
      have hxg : nameGood nm2 = true ∧ attrs2.all attrGood = true ∧ fragsGood kids2 = true := by
        have hx' := hx
        unfold fragGood at hx'
        simp only [Bool.and_eq_true] at hx'
        exact ⟨hx'.1.1, hx'.1.2, hx'.2⟩
      obtain ⟨hnm2, hattrs2, hkids2⟩ := hxg
      have hrem : renderFrags (.cons (.elem nm2 attrs2 kids2) xs) ++
          '<' :: '/' :: (nm ++ '>' :: rest) =
          '<' :: (nm2 ++ renderAttrs attrs2 ++ '>' ::
            (renderFrags kids2 ++ '<' :: '/' :: (nm2 ++ '>' ::
              (renderFrags xs ++ '<' :: '/' :: (nm ++ '>' :: rest))))) := by
        rw [renderFrags_cons, renderFrag_elem]
        simp [List.append_assoc]
      rw [skipElem, hrem,
        next_start_attrs nm2 hnm2 attrs2 hattrs2 _ (nsnameSplit nm :: stk)]
      simp only []
      rw [hrem] at hfuel
      have hlen1 : (renderFrags kids2 ++ '<' :: '/' :: (nm2 ++ '>' ::
          (renderFrags xs ++ '<' :: '/' :: (nm ++ '>' :: rest)))).length < f := by
        simp only [List.length_append, List.length_cons] at hfuel ⊢
        omega
      rw [IHf f (by omega) (sizeOf kids2) kids2 le_rfl hkids2 nm2 hnm2
        (nsnameSplit nm :: stk) (renderFrags xs ++ '<' :: '/' :: (nm ++ '>' :: rest)) hlen1]
      simp only []
      have hlen2 : (renderFrags xs ++ '<' :: '/' :: (nm ++ '>' :: rest)).length < f := by
        simp only [List.length_append, List.length_cons] at hfuel ⊢
        omega
      exact IHf f (by omega) (sizeOf xs) xs le_rfl hxs nm hnm stk rest hlen2
theorem readData_leaf (s : List Char) (hsafe : ∀ c ∈ s, isInCharacterRange c = true)
    (nm : List Char) (hnm : nameGood nm = true) (stk : List XmlName) (rest : List Char)
    (fuel : Nat)
    (hfuel : (escapeText s ++ '<' :: '/' :: (nm ++ '>' :: rest)).length < fuel)
    (acc : List Char) :
    readData fuel acc ⟨escapeText s ++ '<' :: '/' :: (nm ++ '>' :: rest),
      nsnameSplit nm :: stk, false⟩ = .ok (acc ++ s, ⟨rest, stk, false⟩) := by
  obtain ⟨f, rfl⟩ : ∃ f, fuel = f + 1 := ⟨fuel - 1, by omega⟩
  cases hE : escapeText s with
  | nil =>
    have hs0 : s = [] := escapeText_eq_nil hE
    subst hs0
    simp only [List.nil_append, List.append_nil]
    rw [readData, next_etag nm hnm rest stk]
  | cons c es =>
    have hc_ne : c ≠ '<' := by
      have hm : '<' ∉ escapeText s := not_lt_mem_escapeText s
      rw [hE] at hm
      intro he
      rw [he] at hm
      exact hm (List.mem_cons_self _ _)
    rw [readData, List.cons_append,
      next_text c (es ++ '<' :: '/' :: (nm ++ '>' :: rest)) _ hc_ne,
      show c :: (es ++ '<' :: '/' :: (nm ++ '>' :: rest)) =
        escapeText s ++ '<' :: '/' :: (nm ++ '>' :: rest) from by rw [hE]; simp,
      readText_escape_elem s hsafe _ nul nul [] ('/' :: (nm ++ '>' :: rest))
        (by simp [List.length_append]; omega)]
    simp only [List.reverse_nil, List.nil_append]
    obtain ⟨f2, rfl⟩ : ∃ f2, f = f2 + 1 := by
      refine ⟨f - 1, ?_⟩
      rw [hE] at hfuel
      simp only [List.length_append, List.length_cons] at hfuel
      omega
    rw [readData, next_etag nm hnm rest stk]

theorem renderFrag_leaf (nm s : List Char) :
    renderFrag (leafElem nm s) =
      '<' :: (nm ++ '>' :: (escapeText s ++ '<' :: '/' :: (nm ++ ['>']))) := by
  rw [leafElem, renderFrag_elem]
  simp [renderAttrs, frags, renderFrags_cons, renderFrag_ftext, renderFrags_nil]

theorem fragGood_leaf (nm s : List Char) (hnm : nameGood nm = true)
    (hs : ∀ c ∈ s, isInCharacterRange c = true) : fragGood (leafElem nm s) = true := by
  rw [leafElem]
  unfold fragGood
  simp only [Bool.and_eq_true]
  refine ⟨⟨hnm, by simp [attrGood]⟩, ?_⟩
  show fragsGood (.cons (.ftext s) .nil) = true
  have : fragGood (.ftext s) = true := by
    unfold fragGood
    simpa [List.all_eq_true] using hs
  exact this

theorem fragGood_fraw_nl (k : Nat) : fragGood (.fraw (nl k)) = true := by
  unfold fragGood
  simp only [nl, Bool.and_eq_true, List.all_eq_true]
  refine ⟨by simp, ?_⟩
  intro c hc
  rcases List.mem_cons.mp hc with rfl | hc2
  · decide
  · have := List.eq_of_mem_replicate hc2
    subst this
    decide

theorem fragsGood_cons_build (x : XFrag) (xs : XFrags) (hx : fragGood x = true)
    (hadj : isElemF x = true ∨
      (match xs with | .nil => True | .cons y _ => isElemF y = true))
    (hxs : fragsGood xs = true) : fragsGood (.cons x xs) = true := by
  cases xs with
  | nil => exact hx
  | cons y ys =>
    unfold fragsGood
    simp only [Bool.and_eq_true]
    refine ⟨⟨hx, ?_⟩, hxs⟩
    rcases hadj with h | h
    · simp [h]
    · simp only at h
      simp [h]

theorem frags_append (A B : List XFrag) : frags (A ++ B) = fragsApp A (frags B) := by
  induction A with
  | nil => simp [fragsApp]
  | cons x xs ih => simp [frags, fragsApp, ih]

theorem pairList_append (A B : List XFrag) (hA : pairList A = true) (hB : pairList B = true) :
    pairList (A ++ B) = true := by
  induction A using pairList.induct with
  | case1 => simpa using hB
  | case2 s x rest ih =>
    simp only [pairList, Bool.and_eq_true] at hA
    simp only [List.cons_append, pairList, Bool.and_eq_true]
    exact ⟨⟨⟨hA.1.1.1, hA.1.1.2⟩, hA.1.2⟩, ih hA.2⟩
  | case3 l h1 h2 =>
    rw [pairList] at hA
    · cases hA
    · exact h1
    · exact h2

theorem fragsGood_pairs_tail : ∀ (L : List XFrag), pairList L = true →
    ∀ (T : XFrags), fragsGood T = true → fragsGood (fragsApp L T) = true := by
  intro L
  induction L using pairList.induct with
  | case1 => intro _ T hT; simpa [fragsApp] using hT
  | case2 s x rest ih =>
    intro hL T hT
    simp only [pairList, Bool.and_eq_true] at hL
    obtain ⟨⟨⟨hs, hx⟩, hex⟩, hrest⟩ := hL
    simp only [fragsApp]
    apply fragsGood_cons_build _ _ hs (Or.inr (by simp [hex]))
    exact fragsGood_cons_build _ _ hx (Or.inl hex) (ih hrest T hT)
  | case3 l h1 h2 =>
    intro hL
    rw [pairList] at hL
    · cases hL
    · exact h1
    · exact h2
theorem parseURLLoop_text (f : Nat) (u : URL) (c : Char) (sr W : List Char)
    (stk : List XmlName) (hch : ∀ x ∈ c :: sr, x = '\n' ∨ x = ' ') :
    parseURLLoop (f + 1) u ⟨(c :: sr) ++ '<' :: W, stk, false⟩ =
      parseURLLoop f u ⟨'<' :: W, stk, false⟩ := by
  have hc_ne : c ≠ '<' := by
    rcases hch c (List.mem_cons_self _ _) with rfl | rfl <;> decide
  rw [parseURLLoop, List.cons_append, next_text c (sr ++ '<' :: W) _ hc_ne,
    show c :: (sr ++ '<' :: W) = (c :: sr) ++ '<' :: W from by simp,
    readText_indent (c :: sr) hch _ nul nul [] W
      (by simp [List.length_append]; omega) nul_ne_cr]

theorem parseURLLoop_etag (f : Nat) (u : URL) (nm rest : List Char) (hnm : nameGood nm = true)
    (stk : List XmlName) :
    parseURLLoop (f + 1) u ⟨'<' :: '/' :: (nm ++ '>' :: rest), nsnameSplit nm :: stk, false⟩ =
      .ok (u, ⟨rest, stk, false⟩) := by
  rw [parseURLLoop, next_etag nm hnm rest stk]

theorem parseURLLoop_loc (f : Nat) (u : URL) (s REST : List Char) (stk : List XmlName)
    (hsafe : ∀ c ∈ s, isInCharacterRange c = true)
    (hf : (escapeText s ++ '<' :: '/' :: (str "loc" ++ '>' :: REST)).length < f) :
    parseURLLoop (f + 1) u ⟨'<' :: (str "loc" ++ '>' ::
        (escapeText s ++ '<' :: '/' :: (str "loc" ++ '>' :: REST))), stk, false⟩ =
      parseURLLoop f { u with Loc := ⟨s⟩ } ⟨REST, stk, false⟩ := by
  rw [parseURLLoop, next_start_plain (str "loc") (by decide) _ stk]
  simp only []
  rw [if_pos (show (nsnameSplit (str "loc")).Local = "loc" from by decide), readData_leaf s hsafe (str "loc") (by decide) stk REST f hf []]
  simp only [List.nil_append]

theorem parseURLLoop_lastmod (f : Nat) (u : URL) (s REST : List Char) (stk : List XmlName)
    (hsafe : ∀ c ∈ s, isInCharacterRange c = true) (tm : GoTime)
    (hparse : parseRFC3339 s = some tm)
    (hf : (escapeText s ++ '<' :: '/' :: (str "lastmod" ++ '>' :: REST)).length < f) :
    parseURLLoop (f + 1) u ⟨'<' :: (str "lastmod" ++ '>' ::
        (escapeText s ++ '<' :: '/' :: (str "lastmod" ++ '>' :: REST))), stk, false⟩ =
      parseURLLoop f { u with LastMod := some tm } ⟨REST, stk, false⟩ := by
  rw [parseURLLoop, next_start_plain (str "lastmod") (by decide) _ stk]
  simp only []
  rw [if_neg (show ¬(nsnameSplit (str "lastmod")).Local = "loc" from by decide), if_pos (show (nsnameSplit (str "lastmod")).Local = "lastmod" from by decide),
    readData_leaf s hsafe (str "lastmod") (by decide) stk REST f hf []]
  simp only [List.nil_append]
  rw [hparse]

theorem parseURLLoop_changefreq (f : Nat) (u : URL) (s REST : List Char) (stk : List XmlName)
    (hsafe : ∀ c ∈ s, isInCharacterRange c = true)
    (hf : (escapeText s ++ '<' :: '/' :: (str "changefreq" ++ '>' :: REST)).length < f) :
    parseURLLoop (f + 1) u ⟨'<' :: (str "changefreq" ++ '>' ::
        (escapeText s ++ '<' :: '/' :: (str "changefreq" ++ '>' :: REST))), stk, false⟩ =
      parseURLLoop f { u with ChangeFreq := ⟨s⟩ } ⟨REST, stk, false⟩ := by
  rw [parseURLLoop, next_start_plain (str "changefreq") (by decide) _ stk]
  simp only []
  rw [if_neg (show ¬(nsnameSplit (str "changefreq")).Local = "loc" from by decide), if_neg (show ¬(nsnameSplit (str "changefreq")).Local = "lastmod" from by decide), if_pos (show (nsnameSplit (str "changefreq")).Local = "changefreq" from by decide),
    readData_leaf s hsafe (str "changefreq") (by decide) stk REST f hf []]
  simp only [List.nil_append]

theorem parseURLLoop_priority (f : Nat) (u : URL) (s REST : List Char) (stk : List XmlName)
    (hsafe : ∀ c ∈ s, isInCharacterRange c = true) (p : GoFloat)
    (hparse : parseFloat (trimSpace s) = some p)
    (hf : (escapeText s ++ '<' :: '/' :: (str "priority" ++ '>' :: REST)).length < f) :
    parseURLLoop (f + 1) u ⟨'<' :: (str "priority" ++ '>' ::
        (escapeText s ++ '<' :: '/' :: (str "priority" ++ '>' :: REST))), stk, false⟩ =
      parseURLLoop f { u with Priority := some p } ⟨REST, stk, false⟩ := by
  rw [parseURLLoop, next_start_plain (str "priority") (by decide) _ stk]
  simp only []
  rw [if_neg (show ¬(nsnameSplit (str "priority")).Local = "loc" from by decide), if_neg (show ¬(nsnameSplit (str "priority")).Local = "lastmod" from by decide), if_neg (show ¬(nsnameSplit (str "priority")).Local = "changefreq" from by decide), if_pos (show (nsnameSplit (str "priority")).Local = "priority" from by decide),
    readData_leaf s hsafe (str "priority") (by decide) stk REST f hf []]
  simp only [List.nil_append]
  rw [hparse]

theorem parseURLLoop_skip (f : Nat) (u : URL) (nm2 : List Char) (hnm2 : nameGood nm2 = true)
    (attrs2 : List (List Char × List Char)) (hattrs2 : attrs2.all attrGood = true)
    (kids2 : XFrags) (hkids2 : fragsGood kids2 = true)
    (h1 : ¬(nsnameSplit nm2).Local = "loc") (h2 : ¬(nsnameSplit nm2).Local = "lastmod")
    (h3 : ¬(nsnameSplit nm2).Local = "changefreq")
    (h4 : ¬(nsnameSplit nm2).Local = "priority")
    (REST : List Char) (stk : List XmlName)
    (hf : (renderFrags kids2 ++ '<' :: '/' :: (nm2 ++ '>' :: REST)).length < f) :
    parseURLLoop (f + 1) u ⟨'<' :: (nm2 ++ renderAttrs attrs2 ++ '>' ::
        (renderFrags kids2 ++ '<' :: '/' :: (nm2 ++ '>' :: REST))), stk, false⟩ =
      parseURLLoop f u ⟨REST, stk, false⟩ := by
  rw [parseURLLoop, next_start_attrs nm2 hnm2 attrs2 hattrs2 _ stk]
  simp only []
  rw [if_neg h1, if_neg h2, if_neg h3, if_neg h4,
    skipElem_render f (sizeOf kids2) kids2 le_rfl hkids2 nm2 hnm2 stk REST hf]

theorem parseEntryLoop_text (f : Nat) (e : SitemapEntry) (c : Char) (sr W : List Char)
    (stk : List XmlName) (hch : ∀ x ∈ c :: sr, x = '\n' ∨ x = ' ') :
    parseEntryLoop (f + 1) e ⟨(c :: sr) ++ '<' :: W, stk, false⟩ =
      parseEntryLoop f e ⟨'<' :: W, stk, false⟩ := by
  have hc_ne : c ≠ '<' := by
    rcases hch c (List.mem_cons_self _ _) with rfl | rfl <;> decide
  rw [parseEntryLoop, List.cons_append, next_text c (sr ++ '<' :: W) _ hc_ne,
    show c :: (sr ++ '<' :: W) = (c :: sr) ++ '<' :: W from by simp,
    readText_indent (c :: sr) hch _ nul nul [] W
      (by simp [List.length_append]; omega) nul_ne_cr]

theorem parseEntryLoop_etag (f : Nat) (e : SitemapEntry) (nm rest : List Char)
    (hnm : nameGood nm = true) (stk : List XmlName) :
    parseEntryLoop (f + 1) e ⟨'<' :: '/' :: (nm ++ '>' :: rest), nsnameSplit nm :: stk, false⟩ =
      .ok (e, ⟨rest, stk, false⟩) := by
  rw [parseEntryLoop, next_etag nm hnm rest stk]

theorem parseEntryLoop_loc (f : Nat) (e : SitemapEntry) (s REST : List Char)
    (stk : List XmlName) (hsafe : ∀ c ∈ s, isInCharacterRange c = true)
    (hf : (escapeText s ++ '<' :: '/' :: (str "loc" ++ '>' :: REST)).length < f) :
    parseEntryLoop (f + 1) e ⟨'<' :: (str "loc" ++ '>' ::
        (escapeText s ++ '<' :: '/' :: (str "loc" ++ '>' :: REST))), stk, false⟩ =
      parseEntryLoop f { e with Loc := ⟨s⟩ } ⟨REST, stk, false⟩ := by
  rw [parseEntryLoop, next_start_plain (str "loc") (by decide) _ stk]
  simp only []
  rw [if_pos (show (nsnameSplit (str "loc")).Local = "loc" from by decide), readData_leaf s hsafe (str "loc") (by decide) stk REST f hf []]
  simp only [List.nil_append]

theorem parseEntryLoop_lastmod (f : Nat) (e : SitemapEntry) (s REST : List Char)
    (stk : List XmlName) (hsafe : ∀ c ∈ s, isInCharacterRange c = true) (tm : GoTime)
    (hparse : parseRFC3339 s = some tm)
    (hf : (escapeText s ++ '<' :: '/' :: (str "lastmod" ++ '>' :: REST)).length < f) :
    parseEntryLoop (f + 1) e ⟨'<' :: (str "lastmod" ++ '>' ::
        (escapeText s ++ '<' :: '/' :: (str "lastmod" ++ '>' :: REST))), stk, false⟩ =
      parseEntryLoop f { e with LastMod := some tm } ⟨REST, stk, false⟩ := by
  rw [parseEntryLoop, next_start_plain (str "lastmod") (by decide) _ stk]
  simp only []
  rw [if_neg (show ¬(nsnameSplit (str "lastmod")).Local = "loc" from by decide), if_pos (show (nsnameSplit (str "lastmod")).Local = "lastmod" from by decide),
    readData_leaf s hsafe (str "lastmod") (by decide) stk REST f hf []]
  simp only [List.nil_append]
  rw [hparse]

theorem parseIndexLoop_text (f : Nat) (acc : List SitemapEntry) (c : Char) (sr W : List Char)
    (stk : List XmlName) (hch : ∀ x ∈ c :: sr, x = '\n' ∨ x = ' ') :
    parseIndexLoop (f + 1) acc ⟨(c :: sr) ++ '<' :: W, stk, false⟩ =
      parseIndexLoop f acc ⟨'<' :: W, stk, false⟩ := by
  have hc_ne : c ≠ '<' := by
    rcases hch c (List.mem_cons_self _ _) with rfl | rfl <;> decide
  rw [parseIndexLoop, List.cons_append, next_text c (sr ++ '<' :: W) _ hc_ne,
    show c :: (sr ++ '<' :: W) = (c :: sr) ++ '<' :: W from by simp,
    readText_indent (c :: sr) hch _ nul nul [] W
      (by simp [List.length_append]; omega) nul_ne_cr]

theorem parseIndexLoop_etag (f : Nat) (acc : List SitemapEntry) (nm rest : List Char)
    (hnm : nameGood nm = true) (stk : List XmlName) :
    parseIndexLoop (f + 1) acc ⟨'<' :: '/' :: (nm ++ '>' :: rest),
      nsnameSplit nm :: stk, false⟩ = .ok (acc, ⟨rest, stk, false⟩) := by
  rw [parseIndexLoop, next_etag nm hnm rest stk]

theorem parseIndexLoop_sitemap (f : Nat) (acc : List SitemapEntry) (INNER : List Char)
    (stk : List XmlName) (e : SitemapEntry) (d2 : Dec)
    (hinner : parseEntryLoop f ⟨"", none⟩
      ⟨INNER, nsnameSplit (str "sitemap") :: stk, false⟩ = .ok (e, d2)) :
    parseIndexLoop (f + 1) acc ⟨'<' :: (str "sitemap" ++ '>' :: INNER), stk, false⟩ =
      parseIndexLoop f (acc ++ [e]) d2 := by
  rw [parseIndexLoop, next_start_plain (str "sitemap") (by decide) INNER stk]
  simp only []
  rw [if_pos (show (nsnameSplit (str "sitemap")).Local = "sitemap" from by decide), hinner]

theorem parseUrlSetLoop_text (f : Nat) (acc : List URL) (c : Char) (sr W : List Char)
    (stk : List XmlName) (hch : ∀ x ∈ c :: sr, x = '\n' ∨ x = ' ') :
    parseUrlSetLoop (f + 1) acc ⟨(c :: sr) ++ '<' :: W, stk, false⟩ =
      parseUrlSetLoop f acc ⟨'<' :: W, stk, false⟩ := by
  have hc_ne : c ≠ '<' := by
    rcases hch c (List.mem_cons_self _ _) with rfl | rfl <;> decide
  rw [parseUrlSetLoop, List.cons_append, next_text c (sr ++ '<' :: W) _ hc_ne,
    show c :: (sr ++ '<' :: W) = (c :: sr) ++ '<' :: W from by simp,
    readText_indent (c :: sr) hch _ nul nul [] W
      (by simp [List.length_append]; omega) nul_ne_cr]

theorem parseUrlSetLoop_etag (f : Nat) (acc : List URL) (nm rest : List Char)
    (hnm : nameGood nm = true) (stk : List XmlName) :
    parseUrlSetLoop (f + 1) acc ⟨'<' :: '/' :: (nm ++ '>' :: rest),
      nsnameSplit nm :: stk, false⟩ = .ok (acc, ⟨rest, stk, false⟩) := by
  rw [parseUrlSetLoop, next_etag nm hnm rest stk]

theorem parseUrlSetLoop_url (f : Nat) (acc : List URL) (INNER : List Char)
    (stk : List XmlName) (u : URL) (d2 : Dec)
    (hinner : parseURLLoop f ⟨"", none, "", none, [], [], []⟩
      ⟨INNER, nsnameSplit (str "url") :: stk, false⟩ = .ok (u, d2)) :
    parseUrlSetLoop (f + 1) acc ⟨'<' :: (str "url" ++ '>' :: INNER), stk, false⟩ =
      parseUrlSetLoop f (acc ++ [u]) d2 := by
  rw [parseUrlSetLoop, next_start_plain (str "url") (by decide) INNER stk]
  simp only []
  rw [if_pos (show (nsnameSplit (str "url")).Local = "url" from by decide), hinner]

theorem findRoot_header (f : Nat) (rest : List Char) (stk : List XmlName) :
    findRoot (f + 1) ⟨str "<?xml version=\"1.0\" encoding=\"UTF-8\"?>\n" ++ rest, stk, false⟩ =
      findRoot f ⟨'\n' :: rest, stk, false⟩ := by
  rw [findRoot, next_header]

theorem findRoot_text (f : Nat) (c : Char) (sr W : List Char)
    (stk : List XmlName) (hch : ∀ x ∈ c :: sr, x = '\n' ∨ x = ' ') :
    findRoot (f + 1) ⟨(c :: sr) ++ '<' :: W, stk, false⟩ =
      findRoot f ⟨'<' :: W, stk, false⟩ := by
  have hc_ne : c ≠ '<' := by
    rcases hch c (List.mem_cons_self _ _) with rfl | rfl <;> decide
  rw [findRoot, List.cons_append, next_text c (sr ++ '<' :: W) _ hc_ne,
    show c :: (sr ++ '<' :: W) = (c :: sr) ++ '<' :: W from by simp,
    readText_indent (c :: sr) hch _ nul nul [] W
      (by simp [List.length_append]; omega) nul_ne_cr]

theorem findRoot_start (f : Nat) (nm : List Char) (hnm : nameGood nm = true)
    (attrs : List (List Char × List Char)) (hattrs : attrs.all attrGood = true)
    (rest : List Char) (stk : List XmlName) :
    findRoot (f + 1) ⟨'<' :: (nm ++ renderAttrs attrs ++ '>' :: rest), stk, false⟩ =
      .ok (nsnameSplit nm, attrs.map (fun a => (nsnameSplit a.1, a.2)),
        ⟨rest, nsnameSplit nm :: stk, false⟩) := by
  rw [findRoot, next_start_attrs nm hnm attrs hattrs rest stk]
theorem isElemF_leaf (nm s : List Char) : isElemF (leafElem nm s) = true := rfl

theorem fragsGood_singleton (x : XFrag) (hx : fragGood x = true) :
    fragsGood (.cons x .nil) = true := hx

theorem pairList_pair (k : Nat) (x : XFrag) (hx : fragGood x = true) (hex : isElemF x = true) :
    pairList [.fraw (nl k), x] = true := by
  unfold pairList
  simp [fragGood_fraw_nl, hx, hex, pairList]

theorem xmlSafe_chars {s : String} (h : xmlSafe s = true) :
    ∀ c ∈ s.data, isInCharacterRange c = true := by
  simpa [xmlSafe, List.all_eq_true] using h

theorem fragsGood_imageKids (im : Image) (h : imageGood im = true) :
    fragsGood (frags ([.fraw (nl 3), leafElem (str "image:loc") im.Loc.data] ++
      (if im.Caption = "" then []
       else [.fraw (nl 3), leafElem (str "image:caption") im.Caption.data]) ++
      (if im.Title = "" then []
       else [.fraw (nl 3), leafElem (str "image:title") im.Title.data]) ++
      [.fraw (nl 2)])) = true := by
  simp only [imageGood, Bool.and_eq_true] at h
  obtain ⟨⟨hloc, hcap⟩, htit⟩ := h
  have p1 : pairList [.fraw (nl 3), leafElem (str "image:loc") im.Loc.data] = true :=
    pairList_pair 3 _ (fragGood_leaf _ _ (by decide) (xmlSafe_chars hloc)) (isElemF_leaf _ _)
  have p2 : pairList (if im.Caption = "" then []
      else [.fraw (nl 3), leafElem (str "image:caption") im.Caption.data]) = true := by
    split
    · rfl
    · exact pairList_pair 3 _ (fragGood_leaf _ _ (by decide) (xmlSafe_chars hcap)) (isElemF_leaf _ _)
  have p3 : pairList (if im.Title = "" then []
      else [.fraw (nl 3), leafElem (str "image:title") im.Title.data]) = true := by
    split
    · rfl
    · exact pairList_pair 3 _ (fragGood_leaf _ _ (by decide) (xmlSafe_chars htit)) (isElemF_leaf _ _)
  rw [List.append_assoc, List.append_assoc, frags_append]
  apply fragsGood_pairs_tail _ p1
  rw [frags_append]
  apply fragsGood_pairs_tail _ p2
  rw [frags_append]
  apply fragsGood_pairs_tail _ p3
  exact fragsGood_singleton _ (fragGood_fraw_nl 2)

theorem intChars_safe (n : Int) : ∀ c ∈ intChars n, isInCharacterRange c = true := by
  intro c hc
  unfold intChars at hc
  have hdig : ∀ x : Char, isDigitCh x = true → isInCharacterRange x = true := by
    intro x hx
    simp only [isDigitCh, Bool.and_eq_true, decide_eq_true_eq, Char.le_def] at hx
    simp only [isInCharacterRange, Bool.or_eq_true, Bool.and_eq_true, decide_eq_true_eq]
    refine Or.inl (Or.inl (Or.inr ⟨?_, ?_⟩))
    · exact UInt32.le_trans (by decide) hx.1
    · exact UInt32.le_trans hx.2 (by decide)
  split at hc
  · rcases List.mem_cons.mp hc with rfl | hc2
    · decide
    · exact hdig c (natChars_all_digits _ c hc2)
  · exact hdig c (natChars_all_digits _ c hc)

theorem pairList_tags (tags : List String) (h : ∀ t ∈ tags, xmlSafe t = true) :
    pairList (tags.flatMap videoTagFrags) = true := by
  induction tags with
  | nil => rfl
  | cons t ts ih =>
    rw [List.flatMap_cons]
    apply pairList_append
    · exact pairList_pair 3 _
        (fragGood_leaf _ _ (by decide) (xmlSafe_chars (h t (List.mem_cons_self _ _))))
        (isElemF_leaf _ _)
    · exact ih (fun x hx => h x (List.mem_cons_of_mem _ hx))

theorem fragsGood_videoKids (v : Video) (h : videoGood v = true) :
    fragsGood (frags ([.fraw (nl 3), leafElem (str "video:loc") v.Loc.data,
      .fraw (nl 3), leafElem (str "video:thumbnail_loc") v.ThumbnailLoc.data,
      .fraw (nl 3), leafElem (str "video:title") v.Title.data,
      .fraw (nl 3), leafElem (str "video:description") v.Description.data] ++
      (if v.ContentLoc = "" then []
       else [.fraw (nl 3), leafElem (str "video:content_loc") v.ContentLoc.data]) ++
      (if v.Duration = 0 then []
       else [.fraw (nl 3), leafElem (str "video:duration") (intChars v.Duration)]) ++
      (if v.Category = "" then []
       else [.fraw (nl 3), leafElem (str "video:category") v.Category.data]) ++
      v.Tags.flatMap videoTagFrags ++
      [.fraw (nl 2)])) = true := by
  simp only [videoGood, Bool.and_eq_true, List.all_eq_true] at h
  obtain ⟨⟨⟨⟨⟨⟨hloc, hth⟩, hti⟩, hde⟩, hcl⟩, hca⟩, htags⟩ := h
  have p1 : pairList [.fraw (nl 3), leafElem (str "video:loc") v.Loc.data,
      .fraw (nl 3), leafElem (str "video:thumbnail_loc") v.ThumbnailLoc.data,
      .fraw (nl 3), leafElem (str "video:title") v.Title.data,
      .fraw (nl 3), leafElem (str "video:description") v.Description.data] = true := by
    unfold pairList
    simp only [Bool.and_eq_true]
    refine ⟨⟨⟨fragGood_fraw_nl 3, fragGood_leaf _ _ (by decide) (xmlSafe_chars hloc)⟩,
      isElemF_leaf _ _⟩, ?_⟩
    unfold pairList
    simp only [Bool.and_eq_true]
    refine ⟨⟨⟨fragGood_fraw_nl 3, fragGood_leaf _ _ (by decide) (xmlSafe_chars hth)⟩,
      isElemF_leaf _ _⟩, ?_⟩
    unfold pairList
    simp only [Bool.and_eq_true]
    refine ⟨⟨⟨fragGood_fraw_nl 3, fragGood_leaf _ _ (by decide) (xmlSafe_chars hti)⟩,
      isElemF_leaf _ _⟩, ?_⟩
    exact pairList_pair 3 _ (fragGood_leaf _ _ (by decide) (xmlSafe_chars hde)) (isElemF_leaf _ _)
  have p2 : pairList (if v.ContentLoc = "" then []
      else [.fraw (nl 3), leafElem (str "video:content_loc") v.ContentLoc.data]) = true := by
    split
    · rfl
    · exact pairList_pair 3 _ (fragGood_leaf _ _ (by decide) (xmlSafe_chars hcl)) (isElemF_leaf _ _)
  have p3 : pairList (if v.Duration = 0 then []
      else [.fraw (nl 3), leafElem (str "video:duration") (intChars v.Duration)]) = true := by
    split
    · rfl
    · exact pairList_pair 3 _ (fragGood_leaf _ _ (by decide) (intChars_safe v.Duration))
        (isElemF_leaf _ _)
  have p4 : pairList (if v.Category = "" then []
      else [.fraw (nl 3), leafElem (str "video:category") v.Category.data]) = true := by
    split
    · rfl
    · exact pairList_pair 3 _ (fragGood_leaf _ _ (by decide) (xmlSafe_chars hca)) (isElemF_leaf _ _)
  have p5 : pairList (v.Tags.flatMap videoTagFrags) = true := pairList_tags v.Tags htags
  simp only [List.append_assoc]
  rw [frags_append]
  apply fragsGood_pairs_tail _ p1
  rw [frags_append]
  apply fragsGood_pairs_tail _ p2
  rw [frags_append]
  apply fragsGood_pairs_tail _ p3
  rw [frags_append]
  apply fragsGood_pairs_tail _ p4
  rw [frags_append]
  apply fragsGood_pairs_tail _ p5
  exact fragsGood_singleton _ (fragGood_fraw_nl 2)

theorem fragGood_imageElem (im : Image) (h : imageGood im = true) :
    fragGood (.elem (str "image:image") [] (frags ([.fraw (nl 3),
      leafElem (str "image:loc") im.Loc.data] ++
      (if im.Caption = "" then []
       else [.fraw (nl 3), leafElem (str "image:caption") im.Caption.data]) ++
      (if im.Title = "" then []
       else [.fraw (nl 3), leafElem (str "image:title") im.Title.data]) ++
      [.fraw (nl 2)]))) = true := by
  unfold fragGood
  simp only [Bool.and_eq_true]
  exact ⟨⟨by decide, by simp⟩, fragsGood_imageKids im h⟩

theorem fragGood_videoElem (v : Video) (h : videoGood v = true) :
    fragGood (.elem (str "video:video") [] (frags ([.fraw (nl 3),
      leafElem (str "video:loc") v.Loc.data,
      .fraw (nl 3), leafElem (str "video:thumbnail_loc") v.ThumbnailLoc.data,
      .fraw (nl 3), leafElem (str "video:title") v.Title.data,
      .fraw (nl 3), leafElem (str "video:description") v.Description.data] ++
      (if v.ContentLoc = "" then []
       else [.fraw (nl 3), leafElem (str "video:content_loc") v.ContentLoc.data]) ++
      (if v.Duration = 0 then []
       else [.fraw (nl 3), leafElem (str "video:duration") (intChars v.Duration)]) ++
      (if v.Category = "" then []
       else [.fraw (nl 3), leafElem (str "video:category") v.Category.data]) ++
      v.Tags.flatMap videoTagFrags ++
      [.fraw (nl 2)]))) = true := by
  unfold fragGood
  simp only [Bool.and_eq_true]
  exact ⟨⟨by decide, by simp⟩, fragsGood_videoKids v h⟩

theorem fragGood_alternateElem (a : Alternate) (h : alternateGood a = true) :
    fragGood (.elem (str "xhtml:link")
      [(str "rel", a.Rel.data), (str "hreflang", a.HrefLang.data),
       (str "href", a.Href.data)] .nil) = true := by
  simp only [alternateGood, Bool.and_eq_true] at h
  obtain ⟨⟨hr, hl⟩, hh⟩ := h
  have hr' : a.Rel.data.all isInCharacterRange = true := hr
  have hl' : a.HrefLang.data.all isInCharacterRange = true := hl
  have hh' : a.Href.data.all isInCharacterRange = true := hh
  have n1 : nameGood (str "xhtml:link") = true := by decide
  have n2 : nameGood (str "rel") = true := by decide
  have n3 : nameGood (str "hreflang") = true := by decide
  have n4 : nameGood (str "href") = true := by decide
  have n5 : fragsGood .nil = true := rfl
  unfold fragGood
  simp [attrGood, hr', hl', hh', n1, n2, n3, n4, n5]

theorem pairList_imageFrags (im : Image) (h : imageGood im = true) :
    pairList (imageFrags im) = true := by
  rw [imageFrags]
  exact pairList_pair 2 _ (fragGood_imageElem im h) rfl

theorem pairList_videoFrags (v : Video) (h : videoGood v = true) :
    pairList (videoFrags v) = true := by
  rw [videoFrags]
  exact pairList_pair 2 _ (fragGood_videoElem v h) rfl

theorem pairList_alternateFrags (a : Alternate) (h : alternateGood a = true) :
    pairList (alternateFrags a) = true := by
  rw [alternateFrags]
  exact pairList_pair 2 _ (fragGood_alternateElem a h) rfl

theorem notUrlField_imageFrags (im : Image) : ∀ x ∈ imageFrags im, notUrlField x = true := by
  intro x hx
  rw [imageFrags] at hx
  rcases List.mem_cons.mp hx with rfl | hx2
  · rfl
  · rcases List.mem_cons.mp hx2 with rfl | hx3
    · rfl
    · cases hx3

theorem notUrlField_videoFrags (v : Video) : ∀ x ∈ videoFrags v, notUrlField x = true := by
  intro x hx
  rw [videoFrags] at hx
  rcases List.mem_cons.mp hx with rfl | hx2
  · rfl
  · rcases List.mem_cons.mp hx2 with rfl | hx3
    · rfl
    · cases hx3

theorem notUrlField_alternateFrags (a : Alternate) :
    ∀ x ∈ alternateFrags a, notUrlField x = true := by
  intro x hx
  rw [alternateFrags] at hx
  rcases List.mem_cons.mp hx with rfl | hx2
  · rfl
  · rcases List.mem_cons.mp hx2 with rfl | hx3
    · rfl
    · cases hx3
theorem parseURLLoop_skipPairs : ∀ (L : List XFrag), pairList L = true →
    (∀ x ∈ L, notUrlField x = true) →
    ∀ (fuel : Nat) (u : URL) (W : List Char) (stk : List XmlName),
    (renderFrags (frags L) ++ W).length < fuel →
    ∃ f', (W).length < f' ∧
      parseURLLoop fuel u ⟨renderFrags (frags L) ++ W, stk, false⟩ =
        parseURLLoop f' u ⟨W, stk, false⟩ := by
  intro L
  induction L using pairList.induct with
  | case1 =>
    intro _ _ fuel u W stk hfuel
    exact ⟨fuel, by simpa [frags, renderFrags_nil] using hfuel,
      by simp [frags, renderFrags_nil]⟩
  | case2 s x rest ih =>
    intro hL hflds fuel u W stk hfuel
    simp only [pairList, Bool.and_eq_true] at hL
    obtain ⟨⟨⟨hs, hx⟩, hex⟩, hrest⟩ := hL
    cases x with
    | ftext t => exact absurd hex (by simp [isElemF])
    | fraw t => exact absurd hex (by simp [isElemF])
    | elem nm2 attrs2 kids2 =>
      have hxg : nameGood nm2 = true ∧ attrs2.all attrGood = true ∧ fragsGood kids2 = true := by
        have hx' := hx
        unfold fragGood at hx'
        simp only [Bool.and_eq_true] at hx'
        exact ⟨hx'.1.1, hx'.1.2, hx'.2⟩
      obtain ⟨hnm2, hattrs2, hkids2⟩ := hxg
      have hsg : (!s.isEmpty) = true ∧ ∀ c ∈ s, c = '\n' ∨ c = ' ' := by
        have hs' := hs
        unfold fragGood at hs'
        simpa [List.all_eq_true] using hs'
      obtain ⟨hne, hch⟩ := hsg
      have hfld := hflds (.elem nm2 attrs2 kids2) (by simp)
      simp only [notUrlField, Bool.not_eq_true', Bool.or_eq_false_iff,
        beq_eq_false_iff_ne] at hfld
      obtain ⟨⟨⟨hf1, hf2⟩, hf3⟩, hf4⟩ := hfld
      cases s with
      | nil => simp at hne
      | cons c sr =>
        have hrem : renderFrags (frags (.fraw (c :: sr) :: .elem nm2 attrs2 kids2 :: rest)) ++
            W
            = (c :: sr) ++ '<' :: (nm2 ++ renderAttrs attrs2 ++ '>' ::
                (renderFrags kids2 ++ '<' :: '/' :: (nm2 ++ '>' ::
                  (renderFrags (frags rest) ++ W)))) := by
          simp only [frags]
          rw [renderFrags_cons, renderFrags_cons, renderFrag_fraw, renderFrag_elem]
          simp [List.append_assoc]
        rw [hrem] at hfuel
        simp only [List.length_append, List.length_cons] at hfuel
        obtain ⟨fl, rfl⟩ : ∃ fl, fuel = fl + 1 := ⟨fuel - 1, by omega⟩
        obtain ⟨fl2, rfl⟩ : ∃ fl2, fl = fl2 + 1 := ⟨fl - 1, by omega⟩
        rw [hrem, parseURLLoop_text (fl2 + 1) u c sr _ stk hch,
          parseURLLoop_skip fl2 u nm2 hnm2 attrs2 hattrs2 kids2 hkids2 hf1 hf2 hf3 hf4 _ stk
            (by simp only [List.length_append, List.length_cons]; omega)]
        obtain ⟨f', hf'lt, heq⟩ := ih hrest
          (fun y hy => hflds y (List.mem_cons_of_mem _ (List.mem_cons_of_mem _ hy)))
          fl2 u W stk (by simp only [List.length_append, List.length_cons] at hfuel ⊢; omega)
        exact ⟨f', hf'lt, heq⟩
  | case3 l h1 h2 =>
    intro hL
    rw [pairList] at hL
    · cases hL
    · exact h1
    · exact h2

theorem pairList_flatMap_images (imgs : List Image) (h : ∀ im ∈ imgs, imageGood im = true) :
    pairList (imgs.flatMap imageFrags) = true := by
  induction imgs with
  | nil => rfl
  | cons im ims ih =>
    rw [List.flatMap_cons]
    exact pairList_append _ _ (pairList_imageFrags im (h im (List.mem_cons_self _ _)))
      (ih (fun x hx => h x (List.mem_cons_of_mem _ hx)))

theorem pairList_flatMap_videos (vids : List Video) (h : ∀ v ∈ vids, videoGood v = true) :
    pairList (vids.flatMap videoFrags) = true := by
  induction vids with
  | nil => rfl
  | cons v vs ih =>
    rw [List.flatMap_cons]
    exact pairList_append _ _ (pairList_videoFrags v (h v (List.mem_cons_self _ _)))
      (ih (fun x hx => h x (List.mem_cons_of_mem _ hx)))

theorem pairList_flatMap_alternates (alts : List Alternate)
    (h : ∀ a ∈ alts, alternateGood a = true) :
    pairList (alts.flatMap alternateFrags) = true := by
  induction alts with
  | nil => rfl
  | cons a as ih =>
    rw [List.flatMap_cons]
    exact pairList_append _ _ (pairList_alternateFrags a (h a (List.mem_cons_self _ _)))
      (ih (fun x hx => h x (List.mem_cons_of_mem _ hx)))

theorem notUrlField_flatMap_images (imgs : List Image) :
    ∀ x ∈ imgs.flatMap imageFrags, notUrlField x = true := by
  intro x hx
  rw [List.mem_flatMap] at hx
  obtain ⟨im, _, hx2⟩ := hx
  exact notUrlField_imageFrags im x hx2

theorem notUrlField_flatMap_videos (vids : List Video) :
    ∀ x ∈ vids.flatMap videoFrags, notUrlField x = true := by
  intro x hx
  rw [List.mem_flatMap] at hx
  obtain ⟨v, _, hx2⟩ := hx
  exact notUrlField_videoFrags v x hx2

theorem notUrlField_flatMap_alternates (alts : List Alternate) :
    ∀ x ∈ alts.flatMap alternateFrags, notUrlField x = true := by
  intro x hx
  rw [List.mem_flatMap] at hx
  obtain ⟨a, _, hx2⟩ := hx
  exact notUrlField_alternateFrags a x hx2
theorem isInCharacterRange_of_digit (c : Char) (h : isDigitCh c = true) :
    isInCharacterRange c = true := by
  simp only [isDigitCh, Bool.and_eq_true, decide_eq_true_eq, Char.le_def] at h
  simp only [isInCharacterRange, Bool.or_eq_true, Bool.and_eq_true, decide_eq_true_eq]
  refine Or.inl (Or.inl (Or.inr ⟨?_, ?_⟩))
  · exact UInt32.le_trans (by decide) h.1
  · exact UInt32.le_trans h.2 (by decide)

theorem pad2_safe (n : Nat) : ∀ c ∈ pad2 n, isInCharacterRange c = true :=
  fun c hc => isInCharacterRange_of_digit c
    (padZeros_all_digits 2 _ (natChars_all_digits n) c hc)

theorem formatRFC3339Nano_safe (t : GoTime) :
    ∀ c ∈ formatRFC3339Nano t, isInCharacterRange c = true := by
  intro c hc
  unfold formatRFC3339Nano at hc
  simp only [List.mem_append, List.mem_cons] at hc
  have hpad4 : c ∈ pad4 t.year → isInCharacterRange c = true := fun h =>
    isInCharacterRange_of_digit c (padZeros_all_digits 4 _ (natChars_all_digits _) c h)
  have hfrac : c ∈ fracChars t.nanosec → isInCharacterRange c = true := by
    intro h
    unfold fracChars at h
    split at h
    · cases h
    · rcases List.mem_cons.mp h with rfl | h2
      · decide
      · exact isInCharacterRange_of_digit c
          (padZeros_all_digits 9 _ (natChars_all_digits _) c
            (stripTrailZero_subset _ c h2))
  have hoff : c ∈ offsetChars t.offsetMin → isInCharacterRange c = true := by
    intro h
    unfold offsetChars at h
    split at h
    · rcases List.mem_singleton.mp h with rfl
      decide
    · rcases List.mem_cons.mp h with he | h2
      · by_cases hneg : t.offsetMin < 0
        · rw [if_pos hneg] at he; subst he; decide
        · rw [if_neg hneg] at he; subst he; decide
      · rcases List.mem_append.mp h2 with h3 | h3
        · exact pad2_safe _ c h3
        · rcases List.mem_cons.mp h3 with rfl | h4
          · decide
          · exact pad2_safe _ c h4
  rcases hc with ((((((h | h) | h) | h) | h) | h) | h) | h
  · exact hpad4 h
  · rcases h with rfl | h
    · decide
    · exact pad2_safe _ c h
  · rcases h with rfl | h
    · decide
    · exact pad2_safe _ c h
  · rcases h with rfl | h
    · decide
    · exact pad2_safe _ c h
  · rcases h with rfl | h
    · decide
    · exact pad2_safe _ c h
  · rcases h with rfl | h
    · decide
    · exact pad2_safe _ c h
  · exact hfrac h
  · exact hoff h

theorem expChars_safe (e : Int) : ∀ c ∈ expChars e, isInCharacterRange c = true := by
  intro c hc
  unfold expChars at hc
  rcases List.mem_cons.mp hc with he | hp
  · by_cases hneg : e < 0
    · rw [if_pos hneg] at he; subst he; decide
    · rw [if_neg hneg] at he; subst he; decide
  · exact isInCharacterRange_of_digit c (padZeros_all_digits 2 _ (natChars_all_digits _) c hp)

theorem formatFloatAbs_safe (m : Nat) (e10 : Int) :
    ∀ c ∈ formatFloatAbs m e10, isInCharacterRange c = true := by
  intro c hc
  have hds := natChars_all_digits m
  unfold formatFloatAbs at hc
  by_cases hm : m = 0
  · rw [if_pos hm, List.mem_singleton] at hc
    subst hc; decide
  · rw [if_neg hm] at hc
    simp only [] at hc
    by_cases hE : e10 + ((natChars m).length : Int) - 1 < -4 ∨
        e10 + ((natChars m).length : Int) - 1 ≥ 21
    · rw [if_pos hE] at hc
      simp only [List.mem_append, List.mem_cons] at hc
      rcases hc with (h | h) | h | h
      · exact isInCharacterRange_of_digit c (hds c (List.mem_of_mem_take h))
      · by_cases h1 : (natChars m).length = 1
        · rw [if_pos h1] at h; cases h
        · rw [if_neg h1] at h
          rcases List.mem_cons.mp h with he | hd
          · subst he; decide
          · exact isInCharacterRange_of_digit c (hds c (List.mem_of_mem_drop hd))
      · subst h; decide
      · exact expChars_safe _ c h
    · rw [if_neg hE] at hc
      by_cases hdp : e10 + ((natChars m).length : Int) ≤ 0
      · rw [if_pos hdp] at hc
        rcases List.mem_cons.mp hc with he | hc2
        · subst he; decide
        · rcases List.mem_cons.mp hc2 with he | hc3
          · subst he; decide
          · rcases List.mem_append.mp hc3 with h | h
            · have := List.eq_of_mem_replicate h; subst this; decide
            · exact isInCharacterRange_of_digit c (hds c h)
      · rw [if_neg hdp] at hc
        by_cases hge : (e10 + ((natChars m).length : Int)) ≥ ((natChars m).length : Int)
        · rw [if_pos hge] at hc
          rcases List.mem_append.mp hc with h | h
          · exact isInCharacterRange_of_digit c (hds c h)
          · have := List.eq_of_mem_replicate h; subst this; decide
        · rw [if_neg hge] at hc
          rcases List.mem_append.mp hc with h | h
          · exact isInCharacterRange_of_digit c (hds c (List.mem_of_mem_take h))
          · rcases List.mem_cons.mp h with he | hd
            · subst he; decide
            · exact isInCharacterRange_of_digit c (hds c (List.mem_of_mem_drop hd))

theorem formatFloat_safe (f : GoFloat) : ∀ c ∈ formatFloat f, isInCharacterRange c = true := by
  intro c hc
  unfold formatFloat at hc
  rcases List.mem_append.mp hc with h | h
  · by_cases hneg : f.neg = true
    · rw [if_pos hneg, List.mem_singleton] at h; subst h; decide
    · rw [if_neg hneg] at h; cases h
  · exact formatFloatAbs_safe f.mant f.exp10 c h

theorem parseURLLoop_text_ex (u : URL) (c : Char) (sr W : List Char) (stk : List XmlName)
    (hch : ∀ x ∈ c :: sr, x = '\n' ∨ x = ' ') :
    ∀ fuel, ((c :: sr) ++ '<' :: W).length < fuel →
    ∃ f', ('<' :: W).length < f' ∧
    parseURLLoop fuel u ⟨(c :: sr) ++ '<' :: W, stk, false⟩ =
      parseURLLoop f' u ⟨'<' :: W, stk, false⟩ := by
  intro fuel hb
  obtain ⟨f, rfl⟩ : ∃ f, fuel = f + 1 := ⟨fuel - 1, by omega⟩
  refine ⟨f, ?_, parseURLLoop_text f u c sr W stk hch⟩
  simp only [List.length_append, List.length_cons] at hb ⊢
  omega

theorem parseURLLoop_loc_ex (u : URL) (s Z : List Char) (stk : List XmlName)
    (hsafe : ∀ c ∈ s, isInCharacterRange c = true) :
    ∀ fuel, ('<' :: (str "loc" ++ '>' ::
        (escapeText s ++ '<' :: '/' :: (str "loc" ++ '>' :: Z)))).length < fuel →
    ∃ f', Z.length < f' ∧
    parseURLLoop fuel u ⟨'<' :: (str "loc" ++ '>' ::
        (escapeText s ++ '<' :: '/' :: (str "loc" ++ '>' :: Z))), stk, false⟩ =
      parseURLLoop f' { u with Loc := ⟨s⟩ } ⟨Z, stk, false⟩ := by
  intro fuel hb
  obtain ⟨f, rfl⟩ : ∃ f, fuel = f + 1 := ⟨fuel - 1, by omega⟩
  have hlen : (str "loc").length = 3 := rfl
  simp only [List.length_append, List.length_cons, hlen] at hb
  refine ⟨f, by omega, parseURLLoop_loc f u s Z stk hsafe ?_⟩
  simp only [List.length_append, List.length_cons, hlen]
  omega

theorem parseURLLoop_lastmod_ex (u : URL) (s Z : List Char) (stk : List XmlName)
    (hsafe : ∀ c ∈ s, isInCharacterRange c = true) (tm : GoTime)
    (hparse : parseRFC3339 s = some tm) :
    ∀ fuel, ('<' :: (str "lastmod" ++ '>' ::
        (escapeText s ++ '<' :: '/' :: (str "lastmod" ++ '>' :: Z)))).length < fuel →
    ∃ f', Z.length < f' ∧
    parseURLLoop fuel u ⟨'<' :: (str "lastmod" ++ '>' ::
        (escapeText s ++ '<' :: '/' :: (str "lastmod" ++ '>' :: Z))), stk, false⟩ =
      parseURLLoop f' { u with LastMod := some tm } ⟨Z, stk, false⟩ := by
  intro fuel hb
  obtain ⟨f, rfl⟩ : ∃ f, fuel = f + 1 := ⟨fuel - 1, by omega⟩
  have hlen : (str "lastmod").length = 7 := rfl
  simp only [List.length_append, List.length_cons, hlen] at hb
  refine ⟨f, by omega, parseURLLoop_lastmod f u s Z stk hsafe tm hparse ?_⟩
  simp only [List.length_append, List.length_cons, hlen]
  omega

theorem parseURLLoop_changefreq_ex (u : URL) (s Z : List Char) (stk : List XmlName)
    (hsafe : ∀ c ∈ s, isInCharacterRange c = true) :
    ∀ fuel, ('<' :: (str "changefreq" ++ '>' ::
        (escapeText s ++ '<' :: '/' :: (str "changefreq" ++ '>' :: Z)))).length < fuel →
    ∃ f', Z.length < f' ∧
    parseURLLoop fuel u ⟨'<' :: (str "changefreq" ++ '>' ::
        (escapeText s ++ '<' :: '/' :: (str "changefreq" ++ '>' :: Z))), stk, false⟩ =
      parseURLLoop f' { u with ChangeFreq := ⟨s⟩ } ⟨Z, stk, false⟩ := by
  intro fuel hb
  obtain ⟨f, rfl⟩ : ∃ f, fuel = f + 1 := ⟨fuel - 1, by omega⟩
  have hlen : (str "changefreq").length = 10 := rfl
  simp only [List.length_append, List.length_cons, hlen] at hb
  refine ⟨f, by omega, parseURLLoop_changefreq f u s Z stk hsafe ?_⟩
  simp only [List.length_append, List.length_cons, hlen]
  omega

theorem parseURLLoop_priority_ex (u : URL) (s Z : List Char) (stk : List XmlName)
    (hsafe : ∀ c ∈ s, isInCharacterRange c = true) (p : GoFloat)
    (hparse : parseFloat (trimSpace s) = some p) :
    ∀ fuel, ('<' :: (str "priority" ++ '>' ::
        (escapeText s ++ '<' :: '/' :: (str "priority" ++ '>' :: Z)))).length < fuel →
    ∃ f', Z.length < f' ∧
    parseURLLoop fuel u ⟨'<' :: (str "priority" ++ '>' ::
        (escapeText s ++ '<' :: '/' :: (str "priority" ++ '>' :: Z))), stk, false⟩ =
      parseURLLoop f' { u with Priority := some p } ⟨Z, stk, false⟩ := by
  intro fuel hb
  obtain ⟨f, rfl⟩ : ∃ f, fuel = f + 1 := ⟨fuel - 1, by omega⟩
  have hlen : (str "priority").length = 8 := rfl
  simp only [List.length_append, List.length_cons, hlen] at hb
  refine ⟨f, by omega, parseURLLoop_priority f u s Z stk hsafe p hparse ?_⟩
  simp only [List.length_append, List.length_cons, hlen]
  omega

theorem parseEntryLoop_text_ex (e : SitemapEntry) (c : Char) (sr W : List Char)
    (stk : List XmlName) (hch : ∀ x ∈ c :: sr, x = '\n' ∨ x = ' ') :
    ∀ fuel, ((c :: sr) ++ '<' :: W).length < fuel →
    ∃ f', ('<' :: W).length < f' ∧
    parseEntryLoop fuel e ⟨(c :: sr) ++ '<' :: W, stk, false⟩ =
      parseEntryLoop f' e ⟨'<' :: W, stk, false⟩ := by
  intro fuel hb
  obtain ⟨f, rfl⟩ : ∃ f, fuel = f + 1 := ⟨fuel - 1, by omega⟩
  refine ⟨f, ?_, parseEntryLoop_text f e c sr W stk hch⟩
  simp only [List.length_append, List.length_cons] at hb ⊢
  omega

theorem parseEntryLoop_loc_ex (e : SitemapEntry) (s Z : List Char) (stk : List XmlName)
    (hsafe : ∀ c ∈ s, isInCharacterRange c = true) :
    ∀ fuel, ('<' :: (str "loc" ++ '>' ::
        (escapeText s ++ '<' :: '/' :: (str "loc" ++ '>' :: Z)))).length < fuel →
    ∃ f', Z.length < f' ∧
    parseEntryLoop fuel e ⟨'<' :: (str "loc" ++ '>' ::
        (escapeText s ++ '<' :: '/' :: (str "loc" ++ '>' :: Z))), stk, false⟩ =
      parseEntryLoop f' { e with Loc := ⟨s⟩ } ⟨Z, stk, false⟩ := by
  intro fuel hb
  obtain ⟨f, rfl⟩ : ∃ f, fuel = f + 1 := ⟨fuel - 1, by omega⟩
  have hlen : (str "loc").length = 3 := rfl
  simp only [List.length_append, List.length_cons, hlen] at hb
  refine ⟨f, by omega, parseEntryLoop_loc f e s Z stk hsafe ?_⟩
  simp only [List.length_append, List.length_cons, hlen]
  omega

theorem parseEntryLoop_lastmod_ex (e : SitemapEntry) (s Z : List Char) (stk : List XmlName)
    (hsafe : ∀ c ∈ s, isInCharacterRange c = true) (tm : GoTime)
    (hparse : parseRFC3339 s = some tm) :
    ∀ fuel, ('<' :: (str "lastmod" ++ '>' ::
        (escapeText s ++ '<' :: '/' :: (str "lastmod" ++ '>' :: Z)))).length < fuel →
    ∃ f', Z.length < f' ∧
    parseEntryLoop fuel e ⟨'<' :: (str "lastmod" ++ '>' ::
        (escapeText s ++ '<' :: '/' :: (str "lastmod" ++ '>' :: Z))), stk, false⟩ =
      parseEntryLoop f' { e with LastMod := some tm } ⟨Z, stk, false⟩ := by
  intro fuel hb
  obtain ⟨f, rfl⟩ : ∃ f, fuel = f + 1 := ⟨fuel - 1, by omega⟩
  have hlen : (str "lastmod").length = 7 := rfl
  simp only [List.length_append, List.length_cons, hlen] at hb
  refine ⟨f, by omega, parseEntryLoop_lastmod f e s Z stk hsafe tm hparse ?_⟩
  simp only [List.length_append, List.length_cons, hlen]
  omega

theorem parseIndexLoop_text_ex (acc : List SitemapEntry) (c : Char) (sr W : List Char)
    (stk : List XmlName) (hch : ∀ x ∈ c :: sr, x = '\n' ∨ x = ' ') :
    ∀ fuel, ((c :: sr) ++ '<' :: W).length < fuel →
    ∃ f', ('<' :: W).length < f' ∧
    parseIndexLoop fuel acc ⟨(c :: sr) ++ '<' :: W, stk, false⟩ =
      parseIndexLoop f' acc ⟨'<' :: W, stk, false⟩ := by
  intro fuel hb
  obtain ⟨f, rfl⟩ : ∃ f, fuel = f + 1 := ⟨fuel - 1, by omega⟩
  refine ⟨f, ?_, parseIndexLoop_text f acc c sr W stk hch⟩
  simp only [List.length_append, List.length_cons] at hb ⊢
  omega

theorem parseUrlSetLoop_text_ex (acc : List URL) (c : Char) (sr W : List Char)
    (stk : List XmlName) (hch : ∀ x ∈ c :: sr, x = '\n' ∨ x = ' ') :
    ∀ fuel, ((c :: sr) ++ '<' :: W).length < fuel →
    ∃ f', ('<' :: W).length < f' ∧
    parseUrlSetLoop fuel acc ⟨(c :: sr) ++ '<' :: W, stk, false⟩ =
      parseUrlSetLoop f' acc ⟨'<' :: W, stk, false⟩ := by
  intro fuel hb
  obtain ⟨f, rfl⟩ : ∃ f, fuel = f + 1 := ⟨fuel - 1, by omega⟩
  refine ⟨f, ?_, parseUrlSetLoop_text f acc c sr W stk hch⟩
  simp only [List.length_append, List.length_cons] at hb ⊢
  omega
theorem parseURLLoop_allChildren (u : URL) (t : GoTime) (p : GoFloat)
    (hloc : xmlSafe u.Loc = true) (hcfsafe : xmlSafe u.ChangeFreq = true)
    (ht : t.valid = true) (hp : p.normalized = true)
    (himgs : ∀ im ∈ u.Images, imageGood im = true)
    (hvids : ∀ v ∈ u.Videos, videoGood v = true)
    (halts : ∀ a ∈ u.Alternate, alternateGood a = true)
    (REST : List Char) (stk : List XmlName) :
    ∀ fuel,
    (nl 2 ++ ('<' :: (str "loc" ++ '>' :: (escapeText u.Loc.data ++ '<' :: '/' :: (str "loc" ++ '>' :: (nl 2 ++ ('<' :: (str "lastmod" ++ '>' :: (escapeText (formatRFC3339Nano t) ++ '<' :: '/' :: (str "lastmod" ++ '>' :: (nl 2 ++ ('<' :: (str "changefreq" ++ '>' :: (escapeText u.ChangeFreq.data ++ '<' :: '/' :: (str "changefreq" ++ '>' :: (nl 2 ++ ('<' :: (str "priority" ++ '>' :: (escapeText (formatFloat p) ++ '<' :: '/' :: (str "priority" ++ '>' :: (renderFrags (frags (u.Images.flatMap imageFrags)) ++ (renderFrags (frags (u.Videos.flatMap videoFrags)) ++ (renderFrags (frags (u.Alternate.flatMap alternateFrags)) ++ (nl 1 ++ ('<' :: '/' :: (str "url" ++ '>' :: REST)))))))))))))))))))))))))).length < fuel →
    parseURLLoop fuel ⟨"", none, "", none, [], [], []⟩
      ⟨nl 2 ++ ('<' :: (str "loc" ++ '>' :: (escapeText u.Loc.data ++ '<' :: '/' :: (str "loc" ++ '>' :: (nl 2 ++ ('<' :: (str "lastmod" ++ '>' :: (escapeText (formatRFC3339Nano t) ++ '<' :: '/' :: (str "lastmod" ++ '>' :: (nl 2 ++ ('<' :: (str "changefreq" ++ '>' :: (escapeText u.ChangeFreq.data ++ '<' :: '/' :: (str "changefreq" ++ '>' :: (nl 2 ++ ('<' :: (str "priority" ++ '>' :: (escapeText (formatFloat p) ++ '<' :: '/' :: (str "priority" ++ '>' :: (renderFrags (frags (u.Images.flatMap imageFrags)) ++ (renderFrags (frags (u.Videos.flatMap videoFrags)) ++ (renderFrags (frags (u.Alternate.flatMap alternateFrags)) ++ (nl 1 ++ ('<' :: '/' :: (str "url" ++ '>' :: REST))))))))))))))))))))))))),
        nsnameSplit (str "url") :: stk, false⟩ =
      .ok (⟨u.Loc, some t, u.ChangeFreq, some p, [], [], []⟩, ⟨REST, stk, false⟩) := by
  intro fuel hb
  have hnl2 : nl 2 = '\n' :: [' ', ' ', ' ', ' '] := rfl
  have hnl1 : nl 1 = '\n' :: [' ', ' '] := rfl
  have hch2 : ∀ x ∈ ('\n' :: [' ', ' ', ' ', ' '] : List Char), x = '\n' ∨ x = ' ' := by decide
  have hch1 : ∀ x ∈ ('\n' :: [' ', ' '] : List Char), x = '\n' ∨ x = ' ' := by decide
  have hlocs := xmlSafe_chars hloc
  have hcfs := xmlSafe_chars hcfsafe
  have htparse : parseRFC3339 (formatRFC3339Nano t) = some t := parseRFC3339_format t ht
  have hpparse : parseFloat (trimSpace (formatFloat p)) = some p := by
    rw [trimSpace_formatFloat]
    exact parseFloat_formatFloat p hp
  rw [hnl2, hnl1] at hb ⊢
  obtain ⟨f1, hb1, he1⟩ := parseURLLoop_text_ex ⟨"", none, "", none, [], [], []⟩
    '\n' [' ', ' ', ' ', ' '] _ _ hch2 fuel hb
  obtain ⟨f2, hb2, he2⟩ := parseURLLoop_loc_ex _ u.Loc.data _ _ hlocs f1 hb1
  obtain ⟨f3, hb3, he3⟩ := parseURLLoop_text_ex _ '\n' [' ', ' ', ' ', ' '] _ _ hch2 f2 hb2
  obtain ⟨f4, hb4, he4⟩ := parseURLLoop_lastmod_ex _ (formatRFC3339Nano t) _ _
    (formatRFC3339Nano_safe t) t htparse f3 hb3
  obtain ⟨f5, hb5, he5⟩ := parseURLLoop_text_ex _ '\n' [' ', ' ', ' ', ' '] _ _ hch2 f4 hb4
  obtain ⟨f6, hb6, he6⟩ := parseURLLoop_changefreq_ex _ u.ChangeFreq.data _ _ hcfs f5 hb5
  obtain ⟨f7, hb7, he7⟩ := parseURLLoop_text_ex _ '\n' [' ', ' ', ' ', ' '] _ _ hch2 f6 hb6
  obtain ⟨f8, hb8, he8⟩ := parseURLLoop_priority_ex _ (formatFloat p) _ _
    (formatFloat_safe p) p hpparse f7 hb7
  obtain ⟨f9, hb9, he9⟩ := parseURLLoop_skipPairs (u.Images.flatMap imageFrags)
    (pairList_flatMap_images _ himgs) (notUrlField_flatMap_images _) f8 _ _ _ hb8
  obtain ⟨f10, hb10, he10⟩ := parseURLLoop_skipPairs (u.Videos.flatMap videoFrags)
    (pairList_flatMap_videos _ hvids) (notUrlField_flatMap_videos _) f9 _ _ _ hb9
  obtain ⟨f11, hb11, he11⟩ := parseURLLoop_skipPairs (u.Alternate.flatMap alternateFrags)
    (pairList_flatMap_alternates _ halts) (notUrlField_flatMap_alternates _) f10 _ _ _ hb10
  obtain ⟨f12, hb12, he12⟩ := parseURLLoop_text_ex _ '\n' [' ', ' '] _ _ hch1 f11 hb11
  obtain ⟨g, rfl⟩ : ∃ g, f12 = g + 1 := ⟨f12 - 1, by omega⟩
  rw [he1, he2, he3, he4, he5, he6, he7, he8, he9, he10, he11, he12,
    parseURLLoop_etag g _ (str "url") REST (by decide) stk]
theorem findRoot_header_ex (rest : List Char) (stk : List XmlName) :
    ∀ fuel, (str "<?xml version=\"1.0\" encoding=\"UTF-8\"?>\n" ++ rest).length < fuel →
    ∃ f', ('\n' :: rest).length < f' ∧
    findRoot fuel ⟨str "<?xml version=\"1.0\" encoding=\"UTF-8\"?>\n" ++ rest, stk, false⟩ =
      findRoot f' ⟨'\n' :: rest, stk, false⟩ := by
  intro fuel hb
  obtain ⟨f, rfl⟩ : ∃ f, fuel = f + 1 := ⟨fuel - 1, by omega⟩
  refine ⟨f, ?_, findRoot_header f rest stk⟩
  have hh : (str "<?xml version=\"1.0\" encoding=\"UTF-8\"?>\n").length = 39 := rfl
  simp only [List.length_append, List.length_cons, hh] at hb ⊢
  omega

theorem findRoot_text_ex (c : Char) (sr W : List Char) (stk : List XmlName)
    (hch : ∀ x ∈ c :: sr, x = '\n' ∨ x = ' ') :
    ∀ fuel, ((c :: sr) ++ '<' :: W).length < fuel →
    ∃ f', ('<' :: W).length < f' ∧
    findRoot fuel ⟨(c :: sr) ++ '<' :: W, stk, false⟩ = findRoot f' ⟨'<' :: W, stk, false⟩ := by
  intro fuel hb
  obtain ⟨f, rfl⟩ : ∃ f, fuel = f + 1 := ⟨fuel - 1, by omega⟩
  refine ⟨f, ?_, findRoot_text f c sr W stk hch⟩
  simp only [List.length_append, List.length_cons] at hb ⊢
  omega

theorem findRoot_start_ex (nm : List Char) (hnm : nameGood nm = true)
    (attrs : List (List Char × List Char)) (hattrs : attrs.all attrGood = true)
    (rest : List Char) (stk : List XmlName) :
    ∀ fuel, 0 < fuel →
    findRoot fuel ⟨'<' :: (nm ++ renderAttrs attrs ++ '>' :: rest), stk, false⟩ =
      .ok (nsnameSplit nm, attrs.map (fun a => (nsnameSplit a.1, a.2)),
        ⟨rest, nsnameSplit nm :: stk, false⟩) := by
  intro fuel hb
  obtain ⟨f, rfl⟩ : ∃ f, fuel = f + 1 := ⟨fuel - 1, by omega⟩
  exact findRoot_start f nm hnm attrs hattrs rest stk
/-- C1: for a URLSet built via MakeUrlSet and Add holding a single URL with
all fields set to representable values — an XML-safe loc, a present valid
lastMod, a non-empty XML-safe changeFreq, a present normalized priority, and
extension blocks with XML-safe strings — GenerateXML succeeds, ParseXMLUrlSet
on its output succeeds, and the resulting set holds a single URL with the
same loc, lastMod, changeFreq and priority. -/
theorem urlset_single_url_roundtrip (u : URL) (t : GoTime) (p : GoFloat)
    (hlm : u.LastMod = some t) (hpr : u.Priority = some p)
    (hloc : xmlSafe u.Loc = true) (hcfne : u.ChangeFreq ≠ "")
    (hcfsafe : xmlSafe u.ChangeFreq = true)
    (ht : t.valid = true) (hp : p.normalized = true)
    (himgs : ∀ im ∈ u.Images, imageGood im = true)
    (hvids : ∀ v ∈ u.Videos, videoGood v = true)
    (halts : ∀ a ∈ u.Alternate, alternateGood a = true) :
    ∃ (doc : String) (us' : URLSet),
      URLSet.GenerateXML (URLSet.Add MakeUrlSet u) = some doc ∧
      ParseXMLUrlSet doc = .ok us' ∧
      ∃ u', us'.URLs = [u'] ∧ u'.Loc = u.Loc ∧ u'.LastMod = u.LastMod ∧
        u'.ChangeFreq = u.ChangeFreq ∧ u'.Priority = u.Priority := by
  have hu : (URLSet.Add MakeUrlSet u).URLs = [u] := rfl
  have hok : (URLSet.Add MakeUrlSet u).URLs.all URL.marshalOk = true := by
    rw [hu]
    simp [URL.marshalOk, hlm, marshalTimeOk_of_valid t ht]
  have hgen : URLSet.GenerateXML (URLSet.Add MakeUrlSet u) =
      some (URLSet.renderXML (URLSet.Add MakeUrlSet u)) :=
    generateXML_urlset_ok _ hok
  have hra0 : renderAttrs ([] : List (List Char × List Char)) = [] := rfl
  have hdoc : (URLSet.renderXML (URLSet.Add MakeUrlSet u)).data =
      str "<?xml version=\"1.0\" encoding=\"UTF-8\"?>\n" ++ ('<' :: (str "urlset" ++ renderAttrs (urlsetAttrs (URLSet.Add MakeUrlSet u)) ++ '>' :: (nl 1 ++ ('<' :: (str "url" ++ '>' :: (nl 2 ++ ('<' :: (str "loc" ++ '>' :: (escapeText u.Loc.data ++ '<' :: '/' :: (str "loc" ++ '>' :: (nl 2 ++ ('<' :: (str "lastmod" ++ '>' :: (escapeText (formatRFC3339Nano t) ++ '<' :: '/' :: (str "lastmod" ++ '>' :: (nl 2 ++ ('<' :: (str "changefreq" ++ '>' :: (escapeText u.ChangeFreq.data ++ '<' :: '/' :: (str "changefreq" ++ '>' :: (nl 2 ++ ('<' :: (str "priority" ++ '>' :: (escapeText (formatFloat p) ++ '<' :: '/' :: (str "priority" ++ '>' :: (renderFrags (frags (u.Images.flatMap imageFrags)) ++ (renderFrags (frags (u.Videos.flatMap videoFrags)) ++ (renderFrags (frags (u.Alternate.flatMap alternateFrags)) ++ (nl 1 ++ ('<' :: '/' :: (str "url" ++ '>' :: (nl 0 ++ ('<' :: ('/' :: (str "urlset" ++ '>' :: ([] : List Char)))))))))))))))))))))))))))))))))))) := by
    simp only [URLSet.renderXML]
    rw [hu]
    simp only [List.flatMap_cons, List.flatMap_nil, List.append_nil, List.isEmpty_cons,
      Bool.false_eq_true, if_false]
    simp only [urlFrags, hlm, hpr]
    rw [if_neg hcfne]
    simp only [renderFrags_frags_append, frags, renderFrags_cons, renderFrags_nil,
      renderFrag_fraw, renderFrag_elem, renderFrag_leaf, hra0, xmlHeaderChars]
    simp [renderFrags_frags_append, frags, renderFrags_cons, renderFrags_nil,
      renderFrag_fraw, List.append_assoc]
  have hattr : urlsetAttrs (URLSet.Add MakeUrlSet u) =
      [(str "xmlns", str "http://www.sitemaps.org/schemas/sitemap/0.9"),
       (str "xmlns:xhtml", str "http://www.w3.org/1999/xhtml")] := rfl
  have hgood_attrs : (urlsetAttrs (URLSet.Add MakeUrlSet u)).all attrGood = true := by
    rw [hattr]
    decide
  have hl0 : (nl 0).length = 1 := rfl
  have hl1 : (nl 1).length = 3 := rfl
  have hl2 : (nl 2).length = 5 := rfl
  have hfr : findRoot ((str "<?xml version=\"1.0\" encoding=\"UTF-8\"?>\n" ++ ('<' :: (str "urlset" ++ renderAttrs (urlsetAttrs (URLSet.Add MakeUrlSet u)) ++ '>' :: (nl 1 ++ ('<' :: (str "url" ++ '>' :: (nl 2 ++ ('<' :: (str "loc" ++ '>' :: (escapeText u.Loc.data ++ '<' :: '/' :: (str "loc" ++ '>' :: (nl 2 ++ ('<' :: (str "lastmod" ++ '>' :: (escapeText (formatRFC3339Nano t) ++ '<' :: '/' :: (str "lastmod" ++ '>' :: (nl 2 ++ ('<' :: (str "changefreq" ++ '>' :: (escapeText u.ChangeFreq.data ++ '<' :: '/' :: (str "changefreq" ++ '>' :: (nl 2 ++ ('<' :: (str "priority" ++ '>' :: (escapeText (formatFloat p) ++ '<' :: '/' :: (str "priority" ++ '>' :: (renderFrags (frags (u.Images.flatMap imageFrags)) ++ (renderFrags (frags (u.Videos.flatMap videoFrags)) ++ (renderFrags (frags (u.Alternate.flatMap alternateFrags)) ++ (nl 1 ++ ('<' :: '/' :: (str "url" ++ '>' :: (nl 0 ++ ('<' :: ('/' :: (str "urlset" ++ '>' :: ([] : List Char))))))))))))))))))))))))))))))))))))).length + 1) ⟨str "<?xml version=\"1.0\" encoding=\"UTF-8\"?>\n" ++ ('<' :: (str "urlset" ++ renderAttrs (urlsetAttrs (URLSet.Add MakeUrlSet u)) ++ '>' :: (nl 1 ++ ('<' :: (str "url" ++ '>' :: (nl 2 ++ ('<' :: (str "loc" ++ '>' :: (escapeText u.Loc.data ++ '<' :: '/' :: (str "loc" ++ '>' :: (nl 2 ++ ('<' :: (str "lastmod" ++ '>' :: (escapeText (formatRFC3339Nano t) ++ '<' :: '/' :: (str "lastmod" ++ '>' :: (nl 2 ++ ('<' :: (str "changefreq" ++ '>' :: (escapeText u.ChangeFreq.data ++ '<' :: '/' :: (str "changefreq" ++ '>' :: (nl 2 ++ ('<' :: (str "priority" ++ '>' :: (escapeText (formatFloat p) ++ '<' :: '/' :: (str "priority" ++ '>' :: (renderFrags (frags (u.Images.flatMap imageFrags)) ++ (renderFrags (frags (u.Videos.flatMap videoFrags)) ++ (renderFrags (frags (u.Alternate.flatMap alternateFrags)) ++ (nl 1 ++ ('<' :: '/' :: (str "url" ++ '>' :: (nl 0 ++ ('<' :: ('/' :: (str "urlset" ++ '>' :: ([] : List Char)))))))))))))))))))))))))))))))))))), [], false⟩ =
      .ok (nsnameSplit (str "urlset"), (urlsetAttrs (URLSet.Add MakeUrlSet u)).map (fun a => (nsnameSplit a.1, a.2)),
        ⟨nl 1 ++ ('<' :: (str "url" ++ '>' :: (nl 2 ++ ('<' :: (str "loc" ++ '>' :: (escapeText u.Loc.data ++ '<' :: '/' :: (str "loc" ++ '>' :: (nl 2 ++ ('<' :: (str "lastmod" ++ '>' :: (escapeText (formatRFC3339Nano t) ++ '<' :: '/' :: (str "lastmod" ++ '>' :: (nl 2 ++ ('<' :: (str "changefreq" ++ '>' :: (escapeText u.ChangeFreq.data ++ '<' :: '/' :: (str "changefreq" ++ '>' :: (nl 2 ++ ('<' :: (str "priority" ++ '>' :: (escapeText (formatFloat p) ++ '<' :: '/' :: (str "priority" ++ '>' :: (renderFrags (frags (u.Images.flatMap imageFrags)) ++ (renderFrags (frags (u.Videos.flatMap videoFrags)) ++ (renderFrags (frags (u.Alternate.flatMap alternateFrags)) ++ (nl 1 ++ ('<' :: '/' :: (str "url" ++ '>' :: (nl 0 ++ ('<' :: ('/' :: (str "urlset" ++ '>' :: ([] : List Char))))))))))))))))))))))))))))))))), [nsnameSplit (str "urlset")], false⟩) := by
    obtain ⟨f1, hb1, he1⟩ := findRoot_header_ex ('<' :: (str "urlset" ++ renderAttrs (urlsetAttrs (URLSet.Add MakeUrlSet u)) ++ '>' :: (nl 1 ++ ('<' :: (str "url" ++ '>' :: (nl 2 ++ ('<' :: (str "loc" ++ '>' :: (escapeText u.Loc.data ++ '<' :: '/' :: (str "loc" ++ '>' :: (nl 2 ++ ('<' :: (str "lastmod" ++ '>' :: (escapeText (formatRFC3339Nano t) ++ '<' :: '/' :: (str "lastmod" ++ '>' :: (nl 2 ++ ('<' :: (str "changefreq" ++ '>' :: (escapeText u.ChangeFreq.data ++ '<' :: '/' :: (str "changefreq" ++ '>' :: (nl 2 ++ ('<' :: (str "priority" ++ '>' :: (escapeText (formatFloat p) ++ '<' :: '/' :: (str "priority" ++ '>' :: (renderFrags (frags (u.Images.flatMap imageFrags)) ++ (renderFrags (frags (u.Videos.flatMap videoFrags)) ++ (renderFrags (frags (u.Alternate.flatMap alternateFrags)) ++ (nl 1 ++ ('<' :: '/' :: (str "url" ++ '>' :: (nl 0 ++ ('<' :: ('/' :: (str "urlset" ++ '>' :: ([] : List Char)))))))))))))))))))))))))))))))))))) [] ((str "<?xml version=\"1.0\" encoding=\"UTF-8\"?>\n" ++ ('<' :: (str "urlset" ++ renderAttrs (urlsetAttrs (URLSet.Add MakeUrlSet u)) ++ '>' :: (nl 1 ++ ('<' :: (str "url" ++ '>' :: (nl 2 ++ ('<' :: (str "loc" ++ '>' :: (escapeText u.Loc.data ++ '<' :: '/' :: (str "loc" ++ '>' :: (nl 2 ++ ('<' :: (str "lastmod" ++ '>' :: (escapeText (formatRFC3339Nano t) ++ '<' :: '/' :: (str "lastmod" ++ '>' :: (nl 2 ++ ('<' :: (str "changefreq" ++ '>' :: (escapeText u.ChangeFreq.data ++ '<' :: '/' :: (str "changefreq" ++ '>' :: (nl 2 ++ ('<' :: (str "priority" ++ '>' :: (escapeText (formatFloat p) ++ '<' :: '/' :: (str "priority" ++ '>' :: (renderFrags (frags (u.Images.flatMap imageFrags)) ++ (renderFrags (frags (u.Videos.flatMap videoFrags)) ++ (renderFrags (frags (u.Alternate.flatMap alternateFrags)) ++ (nl 1 ++ ('<' :: '/' :: (str "url" ++ '>' :: (nl 0 ++ ('<' :: ('/' :: (str "urlset" ++ '>' :: ([] : List Char))))))))))))))))))))))))))))))))))))).length + 1)
      (by simp only [List.length_append, List.length_cons, List.length_nil, hl0, hl1, hl2]; omega)
    obtain ⟨f2, hb2, he2⟩ := findRoot_text_ex '\n' [] (str "urlset" ++ renderAttrs (urlsetAttrs (URLSet.Add MakeUrlSet u)) ++ '>' :: (nl 1 ++ ('<' :: (str "url" ++ '>' :: (nl 2 ++ ('<' :: (str "loc" ++ '>' :: (escapeText u.Loc.data ++ '<' :: '/' :: (str "loc" ++ '>' :: (nl 2 ++ ('<' :: (str "lastmod" ++ '>' :: (escapeText (formatRFC3339Nano t) ++ '<' :: '/' :: (str "lastmod" ++ '>' :: (nl 2 ++ ('<' :: (str "changefreq" ++ '>' :: (escapeText u.ChangeFreq.data ++ '<' :: '/' :: (str "changefreq" ++ '>' :: (nl 2 ++ ('<' :: (str "priority" ++ '>' :: (escapeText (formatFloat p) ++ '<' :: '/' :: (str "priority" ++ '>' :: (renderFrags (frags (u.Images.flatMap imageFrags)) ++ (renderFrags (frags (u.Videos.flatMap videoFrags)) ++ (renderFrags (frags (u.Alternate.flatMap alternateFrags)) ++ (nl 1 ++ ('<' :: '/' :: (str "url" ++ '>' :: (nl 0 ++ ('<' :: ('/' :: (str "urlset" ++ '>' :: ([] : List Char))))))))))))))))))))))))))))))))))) [] (by decide) f1 hb1
    exact he1.trans (he2.trans (findRoot_start_ex (str "urlset") (by decide) _
      hgood_attrs _ [] f2 (by omega)))
  have hloop : parseUrlSetLoop ((str "<?xml version=\"1.0\" encoding=\"UTF-8\"?>\n" ++ ('<' :: (str "urlset" ++ renderAttrs (urlsetAttrs (URLSet.Add MakeUrlSet u)) ++ '>' :: (nl 1 ++ ('<' :: (str "url" ++ '>' :: (nl 2 ++ ('<' :: (str "loc" ++ '>' :: (escapeText u.Loc.data ++ '<' :: '/' :: (str "loc" ++ '>' :: (nl 2 ++ ('<' :: (str "lastmod" ++ '>' :: (escapeText (formatRFC3339Nano t) ++ '<' :: '/' :: (str "lastmod" ++ '>' :: (nl 2 ++ ('<' :: (str "changefreq" ++ '>' :: (escapeText u.ChangeFreq.data ++ '<' :: '/' :: (str "changefreq" ++ '>' :: (nl 2 ++ ('<' :: (str "priority" ++ '>' :: (escapeText (formatFloat p) ++ '<' :: '/' :: (str "priority" ++ '>' :: (renderFrags (frags (u.Images.flatMap imageFrags)) ++ (renderFrags (frags (u.Videos.flatMap videoFrags)) ++ (renderFrags (frags (u.Alternate.flatMap alternateFrags)) ++ (nl 1 ++ ('<' :: '/' :: (str "url" ++ '>' :: (nl 0 ++ ('<' :: ('/' :: (str "urlset" ++ '>' :: ([] : List Char))))))))))))))))))))))))))))))))))))).length + 1) []
      ⟨nl 1 ++ ('<' :: (str "url" ++ '>' :: (nl 2 ++ ('<' :: (str "loc" ++ '>' :: (escapeText u.Loc.data ++ '<' :: '/' :: (str "loc" ++ '>' :: (nl 2 ++ ('<' :: (str "lastmod" ++ '>' :: (escapeText (formatRFC3339Nano t) ++ '<' :: '/' :: (str "lastmod" ++ '>' :: (nl 2 ++ ('<' :: (str "changefreq" ++ '>' :: (escapeText u.ChangeFreq.data ++ '<' :: '/' :: (str "changefreq" ++ '>' :: (nl 2 ++ ('<' :: (str "priority" ++ '>' :: (escapeText (formatFloat p) ++ '<' :: '/' :: (str "priority" ++ '>' :: (renderFrags (frags (u.Images.flatMap imageFrags)) ++ (renderFrags (frags (u.Videos.flatMap videoFrags)) ++ (renderFrags (frags (u.Alternate.flatMap alternateFrags)) ++ (nl 1 ++ ('<' :: '/' :: (str "url" ++ '>' :: (nl 0 ++ ('<' :: ('/' :: (str "urlset" ++ '>' :: ([] : List Char))))))))))))))))))))))))))))))))), [nsnameSplit (str "urlset")], false⟩ =
      .ok ([(⟨u.Loc, some t, u.ChangeFreq, some p, [], [], []⟩ : URL)], ⟨[], [], false⟩) := by
    obtain ⟨f1, hb1, he1⟩ := parseUrlSetLoop_text_ex [] '\n' [' ', ' ']
      (str "url" ++ '>' :: (nl 2 ++ ('<' :: (str "loc" ++ '>' :: (escapeText u.Loc.data ++ '<' :: '/' :: (str "loc" ++ '>' :: (nl 2 ++ ('<' :: (str "lastmod" ++ '>' :: (escapeText (formatRFC3339Nano t) ++ '<' :: '/' :: (str "lastmod" ++ '>' :: (nl 2 ++ ('<' :: (str "changefreq" ++ '>' :: (escapeText u.ChangeFreq.data ++ '<' :: '/' :: (str "changefreq" ++ '>' :: (nl 2 ++ ('<' :: (str "priority" ++ '>' :: (escapeText (formatFloat p) ++ '<' :: '/' :: (str "priority" ++ '>' :: (renderFrags (frags (u.Images.flatMap imageFrags)) ++ (renderFrags (frags (u.Videos.flatMap videoFrags)) ++ (renderFrags (frags (u.Alternate.flatMap alternateFrags)) ++ (nl 1 ++ ('<' :: '/' :: (str "url" ++ '>' :: (nl 0 ++ ('<' :: ('/' :: (str "urlset" ++ '>' :: ([] : List Char)))))))))))))))))))))))))))))))) [nsnameSplit (str "urlset")] (by decide) ((str "<?xml version=\"1.0\" encoding=\"UTF-8\"?>\n" ++ ('<' :: (str "urlset" ++ renderAttrs (urlsetAttrs (URLSet.Add MakeUrlSet u)) ++ '>' :: (nl 1 ++ ('<' :: (str "url" ++ '>' :: (nl 2 ++ ('<' :: (str "loc" ++ '>' :: (escapeText u.Loc.data ++ '<' :: '/' :: (str "loc" ++ '>' :: (nl 2 ++ ('<' :: (str "lastmod" ++ '>' :: (escapeText (formatRFC3339Nano t) ++ '<' :: '/' :: (str "lastmod" ++ '>' :: (nl 2 ++ ('<' :: (str "changefreq" ++ '>' :: (escapeText u.ChangeFreq.data ++ '<' :: '/' :: (str "changefreq" ++ '>' :: (nl 2 ++ ('<' :: (str "priority" ++ '>' :: (escapeText (formatFloat p) ++ '<' :: '/' :: (str "priority" ++ '>' :: (renderFrags (frags (u.Images.flatMap imageFrags)) ++ (renderFrags (frags (u.Videos.flatMap videoFrags)) ++ (renderFrags (frags (u.Alternate.flatMap alternateFrags)) ++ (nl 1 ++ ('<' :: '/' :: (str "url" ++ '>' :: (nl 0 ++ ('<' :: ('/' :: (str "urlset" ++ '>' :: ([] : List Char))))))))))))))))))))))))))))))))))))).length + 1)
      (by simp only [List.length_append, List.length_cons, List.length_nil, hl0, hl1, hl2]; omega)
    obtain ⟨g, rfl⟩ : ∃ g, f1 = g + 1 := ⟨f1 - 1, by omega⟩
    have hin := parseURLLoop_allChildren u t p hloc hcfsafe ht hp himgs hvids halts
      (nl 0 ++ ('<' :: ('/' :: (str "urlset" ++ '>' :: ([] : List Char))))) [nsnameSplit (str "urlset")] g
      (by simp only [List.length_append, List.length_cons, List.length_nil, hl0, hl1, hl2] at hb1 ⊢; omega)
    have hurl := parseUrlSetLoop_url g [] (nl 2 ++ ('<' :: (str "loc" ++ '>' :: (escapeText u.Loc.data ++ '<' :: '/' :: (str "loc" ++ '>' :: (nl 2 ++ ('<' :: (str "lastmod" ++ '>' :: (escapeText (formatRFC3339Nano t) ++ '<' :: '/' :: (str "lastmod" ++ '>' :: (nl 2 ++ ('<' :: (str "changefreq" ++ '>' :: (escapeText u.ChangeFreq.data ++ '<' :: '/' :: (str "changefreq" ++ '>' :: (nl 2 ++ ('<' :: (str "priority" ++ '>' :: (escapeText (formatFloat p) ++ '<' :: '/' :: (str "priority" ++ '>' :: (renderFrags (frags (u.Images.flatMap imageFrags)) ++ (renderFrags (frags (u.Videos.flatMap videoFrags)) ++ (renderFrags (frags (u.Alternate.flatMap alternateFrags)) ++ (nl 1 ++ ('<' :: '/' :: (str "url" ++ '>' :: (nl 0 ++ ('<' :: ('/' :: (str "urlset" ++ '>' :: ([] : List Char)))))))))))))))))))))))))))))))
      [nsnameSplit (str "urlset")] (⟨u.Loc, some t, u.ChangeFreq, some p, [], [], []⟩ : URL) ⟨nl 0 ++ ('<' :: ('/' :: (str "urlset" ++ '>' :: ([] : List Char)))), [nsnameSplit (str "urlset")], false⟩ hin
    obtain ⟨f3, hb3, he3⟩ := parseUrlSetLoop_text_ex [(⟨u.Loc, some t, u.ChangeFreq, some p, [], [], []⟩ : URL)] '\n' []
      ('/' :: (str "urlset" ++ '>' :: ([] : List Char))) [nsnameSplit (str "urlset")]
      (by decide) g
      (by simp only [List.length_append, List.length_cons, List.length_nil, hl0, hl1, hl2] at hb1 ⊢; omega)
    obtain ⟨g2, rfl⟩ : ∃ g2, f3 = g2 + 1 := ⟨f3 - 1, by omega⟩
    have hend := parseUrlSetLoop_etag g2 [(⟨u.Loc, some t, u.ChangeFreq, some p, [], [], []⟩ : URL)] (str "urlset") [] (by decide) []
    exact he1.trans (hurl.trans (he3.trans hend))
  refine ⟨URLSet.renderXML (URLSet.Add MakeUrlSet u),
    ⟨nsnameSplit (str "urlset"), "http://www.sitemaps.org/schemas/sitemap/0.9",
    "", "", "", [(⟨u.Loc, some t, u.ChangeFreq, some p, [], [], []⟩ : URL)]⟩, hgen, ?_, (⟨u.Loc, some t, u.ChangeFreq, some p, [], [], []⟩ : URL), rfl, rfl, hlm.symm, rfl, hpr.symm⟩
  unfold ParseXMLUrlSet
  simp only []
  rw [hdoc, hfr]
  simp only []
  rw [if_pos (show (nsnameSplit (str "urlset")).Local = "urlset" from by decide), hloop]
  simp only []
  rw [hattr]
  rfl
theorem urlset_single_url_roundtrip_witness :
    ∃ (doc : String) (us' : URLSet),
      URLSet.GenerateXML (URLSet.Add MakeUrlSet
        (⟨"https://example.com/", some ⟨2024, 1, 2, 3, 4, 5, 0, 0⟩, "daily", some half,
          [⟨"https://example.com/i.png", "a caption", "a title"⟩],
          [⟨"https://example.com/v.mp4", "https://example.com/v.png", "a video",
            "a description", "", 0, "", ["tag one"]⟩],
          [⟨"alternate", "en", "https://example.com/en"⟩]⟩ : URL)) = some doc ∧
      ParseXMLUrlSet doc = .ok us' ∧
      ∃ u', us'.URLs = [u'] ∧
        u'.Loc = (⟨"https://example.com/", some ⟨2024, 1, 2, 3, 4, 5, 0, 0⟩, "daily", some half,
          [⟨"https://example.com/i.png", "a caption", "a title"⟩],
          [⟨"https://example.com/v.mp4", "https://example.com/v.png", "a video",
            "a description", "", 0, "", ["tag one"]⟩],
          [⟨"alternate", "en", "https://example.com/en"⟩]⟩ : URL).Loc ∧
        u'.LastMod = (⟨"https://example.com/", some ⟨2024, 1, 2, 3, 4, 5, 0, 0⟩, "daily",
          some half,
          [⟨"https://example.com/i.png", "a caption", "a title"⟩],
          [⟨"https://example.com/v.mp4", "https://example.com/v.png", "a video",
            "a description", "", 0, "", ["tag one"]⟩],
          [⟨"alternate", "en", "https://example.com/en"⟩]⟩ : URL).LastMod ∧
        u'.ChangeFreq = (⟨"https://example.com/", some ⟨2024, 1, 2, 3, 4, 5, 0, 0⟩, "daily",
          some half,
          [⟨"https://example.com/i.png", "a caption", "a title"⟩],
          [⟨"https://example.com/v.mp4", "https://example.com/v.png", "a video",
            "a description", "", 0, "", ["tag one"]⟩],
          [⟨"alternate", "en", "https://example.com/en"⟩]⟩ : URL).ChangeFreq ∧
        u'.Priority = (⟨"https://example.com/", some ⟨2024, 1, 2, 3, 4, 5, 0, 0⟩, "daily",
          some half,
          [⟨"https://example.com/i.png", "a caption", "a title"⟩],
          [⟨"https://example.com/v.mp4", "https://example.com/v.png", "a video",
            "a description", "", 0, "", ["tag one"]⟩],
          [⟨"alternate", "en", "https://example.com/en"⟩]⟩ : URL).Priority :=
  urlset_single_url_roundtrip
    ⟨"https://example.com/", some ⟨2024, 1, 2, 3, 4, 5, 0, 0⟩, "daily", some half,
      [⟨"https://example.com/i.png", "a caption", "a title"⟩],
      [⟨"https://example.com/v.mp4", "https://example.com/v.png", "a video",
        "a description", "", 0, "", ["tag one"]⟩],
      [⟨"alternate", "en", "https://example.com/en"⟩]⟩
    ⟨2024, 1, 2, 3, 4, 5, 0, 0⟩ half rfl rfl (by decide) (by decide) (by decide)
    (by decide) (by decide) (by decide) (by decide) (by decide)
theorem parseEntryLoop_children (loc : String) (t : GoTime)
    (hloc : xmlSafe loc = true) (ht : t.valid = true)
    (REST : List Char) (stk : List XmlName) :
    ∀ fuel,
    (nl 2 ++ ('<' :: (str "loc" ++ '>' :: (escapeText loc.data ++ '<' :: '/' :: (str "loc" ++ '>' :: (nl 2 ++ ('<' :: (str "lastmod" ++ '>' :: (escapeText (formatRFC3339Nano t) ++ '<' :: '/' :: (str "lastmod" ++ '>' :: (nl 1 ++ ('<' :: '/' :: (str "sitemap" ++ '>' :: (REST)))))))))))))).length < fuel →
    parseEntryLoop fuel ⟨"", none⟩
      ⟨nl 2 ++ ('<' :: (str "loc" ++ '>' :: (escapeText loc.data ++ '<' :: '/' :: (str "loc" ++ '>' :: (nl 2 ++ ('<' :: (str "lastmod" ++ '>' :: (escapeText (formatRFC3339Nano t) ++ '<' :: '/' :: (str "lastmod" ++ '>' :: (nl 1 ++ ('<' :: '/' :: (str "sitemap" ++ '>' :: (REST))))))))))))), nsnameSplit (str "sitemap") :: stk, false⟩ =
      .ok (⟨loc, some t⟩, ⟨REST, stk, false⟩) := by
  intro fuel hb
  have hnl2 : nl 2 = '\n' :: [' ', ' ', ' ', ' '] := rfl
  have hnl1 : nl 1 = '\n' :: [' ', ' '] := rfl
  have hch2 : ∀ x ∈ ('\n' :: [' ', ' ', ' ', ' '] : List Char), x = '\n' ∨ x = ' ' := by decide
  have hch1 : ∀ x ∈ ('\n' :: [' ', ' '] : List Char), x = '\n' ∨ x = ' ' := by decide
  have hlocs := xmlSafe_chars hloc
  have htparse : parseRFC3339 (formatRFC3339Nano t) = some t := parseRFC3339_format t ht
  rw [hnl2, hnl1] at hb ⊢
  obtain ⟨f1, hb1, he1⟩ := parseEntryLoop_text_ex ⟨"", none⟩
    '\n' [' ', ' ', ' ', ' '] _ _ hch2 fuel hb
  obtain ⟨f2, hb2, he2⟩ := parseEntryLoop_loc_ex _ loc.data _ _ hlocs f1 hb1
  obtain ⟨f3, hb3, he3⟩ := parseEntryLoop_text_ex _ '\n' [' ', ' ', ' ', ' '] _ _ hch2 f2 hb2
  obtain ⟨f4, hb4, he4⟩ := parseEntryLoop_lastmod_ex _ (formatRFC3339Nano t) _ _
    (formatRFC3339Nano_safe t) t htparse f3 hb3
  obtain ⟨f5, hb5, he5⟩ := parseEntryLoop_text_ex _ '\n' [' ', ' '] _ _ hch1 f4 hb4
  obtain ⟨g, rfl⟩ : ∃ g, f5 = g + 1 := ⟨f5 - 1, by omega⟩
  rw [he1, he2, he3, he4, he5,
    parseEntryLoop_etag g _ (str "sitemap") REST (by decide) stk]
theorem parseEntryLoop_children_noLm (loc : String)
    (hloc : xmlSafe loc = true)
    (REST : List Char) (stk : List XmlName) :
    ∀ fuel,
    (nl 2 ++ ('<' :: (str "loc" ++ '>' :: (escapeText loc.data ++ '<' :: '/' :: (str "loc" ++ '>' :: (nl 1 ++ ('<' :: '/' :: (str "sitemap" ++ '>' :: (REST))))))))).length < fuel →
    parseEntryLoop fuel ⟨"", none⟩
      ⟨nl 2 ++ ('<' :: (str "loc" ++ '>' :: (escapeText loc.data ++ '<' :: '/' :: (str "loc" ++ '>' :: (nl 1 ++ ('<' :: '/' :: (str "sitemap" ++ '>' :: (REST)))))))), nsnameSplit (str "sitemap") :: stk, false⟩ =
      .ok (⟨loc, none⟩, ⟨REST, stk, false⟩) := by
  intro fuel hb
  have hnl2 : nl 2 = '\n' :: [' ', ' ', ' ', ' '] := rfl
  have hnl1 : nl 1 = '\n' :: [' ', ' '] := rfl
  have hch2 : ∀ x ∈ ('\n' :: [' ', ' ', ' ', ' '] : List Char), x = '\n' ∨ x = ' ' := by decide
  have hch1 : ∀ x ∈ ('\n' :: [' ', ' '] : List Char), x = '\n' ∨ x = ' ' := by decide
  have hlocs := xmlSafe_chars hloc
  rw [hnl2, hnl1] at hb ⊢
  obtain ⟨f1, hb1, he1⟩ := parseEntryLoop_text_ex ⟨"", none⟩
    '\n' [' ', ' ', ' ', ' '] _ _ hch2 fuel hb
  obtain ⟨f2, hb2, he2⟩ := parseEntryLoop_loc_ex _ loc.data _ _ hlocs f1 hb1
  obtain ⟨f3, hb3, he3⟩ := parseEntryLoop_text_ex _ '\n' [' ', ' '] _ _ hch1 f2 hb2
  obtain ⟨g, rfl⟩ : ∃ g, f3 = g + 1 := ⟨f3 - 1, by omega⟩
  rw [he1, he2, he3,
    parseEntryLoop_etag g _ (str "sitemap") REST (by decide) stk]

theorem parseIndexLoop_entries :
    ∀ (entries : List SitemapEntry),
    (∀ e ∈ entries, xmlSafe e.Loc = true ∧
      ∀ t, e.LastMod = some t → t.valid = true) →
    ∀ (acc : List SitemapEntry) (W : List Char) (stk : List XmlName) (fuel : Nat),
    (renderFrags (frags (entries.flatMap sitemapEntryFrags)) ++ W).length < fuel →
    ∃ f', W.length < f' ∧
    parseIndexLoop fuel acc
      ⟨renderFrags (frags (entries.flatMap sitemapEntryFrags)) ++ W, stk, false⟩ =
      parseIndexLoop f' (acc ++ entries) ⟨W, stk, false⟩ := by
  intro entries
  induction entries with
  | nil =>
    intro _ acc W stk fuel hb
    have h0 : renderFrags (frags (([] : List SitemapEntry).flatMap sitemapEntryFrags)) = [] := rfl
    rw [h0, List.nil_append] at hb ⊢
    exact ⟨fuel, hb, by rw [List.append_nil]⟩
  | cons e es ih =>
    intro hgood acc W stk fuel hb
    obtain ⟨hloc, hvalid⟩ := hgood e (List.mem_cons_self _ _)
    have hra0 : renderAttrs ([] : List (List Char × List Char)) = [] := rfl
    have hl1 : (nl 1).length = 3 := rfl
    have hl2 : (nl 2).length = 5 := rfl
    have ihgood : ∀ x ∈ es, xmlSafe x.Loc = true ∧
        ∀ t, x.LastMod = some t → t.valid = true :=
      fun x hx => hgood x (List.mem_cons_of_mem _ hx)
    cases hE : e.LastMod with
    | some t =>
      have ht : t.valid = true := hvalid t hE
      have hbytes : renderFrags (frags ((e :: es).flatMap sitemapEntryFrags)) ++ W =
          ('\n' :: [' ', ' ']) ++ '<' :: (str "sitemap" ++ '>' :: (nl 2 ++ ('<' :: (str "loc" ++ '>' :: (escapeText e.Loc.data ++ '<' :: '/' :: (str "loc" ++ '>' :: (nl 2 ++ ('<' :: (str "lastmod" ++ '>' :: (escapeText (formatRFC3339Nano t) ++ '<' :: '/' :: (str "lastmod" ++ '>' :: (nl 1 ++ ('<' :: '/' :: (str "sitemap" ++ '>' :: (renderFrags (frags (es.flatMap sitemapEntryFrags)) ++ W))))))))))))))) := by
        simp only [List.flatMap_cons, renderFrags_frags_append]
        simp only [sitemapEntryFrags, hE]
        simp only [renderFrags_frags_append, frags, renderFrags_cons, renderFrags_nil,
          renderFrag_fraw, renderFrag_elem, renderFrag_leaf, hra0]
        simp [frags, renderFrags_cons, renderFrags_nil, renderFrag_fraw, List.append_assoc,
          nl]
      rw [hbytes] at hb ⊢
      obtain ⟨f1, hb1, he1⟩ := parseIndexLoop_text_ex acc '\n' [' ', ' ']
        (str "sitemap" ++ '>' :: (nl 2 ++ ('<' :: (str "loc" ++ '>' :: (escapeText e.Loc.data ++ '<' :: '/' :: (str "loc" ++ '>' :: (nl 2 ++ ('<' :: (str "lastmod" ++ '>' :: (escapeText (formatRFC3339Nano t) ++ '<' :: '/' :: (str "lastmod" ++ '>' :: (nl 1 ++ ('<' :: '/' :: (str "sitemap" ++ '>' :: (renderFrags (frags (es.flatMap sitemapEntryFrags)) ++ W))))))))))))))) stk (by decide) fuel hb
      obtain ⟨g, rfl⟩ : ∃ g, f1 = g + 1 := ⟨f1 - 1, by omega⟩
      have hinner := parseEntryLoop_children e.Loc t hloc ht
        (renderFrags (frags (es.flatMap sitemapEntryFrags)) ++ W) stk g
        (by
          simp only [List.length_cons, List.length_append, hl1, hl2] at hb1 ⊢
          omega)
      have hstep := parseIndexLoop_sitemap g acc (nl 2 ++ ('<' :: (str "loc" ++ '>' :: (escapeText e.Loc.data ++ '<' :: '/' :: (str "loc" ++ '>' :: (nl 2 ++ ('<' :: (str "lastmod" ++ '>' :: (escapeText (formatRFC3339Nano t) ++ '<' :: '/' :: (str "lastmod" ++ '>' :: (nl 1 ++ ('<' :: '/' :: (str "sitemap" ++ '>' :: (renderFrags (frags (es.flatMap sitemapEntryFrags)) ++ W)))))))))))))) stk ⟨e.Loc, some t⟩
        ⟨renderFrags (frags (es.flatMap sitemapEntryFrags)) ++ W, stk, false⟩ hinner
      have heta : (⟨e.Loc, some t⟩ : SitemapEntry) = e := by rw [← hE]
      rw [heta] at hstep
      obtain ⟨f2, hb2, he2⟩ := ih ihgood (acc ++ [e]) W stk g
        (by
          simp only [List.length_cons, List.length_append, hl1, hl2] at hb1 ⊢
          omega)
      have hacc : (acc ++ [e]) ++ es = acc ++ e :: es := by simp
      rw [hacc] at he2
      exact ⟨f2, hb2, he1.trans (hstep.trans he2)⟩
    | none =>
      have hbytes : renderFrags (frags ((e :: es).flatMap sitemapEntryFrags)) ++ W =
          ('\n' :: [' ', ' ']) ++ '<' :: (str "sitemap" ++ '>' :: (nl 2 ++ ('<' :: (str "loc" ++ '>' :: (escapeText e.Loc.data ++ '<' :: '/' :: (str "loc" ++ '>' :: (nl 1 ++ ('<' :: '/' :: (str "sitemap" ++ '>' :: (renderFrags (frags (es.flatMap sitemapEntryFrags)) ++ W)))))))))) := by
        simp only [List.flatMap_cons, renderFrags_frags_append]
        simp only [sitemapEntryFrags, hE]
        simp only [renderFrags_frags_append, frags, renderFrags_cons, renderFrags_nil,
          renderFrag_fraw, renderFrag_elem, renderFrag_leaf, hra0]
        simp [frags, renderFrags_cons, renderFrags_nil, renderFrag_fraw, List.append_assoc,
          nl]
      rw [hbytes] at hb ⊢
      obtain ⟨f1, hb1, he1⟩ := parseIndexLoop_text_ex acc '\n' [' ', ' ']
        (str "sitemap" ++ '>' :: (nl 2 ++ ('<' :: (str "loc" ++ '>' :: (escapeText e.Loc.data ++ '<' :: '/' :: (str "loc" ++ '>' :: (nl 1 ++ ('<' :: '/' :: (str "sitemap" ++ '>' :: (renderFrags (frags (es.flatMap sitemapEntryFrags)) ++ W)))))))))) stk (by decide) fuel hb
      obtain ⟨g, rfl⟩ : ∃ g, f1 = g + 1 := ⟨f1 - 1, by omega⟩
      have hinner := parseEntryLoop_children_noLm e.Loc hloc
        (renderFrags (frags (es.flatMap sitemapEntryFrags)) ++ W) stk g
        (by
          simp only [List.length_cons, List.length_append, hl1, hl2] at hb1 ⊢
          omega)
      have hstep := parseIndexLoop_sitemap g acc (nl 2 ++ ('<' :: (str "loc" ++ '>' :: (escapeText e.Loc.data ++ '<' :: '/' :: (str "loc" ++ '>' :: (nl 1 ++ ('<' :: '/' :: (str "sitemap" ++ '>' :: (renderFrags (frags (es.flatMap sitemapEntryFrags)) ++ W))))))))) stk ⟨e.Loc, none⟩
        ⟨renderFrags (frags (es.flatMap sitemapEntryFrags)) ++ W, stk, false⟩ hinner
      have heta : (⟨e.Loc, none⟩ : SitemapEntry) = e := by rw [← hE]
      rw [heta] at hstep
      obtain ⟨f2, hb2, he2⟩ := ih ihgood (acc ++ [e]) W stk g
        (by
          simp only [List.length_cons, List.length_append, hl1, hl2] at hb1 ⊢
          omega)
      have hacc : (acc ++ [e]) ++ es = acc ++ e :: es := by simp
      rw [hacc] at he2
      exact ⟨f2, hb2, he1.trans (hstep.trans he2)⟩

theorem sitemapindex_generate_parse (si : SitemapIndex)
    (hgood : ∀ e ∈ si.Sitemaps, xmlSafe e.Loc = true ∧
      ∀ t, e.LastMod = some t → t.valid = true) :
    ParseXMLSitemapIndex (SitemapIndex.renderXML si) =
      .ok ⟨nsnameSplit (str "sitemapindex"), "", si.Sitemaps⟩ := by
  obtain ⟨n0, x0, entries⟩ := si
  cases entries with
  | nil => rfl
  | cons e0 es0 =>
    have hra0 : renderAttrs ([] : List (List Char × List Char)) = [] := rfl
    have hl0 : (nl 0).length = 1 := rfl
    have hl1 : (nl 1).length = 3 := rfl
    have hl2 : (nl 2).length = 5 := rfl
    have hdoc : (SitemapIndex.renderXML ⟨n0, x0, e0 :: es0⟩).data =
        str "<?xml version=\"1.0\" encoding=\"UTF-8\"?>\n" ++ ('<' :: (str "sitemapindex" ++ renderAttrs ([] : List (List Char × List Char)) ++ '>' :: (renderFrags (frags ((e0 :: es0).flatMap sitemapEntryFrags)) ++ (nl 0 ++ ('<' :: ('/' :: (str "sitemapindex" ++ '>' :: ([] : List Char)))))))) := by
      simp only [SitemapIndex.renderXML]
      simp only [List.isEmpty_cons, Bool.false_eq_true, if_false]
      simp only [renderFrags_frags_append, frags, renderFrags_cons, renderFrags_nil,
        renderFrag_fraw, renderFrag_elem, hra0, xmlHeaderChars]
      simp [renderFrags_frags_append, frags, renderFrags_cons, renderFrags_nil,
        renderFrag_fraw, List.append_assoc]
    have hfr : findRoot ((str "<?xml version=\"1.0\" encoding=\"UTF-8\"?>\n" ++ ('<' :: (str "sitemapindex" ++ renderAttrs ([] : List (List Char × List Char)) ++ '>' :: (renderFrags (frags ((e0 :: es0).flatMap sitemapEntryFrags)) ++ (nl 0 ++ ('<' :: ('/' :: (str "sitemapindex" ++ '>' :: ([] : List Char))))))))).length + 1) ⟨str "<?xml version=\"1.0\" encoding=\"UTF-8\"?>\n" ++ ('<' :: (str "sitemapindex" ++ renderAttrs ([] : List (List Char × List Char)) ++ '>' :: (renderFrags (frags ((e0 :: es0).flatMap sitemapEntryFrags)) ++ (nl 0 ++ ('<' :: ('/' :: (str "sitemapindex" ++ '>' :: ([] : List Char)))))))), [], false⟩ =
        .ok (nsnameSplit (str "sitemapindex"),
          ([] : List (List Char × List Char)).map (fun a => (nsnameSplit a.1, a.2)),
          ⟨renderFrags (frags ((e0 :: es0).flatMap sitemapEntryFrags)) ++ (nl 0 ++ ('<' :: ('/' :: (str "sitemapindex" ++ '>' :: ([] : List Char))))), [nsnameSplit (str "sitemapindex")], false⟩) := by
      obtain ⟨f1, hb1, he1⟩ := findRoot_header_ex ('<' :: (str "sitemapindex" ++ renderAttrs ([] : List (List Char × List Char)) ++ '>' :: (renderFrags (frags ((e0 :: es0).flatMap sitemapEntryFrags)) ++ (nl 0 ++ ('<' :: ('/' :: (str "sitemapindex" ++ '>' :: ([] : List Char)))))))) []
        ((str "<?xml version=\"1.0\" encoding=\"UTF-8\"?>\n" ++ ('<' :: (str "sitemapindex" ++ renderAttrs ([] : List (List Char × List Char)) ++ '>' :: (renderFrags (frags ((e0 :: es0).flatMap sitemapEntryFrags)) ++ (nl 0 ++ ('<' :: ('/' :: (str "sitemapindex" ++ '>' :: ([] : List Char))))))))).length + 1)
        (by simp only [List.length_append, List.length_cons, List.length_nil,
              hl0, hl1, hl2]; omega)
      obtain ⟨f2, hb2, he2⟩ := findRoot_text_ex '\n' [] (str "sitemapindex" ++ renderAttrs ([] : List (List Char × List Char)) ++ '>' :: (renderFrags (frags ((e0 :: es0).flatMap sitemapEntryFrags)) ++ (nl 0 ++ ('<' :: ('/' :: (str "sitemapindex" ++ '>' :: ([] : List Char))))))) [] (by decide) f1 hb1
      exact he1.trans (he2.trans (findRoot_start_ex (str "sitemapindex") (by decide)
        ([] : List (List Char × List Char)) (by decide) _ [] f2 (by omega)))
    have hloop : parseIndexLoop ((str "<?xml version=\"1.0\" encoding=\"UTF-8\"?>\n" ++ ('<' :: (str "sitemapindex" ++ renderAttrs ([] : List (List Char × List Char)) ++ '>' :: (renderFrags (frags ((e0 :: es0).flatMap sitemapEntryFrags)) ++ (nl 0 ++ ('<' :: ('/' :: (str "sitemapindex" ++ '>' :: ([] : List Char))))))))).length + 1) []
        ⟨renderFrags (frags ((e0 :: es0).flatMap sitemapEntryFrags)) ++ (nl 0 ++ ('<' :: ('/' :: (str "sitemapindex" ++ '>' :: ([] : List Char))))), [nsnameSplit (str "sitemapindex")], false⟩ =
        .ok (e0 :: es0, ⟨[], [], false⟩) := by
      have hnl0 : nl 0 = ['\n'] := rfl
      obtain ⟨f1, hb1, he1⟩ := parseIndexLoop_entries (e0 :: es0) hgood []
        (nl 0 ++ ('<' :: ('/' :: (str "sitemapindex" ++ '>' :: ([] : List Char))))) [nsnameSplit (str "sitemapindex")]
        ((str "<?xml version=\"1.0\" encoding=\"UTF-8\"?>\n" ++ ('<' :: (str "sitemapindex" ++ renderAttrs ([] : List (List Char × List Char)) ++ '>' :: (renderFrags (frags ((e0 :: es0).flatMap sitemapEntryFrags)) ++ (nl 0 ++ ('<' :: ('/' :: (str "sitemapindex" ++ '>' :: ([] : List Char))))))))).length + 1)
        (by simp only [List.length_append, List.length_cons, List.length_nil,
              hl0, hl1, hl2]; omega)
      rw [hnl0] at he1
      obtain ⟨f2, hb2, he2⟩ := parseIndexLoop_text_ex (([] : List SitemapEntry) ++ (e0 :: es0))
        '\n' [] ('/' :: (str "sitemapindex" ++ '>' :: ([] : List Char)))
        [nsnameSplit (str "sitemapindex")] (by decide) f1 hb1
      obtain ⟨g, rfl⟩ : ∃ g, f2 = g + 1 := ⟨f2 - 1, by omega⟩
      have hend := parseIndexLoop_etag g (([] : List SitemapEntry) ++ (e0 :: es0))
        (str "sitemapindex") [] (by decide) []
      have := he1.trans (he2.trans hend)
      simpa using this
    refine ?_
    unfold ParseXMLSitemapIndex
    simp only []
    rw [hdoc, hfr]
    simp only []
    rw [if_pos (show (nsnameSplit (str "sitemapindex")).Local = "sitemapindex" from by decide),
      hloop]
theorem foldl_add_sitemaps (adds : List (String × GoTime)) :
    ∀ si : SitemapIndex,
    (adds.foldl (fun s a => s.Add a.1 a.2) si).Sitemaps =
      si.Sitemaps ++ adds.map (fun a => (⟨a.1, some a.2⟩ : SitemapEntry)) := by
  induction adds with
  | nil => intro si; simp
  | cons a r ih =>
    intro si
    simp only [List.foldl_cons, List.map_cons]
    rw [ih]
    simp [SitemapIndex.Add]

/-- C2: for a SitemapIndex built via MakeSitemapIndex and any sequence of Add
calls whose entries are representable (XML-safe locs; any lastMod that is
present — absent ones are fine — is a valid timestamp), GenerateXML
succeeds and ParseXMLSitemapIndex on its output returns an index with the
same entries, in the same order. -/
theorem sitemapindex_roundtrip (entries0 : List SitemapEntry)
    (adds : List (String × GoTime))
    (hgood0 : ∀ e ∈ entries0, xmlSafe e.Loc = true ∧
      ∀ t, e.LastMod = some t → t.valid = true)
    (hadds : ∀ a ∈ adds, xmlSafe a.1 = true ∧ a.2.valid = true) :
    ∃ (doc : String) (si' : SitemapIndex),
      SitemapIndex.GenerateXML
        (adds.foldl (fun s a => s.Add a.1 a.2) (MakeSitemapIndex entries0)) = some doc ∧
      ParseXMLSitemapIndex doc = .ok si' ∧
      si'.Sitemaps =
        (adds.foldl (fun s a => s.Add a.1 a.2) (MakeSitemapIndex entries0)).Sitemaps := by
  have hfold := foldl_add_sitemaps adds (MakeSitemapIndex entries0)
  have hm : (MakeSitemapIndex entries0).Sitemaps = entries0 := rfl
  have hg : ∀ e ∈ (adds.foldl (fun s a => s.Add a.1 a.2) (MakeSitemapIndex entries0)).Sitemaps,
      xmlSafe e.Loc = true ∧ ∀ t, e.LastMod = some t → t.valid = true := by
    intro e he
    rw [hfold, hm] at he
    rcases List.mem_append.mp he with h | h
    · exact hgood0 e h
    · obtain ⟨a, ha, rfl⟩ := List.mem_map.mp h
      refine ⟨(hadds a ha).1, ?_⟩
      intro t' ht'
      cases ht'
      exact (hadds a ha).2
  have hok : (adds.foldl (fun s a => s.Add a.1 a.2)
      (MakeSitemapIndex entries0)).Sitemaps.all SitemapEntry.marshalOk = true := by
    rw [List.all_eq_true]
    intro e he
    obtain ⟨-, hv⟩ := hg e he
    cases hE : e.LastMod with
    | none => simp [SitemapEntry.marshalOk, hE]
    | some t =>
      simp [SitemapEntry.marshalOk, hE, marshalTimeOk_of_valid t (hv t hE)]
  refine ⟨SitemapIndex.renderXML (adds.foldl (fun s a => s.Add a.1 a.2)
      (MakeSitemapIndex entries0)),
    ⟨nsnameSplit (str "sitemapindex"), "",
    (adds.foldl (fun s a => s.Add a.1 a.2) (MakeSitemapIndex entries0)).Sitemaps⟩,
    ?_, ?_, rfl⟩
  · exact generateXML_index_ok _ hok
  · exact sitemapindex_generate_parse _ hg

theorem sitemapindex_roundtrip_witness :
    ∃ (doc : String) (si' : SitemapIndex),
      SitemapIndex.GenerateXML
        (([("https://example.com/a.xml", (⟨2024, 1, 2, 3, 4, 5, 0, 0⟩ : GoTime)),
           ("https://example.com/b.xml", (⟨2025, 6, 7, 8, 9, 10, 0, 0⟩ : GoTime))]
          : List (String × GoTime)).foldl (fun s a => s.Add a.1 a.2)
          (MakeSitemapIndex [⟨"https://example.com/none.xml", none⟩])) = some doc ∧
      ParseXMLSitemapIndex doc = .ok si' ∧
      si'.Sitemaps =
        (([("https://example.com/a.xml", (⟨2024, 1, 2, 3, 4, 5, 0, 0⟩ : GoTime)),
           ("https://example.com/b.xml", (⟨2025, 6, 7, 8, 9, 10, 0, 0⟩ : GoTime))]
          : List (String × GoTime)).foldl (fun s a => s.Add a.1 a.2)
          (MakeSitemapIndex [⟨"https://example.com/none.xml", none⟩])).Sitemaps :=
  sitemapindex_roundtrip [⟨"https://example.com/none.xml", none⟩]
    [("https://example.com/a.xml", (⟨2024, 1, 2, 3, 4, 5, 0, 0⟩ : GoTime)),
     ("https://example.com/b.xml", (⟨2025, 6, 7, 8, 9, 10, 0, 0⟩ : GoTime))]
    (by decide) (by decide)
theorem sitemapindex_roundtrip_counterexample :
    ∃ (doc : String) (si' : SitemapIndex),
      SitemapIndex.GenerateXML
        (SitemapIndex.Add (MakeSitemapIndex [])
          "\x00" ⟨2024, 1, 2, 3, 4, 5, 0, 0⟩) = some doc ∧
      ParseXMLSitemapIndex doc = .ok si' ∧
      si'.Sitemaps ≠
        (SitemapIndex.Add (MakeSitemapIndex [])
          "\x00" ⟨2024, 1, 2, 3, 4, 5, 0, 0⟩).Sitemaps := by
  refine ⟨_, ⟨nsnameSplit (str "sitemapindex"), "",
    [⟨"\uFFFD", some ⟨2024, 1, 2, 3, 4, 5, 0, 0⟩⟩]⟩, rfl, rfl, ?_⟩
  decide
theorem readName_all (nm : List Char) (h : nameGood nm = true) :
    readName nm = some (nm, []) := by
  match nm, h with
  | c :: nr, h =>
    simp only [nameGood, Bool.and_eq_true, List.all_eq_true] at h
    obtain ⟨hstart, hall⟩ := h
    have hspan := takeWhile_all_self (c :: nr) hall
    rw [readName, hspan.1, hspan.2, if_pos hstart]

theorem next_start_truncated (nm : List Char) (h : nameGood nm = true)
    (stk : List XmlName) :
    next ⟨'<' :: nm, stk, false⟩ = .error .eof := by
  match nm, h with
  | c₀ :: nr, h =>
    have hstart : isNameStartCh c₀ = true := by
      simp only [nameGood, Bool.and_eq_true] at h
      exact h.1
    obtain ⟨_, _, _, _, h5, h6, h7, _, _, _⟩ := nameStart_not_special c₀ hstart
    have h1 := readName_all (c₀ :: nr) h
    unfold next
    rw [if_neg Bool.false_ne_true]
    dsimp only
    split
    · rename_i heq
      cases heq
    · rename_i r heq
      rw [List.cons.injEq] at heq
      obtain ⟨-, hr⟩ := heq
      subst hr
      split
      · rename_i heq2
        rw [List.cons.injEq] at heq2
        exact absurd heq2.1 h5
      · rename_i heq2
        rw [List.cons.injEq] at heq2
        exact absurd heq2.1 h6
      · rename_i heq2
        rw [List.cons.injEq] at heq2
        exact absurd heq2.1 h7
      · rw [h1]
        rfl
    · rename_i hnil hlt
      exact absurd rfl (hlt (c₀ :: nr))

theorem findRoot_truncated (nm : List Char) (h : nameGood nm = true) (f : Nat)
    (stk : List XmlName) :
    findRoot (f + 1) ⟨'<' :: nm, stk, false⟩ = .error .eof := by
  rw [findRoot, next_start_truncated nm h stk]
theorem parse_error_contract_counterexample :
    specWellFormedXml "<sitemapindex></sitemapindex><oops" = false ∧
    ∃ si' : SitemapIndex,
      ParseXMLSitemapIndex "<sitemapindex></sitemapindex><oops" = .ok si' :=
  ⟨by decide, ⟨nsnameSplit (str "sitemapindex"), "", []⟩, rfl⟩

/-- C9: amended — the parsers reject the malformed input they actually read:
a document that is a bare unterminated start tag makes both ParseXMLSitemapIndex
and ParseXMLUrlSet return an error, for every tag name, and well-formed
documents containing unrecognized extra elements are accepted with the unknown
elements ignored rather than rejected.  The original unconditional claim is
refuted by the counterexample: input after the root's end tag is never read,
so a document that is not well-formed XML only past that point parses
successfully. -/
theorem parse_error_tolerance (nm : List Char) (h : nameGood nm = true) :
    ((∃ e1, ParseXMLSitemapIndex ⟨'<' :: nm⟩ = .error e1) ∧
     (∃ e2, ParseXMLUrlSet ⟨'<' :: nm⟩ = .error e2)) ∧
    (specWellFormedXml "<sitemapindex><unknown>x</unknown></sitemapindex>" = true ∧
     (∃ si', ParseXMLSitemapIndex "<sitemapindex><unknown>x</unknown></sitemapindex>" =
        .ok si' ∧ si'.Sitemaps = [])) ∧
    (specWellFormedXml "<urlset><unknown>x</unknown></urlset>" = true ∧
     (∃ us', ParseXMLUrlSet "<urlset><unknown>x</unknown></urlset>" =
        .ok us' ∧ us'.URLs = [])) := by
  refine ⟨⟨⟨.eof, ?_⟩, ⟨.eof, ?_⟩⟩,
    ⟨by decide, ⟨⟨nsnameSplit (str "sitemapindex"), "", []⟩, rfl, rfl⟩⟩,
    ⟨by decide, ⟨⟨nsnameSplit (str "urlset"), "", "", "", "", []⟩, rfl, rfl⟩⟩⟩
  · unfold ParseXMLSitemapIndex
    simp only []
    rw [findRoot_truncated nm h _ []]
  · unfold ParseXMLUrlSet
    simp only []
    rw [findRoot_truncated nm h _ []]

theorem parse_error_tolerance_witness :
    ((∃ e1, ParseXMLSitemapIndex ⟨'<' :: str "a"⟩ = .error e1) ∧
     (∃ e2, ParseXMLUrlSet ⟨'<' :: str "a"⟩ = .error e2)) ∧
    (specWellFormedXml "<sitemapindex><unknown>x</unknown></sitemapindex>" = true ∧
     (∃ si', ParseXMLSitemapIndex "<sitemapindex><unknown>x</unknown></sitemapindex>" =
        .ok si' ∧ si'.Sitemaps = [])) ∧
    (specWellFormedXml "<urlset><unknown>x</unknown></urlset>" = true ∧
     (∃ us', ParseXMLUrlSet "<urlset><unknown>x</unknown></urlset>" =
        .ok us' ∧ us'.URLs = [])) :=
  parse_error_tolerance (str "a") (by decide)
